import Mathlib

/-!
# symphony-3d: playback instances and the audio engine

A shallow embedding of `app/src/main/cpp/openalplayer.cpp`.

* Handles (`ALuint`) are natural numbers, `AL_NONE = 0`; pointers are natural
  numbers with `0` for `nullptr`.
* `float` and `double` values are carried as rationals.  Every arithmetic operation
  and conversion on them is rounded to its format as IEEE 754 does (round to nearest,
  ties to even); infinities and NaN are not modelled.
* Every call that leaves the two classes (OpenAL, JNI, the decoder, the helpers of
  `utils.h`, thread creation) is recorded as a `Call`; each operation returns the
  list of calls it issued, in program order.  Logging is not recorded.
* What the outside world answers (a generated handle, an error code, a decoded
  buffer pair) is an argument of the operation that asks for it.
* Every public engine operation holds `m_soundsMutex` for its whole body, so an
  engine run is a sequence of operations; a monitor thread that fires is the
  operation `onSoundFinished`.
-/

namespace Symphony

/-! ## Backend vocabulary -/

abbrev ALuint := Nat
abbrev ALint := Int
abbrev ALenum := Int
abbrev ALfloat := Rat
abbrev SoundId := String
abbrev Ptr := Nat

/-- Value of `AL_NONE` in the OpenAL header `AL/al.h`. -/
def AL_NONE : ALuint := 0
/-- Value of `AL_NO_ERROR` in `AL/al.h`. -/
def AL_NO_ERROR : ALenum := 0
/-- Value of `AL_TRUE` in `AL/al.h`. -/
def AL_TRUE : ALint := 1
/-- Source state `AL_INITIAL` in `AL/al.h`. -/
def AL_INITIAL : ALint := 0x1011
/-- Source state `AL_PLAYING` in `AL/al.h`. -/
def AL_PLAYING : ALint := 0x1012
/-- Source state `AL_PAUSED` in `AL/al.h`. -/
def AL_PAUSED : ALint := 0x1013
/-- Source state `AL_STOPPED` in `AL/al.h`. -/
def AL_STOPPED : ALint := 0x1014
/-- The null pointer. -/
def nullptr : Ptr := 0

/-- Parameter names passed to the OpenAL getters and setters used by the engine. -/
inductive Param where
  | AL_SOURCE_RELATIVE
  | AL_POSITION
  | AL_VELOCITY
  | AL_ORIENTATION
  | AL_BUFFER
  | AL_SEC_OFFSET
  | AL_SOURCE_STATE
deriving DecidableEq, Repr

/-- One call that leaves `SoundInstance` / `AudioEngine`. -/
inductive Call where
  | LoadSound (filename : String)
  | alGenSources (source : ALuint)
  | alSourcei (source : ALuint) (param : Param) (value : ALint)
  | alSource3f (source : ALuint) (param : Param) (x y z : ALfloat)
  | alSourcef (source : ALuint) (param : Param) (value : ALfloat)
  | alGetSourcef (source : ALuint) (param : Param)
  | alGetSourcei (source : ALuint) (param : Param)
  | alGetError
  | alSourcePlay (source : ALuint)
  | alSourcePause (source : ALuint)
  | alSourceStop (source : ALuint)
  | alDeleteSources (source : ALuint)
  | alDeleteBuffers (buffer : ALuint)
  | getDurationSeconds (buffer : ALuint)
  | setPosition (source : ALuint) (angle radius height : ALfloat)
  | monitorThread (source : ALuint) (onFinished : SoundId)
  | alcOpenDevice
  | loadHRTF (device : Ptr) (hrtfname : String)
  | alcCreateContext (device : Ptr)
  | alcMakeContextCurrent (context : Ptr)
  | alcDestroyContext (context : Ptr)
  | alcCloseDevice (device : Ptr)
  | alcSuspendContext (context : Ptr)
  | alcProcessContext (context : Ptr)
  | alListener3f (param : Param) (x y z : ALfloat)
  | alListenerfv (param : Param) (values : List ALfloat)
  | AttachCurrentThread (vm : Ptr)
  | DetachCurrentThread (vm : Ptr)
  | NewGlobalRef (callback : Ptr)
  | DeleteGlobalRef (ref : Ptr)
  | GetObjectClass (ref : Ptr)
  | GetMethodID
  | NewStringUTF (text : String)
  | CallVoidMethod (ref : Ptr) (arg : String)
  | DeleteLocalRef
deriving DecidableEq, Repr

/-! ## Floating-point rounding -/

/-- Round a rational to the nearest integer, a tie going to the even neighbour. -/
def roundTiesToEven (z : ℚ) : ℤ :=
  if z - ⌊z⌋ < 1 / 2 then ⌊z⌋
  else if 1 / 2 < z - ⌊z⌋ then ⌊z⌋ + 1
  else if ⌊z⌋ % 2 = 0 then ⌊z⌋
  else ⌊z⌋ + 1

/-- The exponent of the unit in the last place of `x` in a binary floating-point format
with `p` significant bits whose smallest positive value is `2 ^ qmin`. -/
def quantum (p : ℕ) (qmin : ℤ) (x : ℚ) : ℤ := max (Int.log 2 |x| - (p - 1)) qmin

/-- The value of the format nearest to `x`, ties to even: the rounding that every IEEE 754
operation and conversion applies to its exact result.  The exponent range is bounded
below (gradual underflow) and not above: overflow to infinity is not modelled, so the
value agrees with the arithmetic wherever that stays finite. -/
def roundToFormat (p : ℕ) (qmin : ℤ) (x : ℚ) : ℚ :=
  roundTiesToEven (x / 2 ^ quantum p qmin x) * 2 ^ quantum p qmin x

/-- Rounding to `float` (binary32: 24 significant bits, smallest positive value 2^-149). -/
def toFloat (x : ℚ) : ALfloat := roundToFormat 24 (-149) x

/-- Rounding to `double` (binary64: 53 significant bits, smallest positive value
2^-1074). -/
def toDouble (x : ℚ) : ℚ := roundToFormat 53 (-1074) x

/-- The macro `M_PI` of `<cmath>`, 3.14159265358979323846 as a `double`: the binary64
value nearest to π. -/
def M_PI : ℚ := 884279719003555 / 2 ^ 48

/-! ## SoundInstance -/

/-- The fields of `class SoundInstance`. -/
structure SoundInstance where
  m_filePath : String
  m_soundId : SoundId
  m_sources : ALuint × ALuint
  m_buffers : ALuint × ALuint
  m_duration : ALfloat
  m_isPlaying : Bool
deriving DecidableEq, Repr

/-- What the outside world answers during `SoundInstance::load`. -/
structure LoadEnv where
  /-- the pair returned by `LoadSound(m_filePath)` -/
  decoded : ALuint × ALuint
  /-- handle written by the first `alGenSources` -/
  source1 : ALuint
  /-- handle written by the second `alGenSources` (stereo only) -/
  source2 : ALuint
  /-- value returned by `getDurationSeconds(m_buffers.first)` -/
  duration : ALfloat
deriving DecidableEq, Repr

namespace SoundInstance

/-- The constructor `SoundInstance(filePath, soundId)`. -/
def new (filePath : String) (soundId : SoundId) : SoundInstance :=
  { m_filePath := filePath, m_soundId := soundId,
    m_sources := (AL_NONE, AL_NONE), m_buffers := (AL_NONE, AL_NONE),
    m_duration := 0, m_isPlaying := false }

/-- Member `hasStereo()`: a second buffer is present. -/
def hasStereo (s : SoundInstance) : Bool := s.m_buffers.2 != AL_NONE

def getDuration (s : SoundInstance) : ALfloat := s.m_duration

def getId (s : SoundInstance) : SoundId := s.m_soundId

def isPlaying (s : SoundInstance) : Bool := s.m_isPlaying

/-- Member `setupSource(source, buffer)`. -/
def setupSource (source buffer : ALuint) : List Call :=
  [Call.alSourcei source Param.AL_SOURCE_RELATIVE AL_TRUE,
   Call.alSource3f source Param.AL_POSITION 0 0 (-1),
   Call.alSourcei source Param.AL_BUFFER (buffer : Int),
   Call.alGetError]

/-- Member `load()`: returns the success flag, the instance afterwards and the calls issued. -/
def load (s : SoundInstance) (env : LoadEnv) : Bool × SoundInstance × List Call :=
  let s1 := { s with m_buffers := env.decoded }
  if s1.m_buffers.1 = 0 then
    (false, s1, [Call.LoadSound s.m_filePath])
  else
    let s2 := { s1 with m_sources := (env.source1, s1.m_sources.2) }
    let c2 := Call.alGenSources env.source1 :: setupSource s2.m_sources.1 s2.m_buffers.1
    let s3 : SoundInstance :=
      if s2.m_buffers.2 != AL_NONE then
        { s2 with m_sources := (s2.m_sources.1, env.source2) }
      else
        { s2 with m_sources := (s2.m_sources.1, AL_NONE) }
    let c3 : List Call :=
      if s2.m_buffers.2 != AL_NONE then
        Call.alGenSources env.source2 :: setupSource env.source2 s2.m_buffers.2
      else []
    (true, { s3 with m_duration := env.duration },
      [Call.LoadSound s.m_filePath] ++ c2 ++ c3 ++ [Call.getDurationSeconds s3.m_buffers.1])

/-- Member `play(onFinished)`: the callback is named by the identifier it will report. -/
def play (s : SoundInstance) (onFinished : SoundId) : SoundInstance × List Call :=
  if s.m_isPlaying then (s, [])
  else
    let s1 := { s with m_isPlaying := true }
    (s1, [Call.alSourcePlay s1.m_sources.1]
      ++ (if s1.hasStereo then [Call.alSourcePlay s1.m_sources.2] else [])
      ++ [Call.monitorThread s1.m_sources.1 onFinished])

/-- Member `stop()`. -/
def stop (s : SoundInstance) : SoundInstance × List Call :=
  let s0 := { s with m_isPlaying := false }
  let c1 : List Call :=
    if s0.m_sources.1 != AL_NONE then
      [Call.alSourceStop s0.m_sources.1, Call.alDeleteSources s0.m_sources.1] else []
  let s1 := if s0.m_sources.1 != AL_NONE then { s0 with m_sources := (AL_NONE, s0.m_sources.2) } else s0
  let c2 : List Call :=
    if s1.m_sources.2 != AL_NONE then
      [Call.alSourceStop s1.m_sources.2, Call.alDeleteSources s1.m_sources.2] else []
  let s2 := if s1.m_sources.2 != AL_NONE then { s1 with m_sources := (s1.m_sources.1, AL_NONE) } else s1
  let c3 : List Call :=
    if s2.m_buffers.1 != AL_NONE then [Call.alDeleteBuffers s2.m_buffers.1] else []
  let s3 := if s2.m_buffers.1 != AL_NONE then { s2 with m_buffers := (AL_NONE, s2.m_buffers.2) } else s2
  let c4 : List Call :=
    if s3.m_buffers.2 != AL_NONE then [Call.alDeleteBuffers s3.m_buffers.2] else []
  let s4 := if s3.m_buffers.2 != AL_NONE then { s3 with m_buffers := (s3.m_buffers.1, AL_NONE) } else s3
  (s4, c1 ++ c2 ++ c3 ++ c4)

/-- The destructor `~SoundInstance()`: runs `stop()`; the object is gone afterwards. -/
def destroy (s : SoundInstance) : List Call := (s.stop).2

/-- Member `pause()`. -/
def pause (s : SoundInstance) : SoundInstance × List Call :=
  if !s.m_isPlaying then (s, [])
  else
    (s, [Call.alSourcePause s.m_sources.1]
      ++ (if s.hasStereo then [Call.alSourcePause s.m_sources.2] else []))

/-- Member `resume()`. -/
def resume (s : SoundInstance) : SoundInstance × List Call :=
  if !s.m_isPlaying then (s, [])
  else
    (s, [Call.alSourcePlay s.m_sources.1]
      ++ (if s.hasStereo then [Call.alSourcePlay s.m_sources.2] else []))

/-- Member `updatePosition(angle, radius, height, stereoAngle)`: calls into `setPosition`
of `utils.h`; `stereoAngle / 2` and the two angles are `float` results. -/
def updatePosition (s : SoundInstance) (angle radius height stereoAngle : ALfloat) : List Call :=
  if !s.hasStereo then
    [Call.setPosition s.m_sources.1 angle radius height]
  else
    [Call.setPosition s.m_sources.1 (toFloat (angle - toFloat (stereoAngle / 2))) radius height,
     Call.setPosition s.m_sources.2 (toFloat (angle + toFloat (stereoAngle / 2))) radius height]

/-- Member `setPlaybackTime(seconds)`. -/
def setPlaybackTime (s : SoundInstance) (seconds : ALfloat) : List Call :=
  [Call.alSourcef s.m_sources.1 Param.AL_SEC_OFFSET seconds]
    ++ (if s.hasStereo then [Call.alSourcef s.m_sources.2 Param.AL_SEC_OFFSET seconds] else [])

/-- Member `getPlaybackTime()`: `written` is what `alGetSourcef` stores (nothing on failure),
`error` is what `alGetError()` then returns. -/
def getPlaybackTime (s : SoundInstance) (written : Option ALfloat) (error : ALenum) :
    ALfloat × List Call :=
  let seconds : ALfloat := written.getD 0
  (if error = AL_NO_ERROR then seconds else -1,
    [Call.alGetSourcef s.m_sources.1 Param.AL_SEC_OFFSET, Call.alGetError])

end SoundInstance

/-! ## The monitor thread started by `play` -/

/-- What one turn of the monitor loop observes. -/
structure Poll where
  /-- Result of `alGetError()` in the loop condition -/
  error : ALenum
  /-- the state written by `alGetSourcei(m_sources.first, AL_SOURCE_STATE, &state)` -/
  state : ALint
  /-- Flag `m_isPlaying` as the loop condition reads it -/
  isPlaying : Bool
  /-- Flag `m_isPlaying` as `if (m_isPlaying)` reads it, should the loop end at this turn -/
  isPlayingAfter : Bool
deriving DecidableEq, Repr

/-- Where a monitor thread stands once the given observations are used up. -/
inductive MonitorRun where
  /-- the loop has not ended: the thread sleeps before its next poll -/
  | polling
  /-- the loop ended at poll number `atPoll` (from 0) and the thread returned after
  calling `onFinished` the given number of times -/
  | exited (atPoll : Nat) (onFinishedCalls : Nat)
deriving DecidableEq, Repr

/-- The loop condition `alGetError() == AL_NO_ERROR && state == AL_PLAYING && m_isPlaying`. -/
def Poll.continues (p : Poll) : Bool :=
  decide (p.error = AL_NO_ERROR) && decide (p.state = AL_PLAYING) && p.isPlaying

/-- The body of the monitor lambda, run on a list of observations; `n` counts the polls
already made. -/
def monitorLoop : Nat → List Poll → MonitorRun
  | _, [] => MonitorRun.polling
  | n, p :: rest =>
    if p.continues then monitorLoop (n + 1) rest
    else MonitorRun.exited n (if p.isPlayingAfter then 1 else 0)

/-- The monitor thread from its start. -/
def monitorThread (polls : List Poll) : MonitorRun := monitorLoop 0 polls

/-! ## Identifier generation -/

/-- Wrap an integer into the range of a 32-bit two's complement `int`, as arithmetic on
`std::atomic<int>` does. -/
def wrapInt32 (x : Int) : Int := (x + 2 ^ 31) % 2 ^ 32 - 2 ^ 31

/-- Library function `std::to_string(int)`: decimal digits, with a leading minus sign for negatives. -/
def to_string (n : Int) : String := toString n

/-- Library function `std::string::find_last_of(set)`: index of the last character that occurs in `set`,
`none` for `npos`. -/
def find_last_of : List Char → List Char → Option Nat
  | [], _ => none
  | c :: cs, set =>
    match find_last_of cs set with
    | some i => some (i + 1)
    | none => if set.contains c then some 0 else none

/-- Function `AudioEngine::generateSoundID(filePath)` on the current value of its static counter:
returns the identifier and the counter afterwards. -/
def generateSoundID (counter : Int) (filePath : String) : SoundId × Int :=
  let lastSlash := find_last_of filePath.data ['/', Char.ofNat 92]
  let fileName : String :=
    match lastSlash with
    | some i => String.mk (filePath.data.drop (i + 1))
    | none => filePath
  let idNumber := wrapInt32 (counter + 1)
  (to_string idNumber ++ "_" ++ fileName, idNumber)

/-- The value of the static counter after `n` calls of `generateSoundID` from `counter`. -/
def counterAfter : Nat → Int → Int
  | 0, counter => counter
  | n + 1, counter => counterAfter n (generateSoundID counter "").2

/-- The identifier produced by the call of `generateSoundID` on `filePath` that comes after
`n` earlier calls, the static counter starting at 0. -/
def nthSoundID (n : Nat) (filePath : String) : SoundId :=
  (generateSoundID (counterAfter n 0) filePath).1

/-! ## The registry `std::map<SoundId, std::unique_ptr<SoundInstance>>` -/

abbrev Registry := List (SoundId × SoundInstance)

namespace Registry

/-- Map lookup `m.find(k)`: the instance stored under `k`, `none` for `end()`. -/
def find : Registry → SoundId → Option SoundInstance
  | [], _ => none
  | (k', v) :: rest, k => if k' = k then some v else find rest k

/-- Map removal `m.erase(k)`: keys are unique in a map, no entry with key `k` is left. -/
def erase (m : Registry) (k : SoundId) : Registry := m.filter (fun kv => kv.1 != k)

/-- Map assignment `m[k] = std::move(v)`: entries are kept in key order; an instance already stored
under `k` is displaced (and destroyed by the caller). -/
def assign : Registry → SoundId → SoundInstance → Registry × Option SoundInstance
  | [], k, v => ([(k, v)], none)
  | (k', v') :: rest, k, v =>
    if k' = k then ((k, v) :: rest, some v')
    else if k < k' then ((k, v) :: (k', v') :: rest, none)
    else ((k', v') :: (assign rest k v).1, (assign rest k v).2)

/-- Write back the instance reached through the iterator `m.find(k)` after a member
function changed it in place. -/
def update : Registry → SoundId → SoundInstance → Registry
  | [], _, _ => []
  | (k', v') :: rest, k, v =>
    if k' = k then (k', v) :: rest else (k', v') :: update rest k v

/-- The key set of the map, in iteration order. -/
def keys (m : Registry) : List SoundId := m.map Prod.fst

end Registry

/-! ## AudioEngine -/

/-- The fields of `class AudioEngine`, and the static counter of `generateSoundID`. -/
structure AudioEngine where
  m_device : Ptr
  m_context : Ptr
  m_javaVM : Ptr
  m_globalCallback : Ptr
  m_stopFlag : Bool
  m_activeSounds : Registry
  m_stereoAngle : ALfloat
  /-- The `static std::atomic<int> counter` inside `generateSoundID` -/
  counter : Int
deriving DecidableEq, Repr

/-- The array `LISTENER_ORIENTATION`. -/
def LISTENER_ORIENTATION : List ALfloat := [0, 0, 1, 0, 1, 0]

namespace AudioEngine

/-- The constructor `AudioEngine()` in a fresh process; `INITIAL_STEREO_ANGLE` is `π / 6`
in the source and is taken as a parameter here. -/
def new (INITIAL_STEREO_ANGLE : ALfloat) : AudioEngine :=
  { m_device := nullptr, m_context := nullptr, m_javaVM := nullptr,
    m_globalCallback := nullptr, m_stopFlag := false, m_activeSounds := [],
    m_stereoAngle := INITIAL_STEREO_ANGLE, counter := 0 }

/-- Member `stopAllSounds()`: every instance is stopped in key order, then `clear()` destroys
them. -/
def stopAllSounds (e : AudioEngine) : AudioEngine × List Call :=
  let stopped : Registry := e.m_activeSounds.map (fun kv => (kv.1, kv.2.stop.1))
  ({ e with m_activeSounds := [] },
    (e.m_activeSounds.map (fun kv => kv.2.stop.2)).flatten
      ++ (stopped.map (fun kv => kv.2.destroy)).flatten)

/-- Member `cleanup()`. -/
def cleanup (e : AudioEngine) : AudioEngine × List Call :=
  let e1 := (stopAllSounds e).1
  let c1 := (stopAllSounds e).2
  let c2 : List Call :=
    if e1.m_context ≠ nullptr then
      [Call.alcMakeContextCurrent nullptr, Call.alcDestroyContext e1.m_context] else []
  let e2 := if e1.m_context ≠ nullptr then { e1 with m_context := nullptr } else e1
  let c3 : List Call := if e2.m_device ≠ nullptr then [Call.alcCloseDevice e2.m_device] else []
  let e3 := if e2.m_device ≠ nullptr then { e2 with m_device := nullptr } else e2
  let c4 : List Call :=
    if e3.m_globalCallback ≠ nullptr then
      [Call.AttachCurrentThread e3.m_javaVM, Call.DeleteGlobalRef e3.m_globalCallback,
       Call.DetachCurrentThread e3.m_javaVM]
    else []
  let e4 := if e3.m_globalCallback ≠ nullptr then { e3 with m_globalCallback := nullptr } else e3
  (e4, c1 ++ c2 ++ c3 ++ c4)

/-- Member `createSound(filePath)`: returns the identifier (empty on failure). -/
def createSound (e : AudioEngine) (filePath : String) (env : LoadEnv) :
    SoundId × AudioEngine × List Call :=
  let soundId := (generateSoundID e.counter filePath).1
  let e1 := { e with counter := (generateSoundID e.counter filePath).2 }
  let sound := SoundInstance.new filePath soundId
  let loaded := sound.load env
  if !loaded.1 then
    ("", e1, loaded.2.2 ++ loaded.2.1.destroy)
  else
    let r := Registry.assign e1.m_activeSounds soundId loaded.2.1
    (soundId, { e1 with m_activeSounds := r.1 },
      loaded.2.2 ++ (match r.2 with
        | some old => old.destroy
        | none => []))

/-- Member `playSound(soundId)`. -/
def playSound (e : AudioEngine) (soundId : SoundId) : AudioEngine × List Call :=
  match Registry.find e.m_activeSounds soundId with
  | some s =>
    ({ e with m_activeSounds := Registry.update e.m_activeSounds soundId (s.play soundId).1 },
      (s.play soundId).2)
  | none => (e, [])

/-- Member `stopSound(soundId)`: `stop()`, then `erase(it)` destroys the instance. -/
def stopSound (e : AudioEngine) (soundId : SoundId) : AudioEngine × List Call :=
  match Registry.find e.m_activeSounds soundId with
  | some s =>
    ({ e with m_activeSounds := Registry.erase e.m_activeSounds soundId },
      s.stop.2 ++ s.stop.1.destroy)
  | none => (e, [])

/-- Member `pauseSound(soundId)`. -/
def pauseSound (e : AudioEngine) (soundId : SoundId) : AudioEngine × List Call :=
  match Registry.find e.m_activeSounds soundId with
  | some s =>
    ({ e with m_activeSounds := Registry.update e.m_activeSounds soundId s.pause.1 }, s.pause.2)
  | none => (e, [])

/-- Member `resumeSound(soundId)`. -/
def resumeSound (e : AudioEngine) (soundId : SoundId) : AudioEngine × List Call :=
  match Registry.find e.m_activeSounds soundId with
  | some s =>
    ({ e with m_activeSounds := Registry.update e.m_activeSounds soundId s.resume.1 }, s.resume.2)
  | none => (e, [])

/-- Member `setSoundPosition(soundId, angle, radius, height)`. -/
def setSoundPosition (e : AudioEngine) (soundId : SoundId) (angle radius height : ALfloat) :
    AudioEngine × List Call :=
  match Registry.find e.m_activeSounds soundId with
  | some s =>
    (e, [Call.alcSuspendContext e.m_context]
      ++ s.updatePosition angle radius height e.m_stereoAngle
      ++ [Call.alcProcessContext e.m_context, Call.alGetError])
  | none => (e, [])

/-- Member `setPlaybackTime(soundId, seconds)`. -/
def setPlaybackTime (e : AudioEngine) (soundId : SoundId) (seconds : ALfloat) :
    AudioEngine × List Call :=
  match Registry.find e.m_activeSounds soundId with
  | some s => (e, s.setPlaybackTime seconds)
  | none => (e, [])

/-- Member `getPlaybackTime(soundId)`; `written` and `error` are the backend answers used when
the identifier is found. -/
def getPlaybackTime (e : AudioEngine) (soundId : SoundId) (written : Option ALfloat)
    (error : ALenum) : ALfloat × List Call :=
  match Registry.find e.m_activeSounds soundId with
  | some s => s.getPlaybackTime written error
  | none => (-1, [])

/-- Member `getSoundDuration(soundId)`. -/
def getSoundDuration (e : AudioEngine) (soundId : SoundId) : ALfloat :=
  match Registry.find e.m_activeSounds soundId with
  | some s => s.getDuration
  | none => 0

/-- Member `setStereoAngle(angle)`. -/
def setStereoAngle (e : AudioEngine) (angle : ALfloat) : AudioEngine :=
  { e with m_stereoAngle := angle }

/-- Member `setCallback(env, callback)`; `newRef` is what `NewGlobalRef` returns. -/
def setCallback (e : AudioEngine) (callback newRef : Ptr) : AudioEngine × List Call :=
  ({ e with m_globalCallback := newRef },
    (if e.m_globalCallback ≠ nullptr then [Call.DeleteGlobalRef e.m_globalCallback] else [])
      ++ [Call.NewGlobalRef callback])

/-- Member `setJavaVM(vm)`. -/
def setJavaVM (e : AudioEngine) (vm : Ptr) : AudioEngine := { e with m_javaVM := vm }

/-- Member `onSoundFinished(soundId)`, as a monitor thread calls it; `methodFound` tells whether
`GetMethodID` returned a method. -/
def onSoundFinished (e : AudioEngine) (soundId : SoundId) (methodFound : Bool) :
    AudioEngine × List Call :=
  if e.m_javaVM = nullptr ∨ e.m_globalCallback = nullptr then (e, [])
  else
    ({ e with m_activeSounds := Registry.erase e.m_activeSounds soundId },
      [Call.AttachCurrentThread e.m_javaVM, Call.GetObjectClass e.m_globalCallback,
        Call.GetMethodID]
      ++ (if methodFound then
            [Call.NewStringUTF soundId, Call.CallVoidMethod e.m_globalCallback soundId,
             Call.DeleteLocalRef]
          else [])
      ++ [Call.DetachCurrentThread e.m_javaVM]
      ++ (match Registry.find e.m_activeSounds soundId with
          | some s => s.destroy
          | none => []))

end AudioEngine

/-- Member `initialize(env, selectedHrtf)`: `device`, `context` and `madeCurrent` are what
`alcOpenDevice`, `alcCreateContext` and `alcMakeContextCurrent` answer. -/
def AudioEngine.initialize (e : AudioEngine) (selectedHrtf : String) (device context : Ptr)
    (madeCurrent : Bool) : Bool × AudioEngine × List Call :=
  let e1 := { e with m_device := device }
  if e1.m_device = nullptr then (false, e1, [Call.alcOpenDevice])
  else
    let c1 := [Call.alcOpenDevice, Call.loadHRTF e1.m_device selectedHrtf,
      Call.alcCreateContext e1.m_device]
    let e2 := { e1 with m_context := context }
    if e2.m_context = nullptr then
      (false, { e2 with m_device := nullptr }, c1 ++ [Call.alcCloseDevice e2.m_device])
    else if !madeCurrent then
      (false, (AudioEngine.cleanup e2).1, c1 ++ [Call.alcMakeContextCurrent e2.m_context] ++ (AudioEngine.cleanup e2).2)
    else
      (true, e2, c1 ++ [Call.alcMakeContextCurrent e2.m_context,
        Call.alListener3f Param.AL_POSITION 0 0 1,
        Call.alListener3f Param.AL_VELOCITY 0 0 0,
        Call.alListenerfv Param.AL_ORIENTATION LISTENER_ORIENTATION])

/-! ## Engine runs -/

/-- One engine operation together with what the outside world answers during it. -/
inductive Op where
  | initializeEngine (selectedHrtf : String) (device context : Ptr) (madeCurrent : Bool)
  | cleanup
  | createSound (filePath : String) (env : LoadEnv)
  | playSound (soundId : SoundId)
  | stopSound (soundId : SoundId)
  | stopAllSounds
  | pauseSound (soundId : SoundId)
  | resumeSound (soundId : SoundId)
  | setSoundPosition (soundId : SoundId) (angle radius height : ALfloat)
  | setPlaybackTime (soundId : SoundId) (seconds : ALfloat)
  | getPlaybackTime (soundId : SoundId) (written : Option ALfloat) (error : ALenum)
  | getSoundDuration (soundId : SoundId)
  | setStereoAngle (angle : ALfloat)
  | setCallback (callback newRef : Ptr)
  | setJavaVM (vm : Ptr)
  | onSoundFinished (soundId : SoundId) (methodFound : Bool)
deriving DecidableEq, Repr

/-- The value an engine operation returns to its caller. -/
inductive Ret where
  | void
  | bool (b : Bool)
  | id (soundId : SoundId)
  | float (x : ALfloat)
deriving DecidableEq, Repr

/-- Run one operation: the engine afterwards, the returned value, the calls issued. -/
def step (e : AudioEngine) : Op → AudioEngine × Ret × List Call
  | Op.initializeEngine h d c m =>
    let r := AudioEngine.initialize e h d c m
    (r.2.1, Ret.bool r.1, r.2.2)
  | Op.cleanup => (e.cleanup.1, Ret.void, e.cleanup.2)
  | Op.createSound p env =>
    ((e.createSound p env).2.1, Ret.id (e.createSound p env).1, (e.createSound p env).2.2)
  | Op.playSound i => ((e.playSound i).1, Ret.void, (e.playSound i).2)
  | Op.stopSound i => ((e.stopSound i).1, Ret.void, (e.stopSound i).2)
  | Op.stopAllSounds => (e.stopAllSounds.1, Ret.void, e.stopAllSounds.2)
  | Op.pauseSound i => ((e.pauseSound i).1, Ret.void, (e.pauseSound i).2)
  | Op.resumeSound i => ((e.resumeSound i).1, Ret.void, (e.resumeSound i).2)
  | Op.setSoundPosition i a r h =>
    ((e.setSoundPosition i a r h).1, Ret.void, (e.setSoundPosition i a r h).2)
  | Op.setPlaybackTime i t => ((e.setPlaybackTime i t).1, Ret.void, (e.setPlaybackTime i t).2)
  | Op.getPlaybackTime i w err =>
    (e, Ret.float (e.getPlaybackTime i w err).1, (e.getPlaybackTime i w err).2)
  | Op.getSoundDuration i => (e, Ret.float (e.getSoundDuration i), [])
  | Op.setStereoAngle a => (e.setStereoAngle a, Ret.void, [])
  | Op.setCallback cb r => ((e.setCallback cb r).1, Ret.void, (e.setCallback cb r).2)
  | Op.setJavaVM vm => (e.setJavaVM vm, Ret.void, [])
  | Op.onSoundFinished i m => ((e.onSoundFinished i m).1, Ret.void, (e.onSoundFinished i m).2)

/-- Run a sequence of operations from `e`. -/
def run (e : AudioEngine) : List Op → AudioEngine
  | [] => e
  | op :: ops => run (step e op).1 ops

/-- The key set of the registry. -/
def AudioEngine.keys (e : AudioEngine) : List SoundId := Registry.keys e.m_activeSounds

/-! ## Histories of one instance and of the registry -/

/-- A member function of `SoundInstance` other than `load()` and `stop()`, with the
backend answers it uses. -/
inductive InstanceOp where
  | play (onFinished : SoundId)
  | pause
  | resume
  | updatePosition (angle radius height stereoAngle : ALfloat)
  | setPlaybackTime (seconds : ALfloat)
  | getPlaybackTime (written : Option ALfloat) (error : ALenum)
deriving DecidableEq, Repr

/-- Run one member function on an instance. -/
def SoundInstance.apply (s : SoundInstance) : InstanceOp → SoundInstance × List Call
  | InstanceOp.play f => s.play f
  | InstanceOp.pause => s.pause
  | InstanceOp.resume => s.resume
  | InstanceOp.updatePosition a r h st => (s, s.updatePosition a r h st)
  | InstanceOp.setPlaybackTime t => (s, s.setPlaybackTime t)
  | InstanceOp.getPlaybackTime w err => (s, (s.getPlaybackTime w err).2)

/-- Run member functions in sequence, no `stop()` among them, collecting the calls. -/
def SoundInstance.applyAll (s : SoundInstance) : List InstanceOp → SoundInstance × List Call
  | [] => (s, [])
  | op :: ops => ((SoundInstance.applyAll (s.apply op).1 ops).1,
      (s.apply op).2 ++ (SoundInstance.applyAll (s.apply op).1 ops).2)

/-- Is this call the start of a monitor thread? -/
def Call.isMonitorThread : Call → Bool
  | Call.monitorThread _ _ => true
  | _ => false

/-- The number of monitor threads started by a list of calls. -/
def monitorsSpawned (calls : List Call) : Nat := calls.countP Call.isMonitorThread

/-- Does `onSoundFinished` get past its guard `!m_javaVM || !m_globalCallback` and reach
`m_activeSounds.erase(soundId)`? -/
def AudioEngine.reachesErase (e : AudioEngine) : Bool :=
  !(decide (e.m_javaVM = nullptr) || decide (e.m_globalCallback = nullptr))

/-- Bookkeeping of identifiers for one operation run on `e` that returned `ret`: an
identifier returned by a successful `createSound` is added; `stopSound` and the eviction
in `onSoundFinished` remove theirs; `stopAllSounds` (also inside `cleanup`, which a failed
`alcMakeContextCurrent` makes `initialize` call) removes all. -/
def bookkeep (ids : List SoundId) (e : AudioEngine) (op : Op) (ret : Ret) : List SoundId :=
  match op, ret with
  | Op.createSound _ _, Ret.id soundId => if soundId = "" then ids else soundId :: ids
  | Op.stopSound soundId, _ => ids.filter (fun k => k != soundId)
  | Op.stopAllSounds, _ => []
  | Op.cleanup, _ => []
  | Op.initializeEngine _ device context madeCurrent, _ =>
    if device ≠ nullptr ∧ context ≠ nullptr ∧ madeCurrent = false then [] else ids
  | Op.onSoundFinished soundId _, _ =>
    if e.reachesErase then ids.filter (fun k => k != soundId) else ids
  | _, _ => ids

/-- The identifiers created and not removed over a run of operations from `e`, starting
from the bookkeeping `ids`. -/
def createdMinusRemoved (ids : List SoundId) (e : AudioEngine) : List Op → List SoundId
  | [] => ids
  | op :: ops => createdMinusRemoved (bookkeep ids e op (step e op).2.1) (step e op).1 ops

/-- Transport, positioning, query and configuration operations. -/
def Op.isTransportOrQuery : Op → Bool
  | Op.playSound _ => true
  | Op.pauseSound _ => true
  | Op.resumeSound _ => true
  | Op.setSoundPosition _ _ _ _ => true
  | Op.setPlaybackTime _ _ => true
  | Op.getPlaybackTime _ _ _ => true
  | Op.getSoundDuration _ => true
  | Op.setStereoAngle _ => true
  | _ => false

/-- The number of `createSound` calls in a sequence of operations. -/
def createCalls : List Op → Nat
  | [] => 0
  | Op.createSound _ _ :: ops => createCalls ops + 1
  | _ :: ops => createCalls ops

/-- The identifiers that `generateSoundID` produces for the `createSound` calls of a run
from `e`, in call order (whether or not the load then succeeds). -/
def generatedIds (e : AudioEngine) : List Op → List SoundId
  | [] => []
  | Op.createSound p env :: ops =>
    (generateSoundID e.counter p).1 :: generatedIds (step e (Op.createSound p env)).1 ops
  | op :: ops => generatedIds (step e op).1 ops

/-! ## `utils.h`: duration and position -/

/-- Function `getDurationSeconds(buffer)` on the four attributes that `alGetBufferi`
reports for the buffer.  The `int` products wrap at 32 bits, `/` on `int` truncates toward
zero, the sample count and the frequency are converted to `float` and divided as
`float`s; `none` stands for an integer division by zero or a division by a zero
frequency, which have no rational value. -/
def getDurationSeconds (sizeInBytes channels bits frequency : Int) : Option ALfloat :=
  if wrapInt32 (channels * bits) = 0 then none
  else
    let lengthInSamples : ALfloat :=
      toFloat (wrapInt32 (Int.tdiv (wrapInt32 (sizeInBytes * 8)) (wrapInt32 (channels * bits))))
    if frequency = 0 then none
    else some (toFloat (lengthInSamples / toFloat (frequency : ℚ)))

/-- The statement `angle -= M_PI*2.0;`: the `float` is widened to `double`, the
difference is a `double`, the assignment rounds it to `float`. -/
def subtractTwoPi (angle : ALfloat) : ALfloat :=
  toFloat (toDouble (angle - toDouble (M_PI * 2)))

/-- The statement `angle += M_PI*2.0;`. -/
def addTwoPi (angle : ALfloat) : ALfloat :=
  toFloat (toDouble (angle + toDouble (M_PI * 2)))

/-- The loop `while (angle > M_PI) angle -= M_PI*2.0;` with at most `fuel` turns of its
body; `none` when the loop has not ended by then. -/
def whileAbove : Nat → ALfloat → Option ALfloat
  | 0, angle => if angle > M_PI then none else some angle
  | fuel + 1, angle => if angle > M_PI then whileAbove fuel (subtractTwoPi angle) else some angle

/-- The loop `while (angle < M_PI) angle += M_PI*2.0;` with at most `fuel` turns of its
body; `none` when the loop has not ended by then. -/
def whileBelow : Nat → ALfloat → Option ALfloat
  | 0, angle => if angle < M_PI then none else some angle
  | fuel + 1, angle => if angle < M_PI then whileBelow fuel (addTwoPi angle) else some angle

/-- The angle that `setPosition` holds after its two loops, each given `fuel` turns. -/
def normalisedAngle (fuel : Nat) (angle : ALfloat) : Option ALfloat :=
  (whileAbove fuel angle).bind (whileBelow fuel)

/-- The arithmetic of `setPosition` that belongs to the C++ library and not to the
repository: the `ALfloat` that `alSource3f` receives for the expressions
`radius * cos(angle)` and `radius * sin(angle)`, as functions of the `float`s `radius` and
`angle` (the functions `cos` and `sin`, the overload chosen for a `float` argument and the
rounding of the product). -/
structure Libm where
  mulCos : ALfloat → ALfloat → ALfloat
  mulSin : ALfloat → ALfloat → ALfloat

/-- Function `setPosition(source, angle, radius, height)` of `utils.h`: the `alSource3f`
call it ends with, `none` when a loop has not ended within `fuel` turns. -/
def setPosition (lib : Libm) (fuel : Nat) (source : ALuint) (angle radius height : ALfloat) :
    Option Call :=
  (normalisedAngle fuel angle).map
    (fun a => Call.alSource3f source Param.AL_POSITION (lib.mulCos radius a) height
      (lib.mulSin radius a))

/-- Run the body of `setPosition` for a recorded call of it; other calls give `none`. -/
def Call.runSetPosition (lib : Libm) (fuel : Nat) : Call → Option Call
  | Call.setPosition source angle radius height =>
    Symphony.setPosition lib fuel source angle radius height
  | _ => none

/-- Member `updatePosition(angle, radius, height, stereoAngle)` with the body of each
`setPosition` call run: the `alSource3f` calls issued, in order; `none` when a loop of
one of them has not ended within `fuel` turns. -/
def SoundInstance.updatePositionCalls (s : SoundInstance) (lib : Libm) (fuel : Nat)
    (angle radius height stereoAngle : ALfloat) : Option (List Call) :=
  (s.updatePosition angle radius height stereoAngle).mapM (Call.runSetPosition lib fuel)

/-! ## `soundLoader.h`: block alignment and the stereo split -/

/-- The enumeration `FormatType`. -/
inductive FormatType where
  | Int16
  | Float
  | IMA4
  | MSADPCM
deriving DecidableEq, Repr

/-- The constant `INT_MAX` of `<limits.h>` for a 32-bit `int`. -/
def INT_MAX : Int := 2147483647

/-- The variables `sample_format`, `splblockalign` and `byteblockalign` of `LoadSound`. -/
structure BlockAlign where
  sample_format : FormatType
  splblockalign : Int
  byteblockalign : Int
deriving DecidableEq, Repr

/-- The ADPCM part of `LoadSound` (the block `if(sample_format == IMA4 || sample_format ==
MSADPCM)`).  `selected` is the sample format the `switch` chose, `channels` is
`sfinfo.channels`, `nBlockAlign` is the field `fmtbuf[12] | (fmtbuf[13]<<8)` of the wave
`fmt ` chunk, `none` when the chunk cannot be read. -/
def adpcmBlockAlign (selected : FormatType) (channels : Int) (nBlockAlign : Option Int) :
    BlockAlign :=
  if selected = FormatType.IMA4 ∨ selected = FormatType.MSADPCM then
    match nBlockAlign with
    | none => { sample_format := FormatType.Int16, splblockalign := 0, byteblockalign := 0 }
    | some byteblockalign =>
      if selected = FormatType.IMA4 then
        let splblockalign := Int.tdiv (Int.tdiv byteblockalign channels - 4) 4 * 8 + 1
        if splblockalign < 1
            ∨ (Int.tdiv (splblockalign - 1) 2 + 4) * channels ≠ byteblockalign then
          { sample_format := FormatType.Int16, splblockalign := splblockalign,
            byteblockalign := byteblockalign }
        else
          { sample_format := FormatType.IMA4, splblockalign := splblockalign,
            byteblockalign := byteblockalign }
      else
        let splblockalign := (Int.tdiv byteblockalign channels - 7) * 2 + 2
        if splblockalign < 2
            ∨ (Int.tdiv (splblockalign - 2) 2 + 7) * channels ≠ byteblockalign then
          { sample_format := FormatType.Int16, splblockalign := splblockalign,
            byteblockalign := byteblockalign }
        else
          { sample_format := FormatType.MSADPCM, splblockalign := splblockalign,
            byteblockalign := byteblockalign }
  else { sample_format := selected, splblockalign := 0, byteblockalign := 0 }

/-- The part of `LoadSound` between the format `switch` and the OpenAL format lookup: the
ADPCM block, then the block alignment of the two PCM formats. -/
def blockAlign (selected : FormatType) (channels : Int) (nBlockAlign : Option Int) :
    BlockAlign :=
  let adpcm := adpcmBlockAlign selected channels nBlockAlign
  if adpcm.sample_format = FormatType.Int16 then
    { adpcm with splblockalign := 1, byteblockalign := wrapInt32 (channels * 2) }
  else if adpcm.sample_format = FormatType.Float then
    { adpcm with splblockalign := 1, byteblockalign := wrapInt32 (channels * 4) }
  else adpcm

/-- The size in bytes of `membuf` as `LoadSound` allocates it for a file of `frames`
frames; `none` when `LoadSound` returns before the allocation (bad sample count, or the
guard `Too many samples`). -/
def decodedBytes (frames : Int) (a : BlockAlign) : Option Int :=
  if frames < 1 then none
  else if Int.tdiv frames a.splblockalign > Int.tdiv INT_MAX a.byteblockalign then none
  else some (Int.tdiv frames a.splblockalign * a.byteblockalign)

/-- The size in bytes of the element type `T` with which `LoadSound` calls
`processStereoSound`: `short`, `float`, or `char` for the two ADPCM formats. -/
def FormatType.sizeofT : FormatType → Int
  | FormatType.Int16 => 2
  | FormatType.Float => 4
  | FormatType.IMA4 => 1
  | FormatType.MSADPCM => 1

/-- The number of elements of type `T` in `membuf`, seen as the array `tempBuffer`. -/
def tempBufferLength (frames : Int) (a : BlockAlign) : Option Int :=
  (decodedBytes frames a).map (fun bytes => Int.tdiv bytes a.sample_format.sizeofT)

/-- The copy loop of `processStereoSound` after `n` turns: the left and right channel
filled so far, `none` when a read `tempBuffer[2 * i]` or `tempBuffer[2 * i + 1]` made so
far lies outside `tempBuffer`. -/
def processStereoLoop {T : Type} (tempBuffer : List T) : Nat → Option (List T × List T)
  | 0 => some ([], [])
  | n + 1 =>
    match processStereoLoop tempBuffer n, tempBuffer[2 * n]?, tempBuffer[2 * n + 1]? with
    | some (leftChannel, rightChannel), some l, some r =>
      some (leftChannel ++ [l], rightChannel ++ [r])
    | _, _, _ => none

/-- Function `processStereoSound(tempBuffer, sfinfo, ..)` up to the end of its copy loop,
which runs `sfinfo.frames` turns: the contents of `leftMembuf` and `rightMembuf`. -/
def processStereoSound {T : Type} (tempBuffer : List T) (frames : Nat) :
    Option (List T × List T) :=
  processStereoLoop tempBuffer frames

/-! ## Decimal text -/

/-- Read a decimal digit string back as a number, starting from `acc`. -/
def readDecimal (acc : Nat) (cs : List Char) : Nat :=
  cs.foldl (fun a c => 10 * a + (c.toNat - 48)) acc

/-! ## Decimal text: lemmas -/

theorem digitChar_toNat (d : Nat) (h : d < 10) : (Nat.digitChar d).toNat - 48 = d := by
  interval_cases d <;> rfl

theorem digitChar_isDigit (d : Nat) (h : d < 10) : (Nat.digitChar d).isDigit = true := by
  interval_cases d <;> rfl

theorem readDecimal_toDigitsCore (fuel : Nat) :
    ∀ (n : Nat) (ds : List Char), n < fuel →
      readDecimal 0 (Nat.toDigitsCore 10 fuel n ds) = readDecimal n ds := by
  induction fuel with
  | zero => intro n ds h; omega
  | succ fuel ih =>
    intro n ds h
    have hd : (Nat.digitChar (n % 10)).toNat - 48 = n % 10 :=
      digitChar_toNat _ (Nat.mod_lt _ (by norm_num))
    by_cases h0 : n / 10 = 0
    · simp only [Nat.toDigitsCore, h0, if_true]
      simp only [readDecimal, List.foldl_cons, hd]
      congr 1
      omega
    · simp only [Nat.toDigitsCore, h0, if_false]
      rw [ih (n / 10) _ (by omega)]
      simp only [readDecimal, List.foldl_cons, hd]
      congr 1
      omega

theorem toDigitsCore_isDigit (fuel : Nat) :
    ∀ (n : Nat) (ds : List Char) (c : Char),
      c ∈ Nat.toDigitsCore 10 fuel n ds → c.isDigit = true ∨ c ∈ ds := by
  induction fuel with
  | zero => intro n ds c h; right; simpa [Nat.toDigitsCore] using h
  | succ fuel ih =>
    intro n ds c h
    have hd : (Nat.digitChar (n % 10)).isDigit = true :=
      digitChar_isDigit _ (Nat.mod_lt _ (by norm_num))
    by_cases h0 : n / 10 = 0
    · simp only [Nat.toDigitsCore, h0, if_true, List.mem_cons] at h
      rcases h with rfl | h
      · exact Or.inl hd
      · exact Or.inr h
    · simp only [Nat.toDigitsCore, h0, if_false] at h
      rcases ih _ _ _ h with h | h
      · exact Or.inl h
      · rcases List.mem_cons.1 h with rfl | h
        · exact Or.inl hd
        · exact Or.inr h

theorem toDigits_injective (a b : Nat) (h : Nat.toDigits 10 a = Nat.toDigits 10 b) : a = b := by
  have ha := readDecimal_toDigitsCore (a + 1) a [] (by omega)
  have hb := readDecimal_toDigitsCore (b + 1) b [] (by omega)
  simp only [readDecimal, List.foldl_nil] at ha hb
  unfold Nat.toDigits at h
  rw [← ha, ← hb, h]

theorem toDigits_isDigit (a : Nat) (c : Char) (h : c ∈ Nat.toDigits 10 a) : c.isDigit = true := by
  rcases toDigitsCore_isDigit _ _ _ _ h with h | h
  · exact h
  · simp at h

theorem to_string_data (n : Int) :
    (to_string n).data =
      match n with
      | Int.ofNat m => Nat.toDigits 10 m
      | Int.negSucc m => '-' :: Nat.toDigits 10 (m + 1) := by
  cases n <;> rfl

theorem to_string_injective (a b : Int) (h : to_string a = to_string b) : a = b := by
  have hd : (to_string a).data = (to_string b).data := by rw [h]
  rw [to_string_data, to_string_data] at hd
  cases a with
  | ofNat m =>
    cases b with
    | ofNat k => simp only at hd; rw [toDigits_injective m k hd]
    | negSucc k =>
      simp only at hd
      have hm : '-' ∈ Nat.toDigits 10 m := by rw [hd]; simp
      have := toDigits_isDigit m '-' hm
      exact absurd this (by decide)
  | negSucc m =>
    cases b with
    | ofNat k =>
      simp only at hd
      have hm : '-' ∈ Nat.toDigits 10 k := by rw [← hd]; simp
      have := toDigits_isDigit k '-' hm
      exact absurd this (by decide)
    | negSucc k =>
      simp only [List.cons.injEq, true_and] at hd
      have := toDigits_injective _ _ hd
      have hmk : m = k := by omega
      rw [hmk]

theorem underscore_not_mem_to_string (a : Int) : '_' ∉ (to_string a).data := by
  rw [to_string_data]
  cases a with
  | ofNat m =>
    intro h
    exact absurd (toDigits_isDigit m '_' h) (by decide)
  | negSucc m =>
    intro h
    rcases List.mem_cons.1 h with h | h
    · exact absurd h (by decide)
    · exact absurd (toDigits_isDigit _ '_' h) (by decide)

theorem prefix_before_separator {α : Type} (u : α) :
    ∀ (xs ys r1 r2 : List α), u ∉ xs → u ∉ ys → xs ++ u :: r1 = ys ++ u :: r2 → xs = ys := by
  intro xs
  induction xs with
  | nil =>
    intro ys r1 r2 _ hy h
    cases ys with
    | nil => rfl
    | cons y ys =>
      simp only [List.nil_append, List.cons_append, List.cons.injEq] at h
      exact absurd (h.1 ▸ List.mem_cons_self _ _) hy
  | cons x xs ih =>
    intro ys r1 r2 hx hy h
    cases ys with
    | nil =>
      simp only [List.nil_append, List.cons_append, List.cons.injEq] at h
      exact absurd (h.1 ▸ List.mem_cons_self _ _) hx
    | cons y ys =>
      simp only [List.cons_append, List.cons.injEq] at h
      rw [h.1, ih ys r1 r2 (fun hm => hx (List.mem_cons_of_mem _ hm))
        (fun hm => hy (List.mem_cons_of_mem _ hm)) h.2]

theorem generateSoundID_fst (c : Int) (p : String) :
    ∃ fileName : String,
      (generateSoundID c p).1 = to_string (wrapInt32 (c + 1)) ++ "_" ++ fileName := by
  unfold generateSoundID
  exact ⟨_, rfl⟩

theorem generateSoundID_snd (c : Int) (p : String) :
    (generateSoundID c p).2 = wrapInt32 (c + 1) := rfl

theorem generateSoundID_ne (c1 c2 : Int) (p q : String)
    (h : wrapInt32 (c1 + 1) ≠ wrapInt32 (c2 + 1)) :
    (generateSoundID c1 p).1 ≠ (generateSoundID c2 q).1 := by
  obtain ⟨f1, h1⟩ := generateSoundID_fst c1 p
  obtain ⟨f2, h2⟩ := generateSoundID_fst c2 q
  rw [h1, h2]
  intro heq
  apply h
  apply to_string_injective
  have hd := congrArg String.data heq
  simp only [String.data_append] at hd
  rw [List.append_assoc, List.append_assoc] at hd
  apply String.ext
  exact prefix_before_separator '_' _ _ _ _ (underscore_not_mem_to_string _)
    (underscore_not_mem_to_string _) hd

theorem wrapInt32_add (x y : Int) : wrapInt32 (wrapInt32 x + y) = wrapInt32 (x + y) := by
  unfold wrapInt32
  omega

theorem counterAfter_eq (n : Nat) : ∀ c : Int, wrapInt32 (counterAfter n c) = wrapInt32 (c + n) := by
  induction n with
  | zero => intro c; simp [counterAfter]
  | succ n ih =>
    intro c
    rw [counterAfter, ih, generateSoundID_snd, wrapInt32_add]
    congr 1
    push_cast
    ring

theorem wrapInt32_zero_add (n : Nat) : wrapInt32 (counterAfter n 0 + 1) = wrapInt32 (n + 1) := by
  rw [← wrapInt32_add, counterAfter_eq, wrapInt32_add]
  simp

theorem generateSoundID_congr (c1 c2 : Int) (p : String)
    (h : wrapInt32 (c1 + 1) = wrapInt32 (c2 + 1)) :
    generateSoundID c1 p = generateSoundID c2 p := by
  simp only [generateSoundID, h]

theorem nthSoundID_eq (n : Nat) (p : String) :
    nthSoundID n p = (generateSoundID (n : Int) p).1 := by
  unfold nthSoundID
  rw [generateSoundID_congr _ (n : Int) p (wrapInt32_zero_add n)]

/-! ## Registry lemmas -/

theorem Registry.find_eq_none_iff (m : Registry) (k : SoundId) :
    Registry.find m k = none ↔ k ∉ Registry.keys m := by
  induction m with
  | nil => simp [Registry.find, Registry.keys]
  | cons kv rest ih =>
    obtain ⟨k', v⟩ := kv
    by_cases hk : k' = k
    · simp [Registry.find, Registry.keys, hk]
    · have hk2 : ¬ k = k' := fun h => hk h.symm
      simpa [Registry.find, Registry.keys, hk, hk2] using ih

theorem Registry.mem_keys_erase (m : Registry) (k k' : SoundId) :
    k' ∈ Registry.keys (Registry.erase m k) ↔ k' ∈ Registry.keys m ∧ k' ≠ k := by
  simp only [Registry.keys, Registry.erase, List.mem_map, List.mem_filter, bne_iff_ne, ne_eq]
  constructor
  · rintro ⟨kv, ⟨hm, hne⟩, rfl⟩
    exact ⟨⟨kv, hm, rfl⟩, hne⟩
  · rintro ⟨⟨kv, hm, rfl⟩, hne⟩
    exact ⟨kv, ⟨hm, hne⟩, rfl⟩

theorem Registry.keys_update (m : Registry) (k : SoundId) (v : SoundInstance) :
    Registry.keys (Registry.update m k v) = Registry.keys m := by
  induction m with
  | nil => rfl
  | cons kv rest ih =>
    obtain ⟨k', v'⟩ := kv
    by_cases hk : k' = k
    · simp [Registry.update, Registry.keys, hk]
    · simpa [Registry.update, Registry.keys, hk] using ih

theorem Registry.mem_keys_assign (m : Registry) (k k' : SoundId) (v : SoundInstance) :
    k' ∈ Registry.keys (Registry.assign m k v).1 ↔ k' = k ∨ k' ∈ Registry.keys m := by
  induction m with
  | nil => simp [Registry.assign, Registry.keys]
  | cons kv rest ih =>
    obtain ⟨k1, v1⟩ := kv
    by_cases hk : k1 = k
    · subst hk
      simp [Registry.assign, Registry.keys]
    · by_cases hlt : k < k1
      · simp [Registry.assign, Registry.keys, hk, hlt]
      · simp only [Registry.keys] at ih
        simp only [Registry.assign, Registry.keys, hk, hlt, if_false, List.map_cons,
          List.mem_cons, ih]
        tauto

/-! ## SoundInstance lemmas -/

theorem SoundInstance.stop_fields (s : SoundInstance) :
    s.stop.1 = { s with m_isPlaying := false, m_sources := (AL_NONE, AL_NONE),
                        m_buffers := (AL_NONE, AL_NONE) } := by
  obtain ⟨fp, id, ⟨s1, s2⟩, ⟨b1, b2⟩, d, p⟩ := s
  simp only [SoundInstance.stop, AL_NONE]
  by_cases h1 : s1 = 0 <;> by_cases h2 : s2 = 0 <;> by_cases h3 : b1 = 0 <;>
    by_cases h4 : b2 = 0 <;> simp [h1, h2, h3, h4]

theorem SoundInstance.stop_calls_of_released (s : SoundInstance)
    (hs : s.m_sources = (AL_NONE, AL_NONE)) (hb : s.m_buffers = (AL_NONE, AL_NONE)) :
    s.stop.2 = [] := by
  obtain ⟨fp, id, ⟨s1, s2⟩, ⟨b1, b2⟩, d, p⟩ := s
  simp only [AL_NONE, Prod.mk.injEq] at hs hb
  obtain ⟨rfl, rfl⟩ := hs
  obtain ⟨rfl, rfl⟩ := hb
  simp [SoundInstance.stop, AL_NONE]

theorem SoundInstance.destroy_stop (s : SoundInstance) : s.stop.1.destroy = [] := by
  unfold SoundInstance.destroy
  apply SoundInstance.stop_calls_of_released <;> rw [SoundInstance.stop_fields]

theorem SoundInstance.stop_stop (s : SoundInstance) : s.stop.1.stop = (s.stop.1, []) := by
  apply Prod.ext
  · rw [SoundInstance.stop_fields, SoundInstance.stop_fields]
  · exact SoundInstance.destroy_stop s

theorem SoundInstance.apply_of_playing (s : SoundInstance) (op : InstanceOp)
    (h : s.m_isPlaying = true) :
    (s.apply op).1.m_isPlaying = true ∧ monitorsSpawned (s.apply op).2 = 0 := by
  cases op with
  | play f => simp [SoundInstance.apply, SoundInstance.play, h, monitorsSpawned]
  | pause =>
    by_cases hs : s.hasStereo = true <;>
      simp [SoundInstance.apply, SoundInstance.pause, h, hs, monitorsSpawned,
        Call.isMonitorThread]
  | resume =>
    by_cases hs : s.hasStereo = true <;>
      simp [SoundInstance.apply, SoundInstance.resume, h, hs, monitorsSpawned,
        Call.isMonitorThread]
  | updatePosition a r ht st =>
    by_cases hs : s.hasStereo = true <;>
      simp [SoundInstance.apply, SoundInstance.updatePosition, h, hs, monitorsSpawned,
        Call.isMonitorThread]
  | setPlaybackTime t =>
    by_cases hs : s.hasStereo = true <;>
      simp [SoundInstance.apply, SoundInstance.setPlaybackTime, h, hs, monitorsSpawned,
        Call.isMonitorThread]
  | getPlaybackTime w err =>
    simp [SoundInstance.apply, SoundInstance.getPlaybackTime, h, monitorsSpawned,
      Call.isMonitorThread]

theorem SoundInstance.applyAll_of_playing (ops : List InstanceOp) :
    ∀ s : SoundInstance, s.m_isPlaying = true → monitorsSpawned (s.applyAll ops).2 = 0 := by
  induction ops with
  | nil => intro s _; simp [SoundInstance.applyAll, monitorsSpawned]
  | cons op ops ih =>
    intro s h
    have h1 := SoundInstance.apply_of_playing s op h
    have h2 := ih _ h1.1
    simp only [monitorsSpawned] at h1 h2 ⊢
    simp [SoundInstance.applyAll, List.countP_append, h1.2, h2]

theorem SoundInstance.apply_of_idle (s : SoundInstance) (op : InstanceOp)
    (h : s.m_isPlaying = false) :
    ((s.apply op).1.m_isPlaying = true ∧ monitorsSpawned (s.apply op).2 = 1)
      ∨ ((s.apply op).1.m_isPlaying = false ∧ monitorsSpawned (s.apply op).2 = 0) := by
  cases op with
  | play f =>
    left
    by_cases hs : ({ s with m_isPlaying := true } : SoundInstance).hasStereo = true <;>
      simp [SoundInstance.apply, SoundInstance.play, h, hs, monitorsSpawned,
        Call.isMonitorThread, List.countP_cons]
  | pause => right; simp [SoundInstance.apply, SoundInstance.pause, h, monitorsSpawned]
  | resume => right; simp [SoundInstance.apply, SoundInstance.resume, h, monitorsSpawned]
  | updatePosition a r ht st =>
    right
    by_cases hs : s.hasStereo = true <;>
      simp [SoundInstance.apply, SoundInstance.updatePosition, h, hs, monitorsSpawned,
        Call.isMonitorThread]
  | setPlaybackTime t =>
    right
    by_cases hs : s.hasStereo = true <;>
      simp [SoundInstance.apply, SoundInstance.setPlaybackTime, h, hs, monitorsSpawned,
        Call.isMonitorThread]
  | getPlaybackTime w err =>
    right
    simp [SoundInstance.apply, SoundInstance.getPlaybackTime, h, monitorsSpawned,
      Call.isMonitorThread]

theorem SoundInstance.applyAll_spawns_le_one (ops : List InstanceOp) :
    ∀ s : SoundInstance, monitorsSpawned (s.applyAll ops).2 ≤ 1 := by
  induction ops with
  | nil => intro s; simp [SoundInstance.applyAll, monitorsSpawned]
  | cons op ops ih =>
    intro s
    have hsplit : monitorsSpawned (s.applyAll (op :: ops)).2
        = monitorsSpawned (s.apply op).2
          + monitorsSpawned ((s.apply op).1.applyAll ops).2 := by
      simp [SoundInstance.applyAll, monitorsSpawned, List.countP_append]
    rw [hsplit]
    cases hp : s.m_isPlaying with
    | true =>
      have h1 := SoundInstance.apply_of_playing s op hp
      have h2 := ih (s.apply op).1
      omega
    | false =>
      rcases SoundInstance.apply_of_idle s op hp with h1 | h1
      · have h2 := SoundInstance.applyAll_of_playing ops _ h1.1
        omega
      · have h2 := ih (s.apply op).1
        omega

/-! ## Monitor lemmas -/

theorem monitorLoop_append (before : List Poll) :
    ∀ (n : Nat) (rest : List Poll), (∀ q ∈ before, q.continues = true) →
      monitorLoop n (before ++ rest) = monitorLoop (n + before.length) rest := by
  induction before with
  | nil => intro n rest _; simp
  | cons q before ih =>
    intro n rest h
    have hq : q.continues = true := h q (List.mem_cons_self _ _)
    have hb : ∀ r ∈ before, r.continues = true := fun r hr => h r (List.mem_cons_of_mem _ hr)
    have hstep : monitorLoop n (q :: before ++ rest) = monitorLoop (n + 1) (before ++ rest) := by
      simp only [List.cons_append, monitorLoop, hq, if_true]
      rfl
    rw [hstep, ih (n + 1) rest hb, List.length_cons]
    congr 1
    omega

theorem monitorLoop_calls_le_one (polls : List Poll) :
    ∀ (n k c : Nat), monitorLoop n polls = MonitorRun.exited k c → c ≤ 1 := by
  induction polls with
  | nil => intro n k c h; simp [monitorLoop] at h
  | cons p rest ih =>
    intro n k c h
    by_cases hp : p.continues = true
    · simp only [monitorLoop, hp, if_true] at h
      exact ih _ _ _ h
    · simp only [monitorLoop, hp] at h
      simp only [Bool.false_eq_true, if_false, MonitorRun.exited.injEq] at h
      rw [← h.2]
      split <;> omega

theorem Poll.continues_iff (p : Poll) :
    p.continues = true ↔ p.error = AL_NO_ERROR ∧ p.state = AL_PLAYING ∧ p.isPlaying = true := by
  simp [Poll.continues, and_assoc]

/-! ## Key-set lemmas -/

theorem generateSoundID_ne_empty (c : Int) (p : String) : (generateSoundID c p).1 ≠ "" := by
  obtain ⟨f, hf⟩ := generateSoundID_fst c p
  rw [hf]
  intro h
  have hd := congrArg String.data h
  simp at hd

theorem AudioEngine.stopAllSounds_keys (e : AudioEngine) : e.stopAllSounds.1.keys = [] := rfl

theorem AudioEngine.cleanup_keys (e : AudioEngine) : e.cleanup.1.keys = [] := by
  simp only [AudioEngine.cleanup, AudioEngine.keys]
  split_ifs <;> rfl

theorem AudioEngine.createSound_failed (e : AudioEngine) (p : String) (env : LoadEnv)
    (h : (e.createSound p env).1 = "") : (e.createSound p env).2.1.keys = e.keys := by
  unfold AudioEngine.createSound at h ⊢
  by_cases hl : ((SoundInstance.new p (generateSoundID e.counter p).1).load env).1 = true
  · simp only [hl, Bool.not_true, Bool.false_eq_true, if_false] at h
    exact absurd h (generateSoundID_ne_empty _ _)
  · simp only [hl, Bool.not_false, Bool.not_eq_true] at hl ⊢
    simp [hl, AudioEngine.keys]

theorem AudioEngine.createSound_succeeded (e : AudioEngine) (p : String) (env : LoadEnv)
    (h : (e.createSound p env).1 ≠ "") (k : SoundId) :
    k ∈ (e.createSound p env).2.1.keys ↔ k = (e.createSound p env).1 ∨ k ∈ e.keys := by
  unfold AudioEngine.createSound at h ⊢
  by_cases hl : ((SoundInstance.new p (generateSoundID e.counter p).1).load env).1 = true
  · simp only [hl, Bool.not_true, Bool.false_eq_true, if_false, AudioEngine.keys]
    exact Registry.mem_keys_assign _ _ _ _
  · simp only [Bool.not_eq_true] at hl
    simp [hl] at h

theorem step_keys_of_transport (e : AudioEngine) (op : Op) (h : op.isTransportOrQuery = true) :
    (step e op).1.keys = e.keys := by
  cases op <;> simp only [Op.isTransportOrQuery, Bool.false_eq_true] at h
  case playSound i =>
    simp only [step, AudioEngine.playSound, AudioEngine.keys]
    cases Registry.find e.m_activeSounds i <;> simp [Registry.keys_update]
  case pauseSound i =>
    simp only [step, AudioEngine.pauseSound, AudioEngine.keys]
    cases Registry.find e.m_activeSounds i <;> simp [Registry.keys_update]
  case resumeSound i =>
    simp only [step, AudioEngine.resumeSound, AudioEngine.keys]
    cases Registry.find e.m_activeSounds i <;> simp [Registry.keys_update]
  case setSoundPosition i a r ht =>
    simp only [step, AudioEngine.setSoundPosition, AudioEngine.keys]
    cases Registry.find e.m_activeSounds i <;> simp
  case setPlaybackTime i t =>
    simp only [step, AudioEngine.setPlaybackTime, AudioEngine.keys]
    cases Registry.find e.m_activeSounds i <;> simp
  case getPlaybackTime i w err => rfl
  case getSoundDuration i => rfl
  case setStereoAngle a => rfl

theorem step_keys (ids : List SoundId) (e : AudioEngine) (op : Op)
    (h : ∀ k, k ∈ e.keys ↔ k ∈ ids) (k : SoundId) :
    k ∈ (step e op).1.keys ↔ k ∈ bookkeep ids e op (step e op).2.1 := by
  cases ht : op.isTransportOrQuery with
  | true =>
    rw [step_keys_of_transport e op ht, h]
    cases op <;> simp only [Op.isTransportOrQuery, Bool.false_eq_true] at ht <;> simp [bookkeep]
  | false =>
    cases op <;> simp only [Op.isTransportOrQuery, Bool.true_eq_false] at ht
    case initializeEngine hr d c m =>
      by_cases hd : d = nullptr
      · simp [step, AudioEngine.initialize, bookkeep, hd, AudioEngine.keys, ← h]
      · by_cases hc : c = nullptr
        · simp [step, AudioEngine.initialize, bookkeep, hd, hc, AudioEngine.keys, ← h]
        · cases m with
          | true => simp [step, AudioEngine.initialize, bookkeep, hd, hc, AudioEngine.keys, ← h]
          | false =>
            have hk := AudioEngine.cleanup_keys { e with m_device := d, m_context := c }
            simp only [AudioEngine.keys] at hk
            simp [step, AudioEngine.initialize, bookkeep, hd, hc, AudioEngine.keys, hk]
    case cleanup =>
      simp [step, bookkeep, AudioEngine.cleanup_keys]
    case createSound p env =>
      simp only [step, bookkeep]
      by_cases he : (e.createSound p env).1 = ""
      · rw [AudioEngine.createSound_failed e p env he, h]
        simp [he]
      · rw [AudioEngine.createSound_succeeded e p env he, h]
        simp [he]
    case stopSound i =>
      simp only [step, bookkeep, AudioEngine.stopSound, List.mem_filter, bne_iff_ne, ne_eq,
        decide_eq_true_eq]
      cases hf : Registry.find e.m_activeSounds i with
      | none =>
        have hi : i ∉ e.keys := (Registry.find_eq_none_iff _ _).1 hf
        simp only [h]
        constructor
        · intro hk
          refine ⟨hk, ?_⟩
          rintro rfl
          exact hi ((h _).2 hk)
        · exact fun hk => hk.1
      | some s =>
        simp only [AudioEngine.keys, Registry.mem_keys_erase]
        rw [← h]
        rfl
    case stopAllSounds =>
      simp [step, bookkeep, AudioEngine.stopAllSounds_keys]
    case setCallback cb r =>
      simp only [step, bookkeep, AudioEngine.setCallback, AudioEngine.keys]
      exact h k
    case setJavaVM vm =>
      simp only [step, bookkeep, AudioEngine.setJavaVM, AudioEngine.keys]
      exact h k
    case onSoundFinished i m =>
      simp only [step, bookkeep, AudioEngine.onSoundFinished, AudioEngine.reachesErase]
      by_cases hg : e.m_javaVM = nullptr ∨ e.m_globalCallback = nullptr
      · have hg2 : (decide (e.m_javaVM = nullptr) || decide (e.m_globalCallback = nullptr))
            = true := by simpa using hg
        simp only [hg, if_true, hg2, Bool.not_true, Bool.false_eq_true, if_false]
        exact h k
      · have hg2 : (decide (e.m_javaVM = nullptr) || decide (e.m_globalCallback = nullptr))
            = false := by simpa using hg
        simp only [hg, if_false, hg2, Bool.not_false, if_true, AudioEngine.keys,
          Registry.mem_keys_erase, List.mem_filter, bne_iff_ne, ne_eq, decide_eq_true_eq]
        rw [← h]
        rfl

theorem run_keys (ops : List Op) :
    ∀ (ids : List SoundId) (e : AudioEngine), (∀ k, k ∈ e.keys ↔ k ∈ ids) →
      ∀ k, k ∈ (run e ops).keys ↔ k ∈ createdMinusRemoved ids e ops := by
  induction ops with
  | nil => intro ids e h k; exact h k
  | cons op ops ih =>
    intro ids e h k
    simp only [run, createdMinusRemoved]
    exact ih _ _ (step_keys ids e op h) k

/-! ## Identifiers generated during a run -/

theorem AudioEngine.cleanup_counter (e : AudioEngine) : e.cleanup.1.counter = e.counter := by
  simp only [AudioEngine.cleanup, AudioEngine.stopAllSounds]
  split_ifs <;> rfl

theorem step_counter (e : AudioEngine) (op : Op) :
    (step e op).1.counter =
      match op with
      | Op.createSound _ _ => wrapInt32 (e.counter + 1)
      | _ => e.counter := by
  cases op
  case initializeEngine hr d c m =>
    by_cases hd : d = nullptr
    · simp [step, AudioEngine.initialize, hd]
    · by_cases hc : c = nullptr
      · simp [step, AudioEngine.initialize, hd, hc]
      · cases m <;> simp [step, AudioEngine.initialize, hd, hc, AudioEngine.cleanup_counter]
  case cleanup => simp [step, AudioEngine.cleanup_counter]
  case createSound p env =>
    simp only [step, AudioEngine.createSound]
    split_ifs <;> rfl
  case playSound i =>
    simp only [step, AudioEngine.playSound]
    cases Registry.find e.m_activeSounds i <;> rfl
  case stopSound i =>
    simp only [step, AudioEngine.stopSound]
    cases Registry.find e.m_activeSounds i <;> rfl
  case stopAllSounds => rfl
  case pauseSound i =>
    simp only [step, AudioEngine.pauseSound]
    cases Registry.find e.m_activeSounds i <;> rfl
  case resumeSound i =>
    simp only [step, AudioEngine.resumeSound]
    cases Registry.find e.m_activeSounds i <;> rfl
  case setSoundPosition i a r ht =>
    simp only [step, AudioEngine.setSoundPosition]
    cases Registry.find e.m_activeSounds i <;> rfl
  case setPlaybackTime i t =>
    simp only [step, AudioEngine.setPlaybackTime]
    cases Registry.find e.m_activeSounds i <;> rfl
  case getPlaybackTime i w err => rfl
  case getSoundDuration i => rfl
  case setStereoAngle a => rfl
  case setCallback cb r => rfl
  case setJavaVM vm => rfl
  case onSoundFinished i m =>
    simp only [step, AudioEngine.onSoundFinished]
    split_ifs <;> rfl

theorem generatedIds_mem (ops : List Op) :
    ∀ (e : AudioEngine) (x : SoundId), x ∈ generatedIds e ops →
      ∃ (d : Nat) (p : String), d < createCalls ops
        ∧ x = (generateSoundID (e.counter + d) p).1 := by
  induction ops with
  | nil => intro e x h; simp [generatedIds] at h
  | cons op ops ih =>
    intro e x h
    cases op
    case createSound p env =>
      simp only [generatedIds, List.mem_cons] at h
      rcases h with h | h
      · exact ⟨0, p, by simp [createCalls], by simpa using h⟩
      · obtain ⟨d, q, hd, hx⟩ := ih _ x h
        refine ⟨d + 1, q, by simp [createCalls, hd], ?_⟩
        rw [hx, step_counter]
        apply congrArg Prod.fst
        apply generateSoundID_congr
        simp only [wrapInt32]
        push_cast
        omega
    all_goals
      simp only [generatedIds] at h
      obtain ⟨d, q, hd, hx⟩ := ih _ x h
      refine ⟨d, q, by simpa [createCalls] using hd, ?_⟩
      rw [hx, step_counter]

theorem generatedIds_nodup (ops : List Op) :
    ∀ e : AudioEngine, createCalls ops ≤ 2 ^ 32 → (generatedIds e ops).Nodup := by
  induction ops with
  | nil => intro e _; simp [generatedIds]
  | cons op ops ih =>
    intro e h
    cases op
    case createSound p env =>
      simp only [createCalls] at h
      simp only [generatedIds, List.nodup_cons]
      refine ⟨?_, ih _ (by omega)⟩
      intro hm
      obtain ⟨d, q, hd, hx⟩ := generatedIds_mem ops _ _ hm
      rw [step_counter] at hx
      refine generateSoundID_ne _ _ _ _ ?_ hx
      simp only [wrapInt32]
      omega
    all_goals
      simp only [createCalls] at h
      simp only [generatedIds]
      exact ih _ h

/-! ## Duration, cleanup and stereo-split lemmas -/

theorem wrapInt32_of_range (x : Int) (h1 : -2147483648 ≤ x) (h2 : x ≤ 2147483647) :
    wrapInt32 x = x := by
  unfold wrapInt32
  omega

theorem AudioEngine.cleanup_fields (e : AudioEngine) :
    e.cleanup.1 = { e with m_activeSounds := [], m_context := nullptr, m_device := nullptr,
                           m_globalCallback := nullptr } := by
  obtain ⟨dev, ctx, vm, cb, sf, reg, st, cnt⟩ := e
  simp only [AudioEngine.cleanup, AudioEngine.stopAllSounds, nullptr]
  by_cases h1 : ctx = 0 <;> by_cases h2 : dev = 0 <;> by_cases h3 : cb = 0 <;>
    simp [h1, h2, h3]

theorem AudioEngine.cleanup_calls_of_released (e : AudioEngine) (h1 : e.m_activeSounds = [])
    (h2 : e.m_context = nullptr) (h3 : e.m_device = nullptr)
    (h4 : e.m_globalCallback = nullptr) : e.cleanup.2 = [] := by
  obtain ⟨dev, ctx, vm, cb, sf, reg, st, cnt⟩ := e
  simp only at h1 h2 h3 h4
  subst h1 h2 h3 h4
  simp [AudioEngine.cleanup, AudioEngine.stopAllSounds, nullptr]

theorem AudioEngine.cleanup_cleanup (e : AudioEngine) :
    e.cleanup.1.cleanup = (e.cleanup.1, []) := by
  apply Prod.ext
  · rw [AudioEngine.cleanup_fields, AudioEngine.cleanup_fields]
  · apply AudioEngine.cleanup_calls_of_released <;> rw [AudioEngine.cleanup_fields]

theorem processStereoLoop_out_of_bounds {T : Type} (tempBuffer : List T) (n : Nat)
    (h : tempBuffer.length < 2 * n) : processStereoLoop tempBuffer n = none := by
  cases n with
  | zero => omega
  | succ n =>
    have hr : tempBuffer[2 * n + 1]? = none := List.getElem?_eq_none (by omega)
    simp only [processStereoLoop, hr]
    split <;> simp_all

theorem processStereoLoop_in_bounds {T : Type} (tempBuffer : List T) (n : Nat) :
    2 * n ≤ tempBuffer.length →
      ∃ leftChannel rightChannel : List T,
        processStereoLoop tempBuffer n = some (leftChannel, rightChannel)
          ∧ leftChannel.length = n ∧ rightChannel.length = n
          ∧ ∀ i, i < n → leftChannel[i]? = tempBuffer[2 * i]?
              ∧ rightChannel[i]? = tempBuffer[2 * i + 1]? := by
  induction n with
  | zero =>
    intro _
    exact ⟨[], [], rfl, rfl, rfl, fun i hi => absurd hi (Nat.not_lt_zero i)⟩
  | succ n ih =>
    intro h
    obtain ⟨l, r, hlr, hl, hr, hget⟩ := ih (by omega)
    have h0 : 2 * n < tempBuffer.length := by omega
    have h1 : 2 * n + 1 < tempBuffer.length := by omega
    refine ⟨l ++ [tempBuffer[2 * n]], r ++ [tempBuffer[2 * n + 1]], ?_, ?_, ?_, ?_⟩
    · simp [processStereoLoop, hlr, List.getElem?_eq_getElem h0, List.getElem?_eq_getElem h1]
    · simp [hl]
    · simp [hr]
    · intro i hi
      by_cases hin : i < n
      · obtain ⟨ha, hb⟩ := hget i hin
        rw [List.getElem?_append_left (by omega), List.getElem?_append_left (by omega)]
        exact ⟨ha, hb⟩
      · have hieq : i = n := by omega
        subst hieq
        constructor
        · rw [List.getElem?_append_right (by omega)]
          simp [hl, List.getElem?_eq_getElem h0]
        · rw [List.getElem?_append_right (by omega)]
          simp [hr, List.getElem?_eq_getElem h1]

theorem blockAlign_pcm_shape (selected : FormatType) (channels : Int)
    (nBlockAlign : Option Int) :
    ((blockAlign selected channels nBlockAlign).sample_format = FormatType.Int16 →
        (blockAlign selected channels nBlockAlign).splblockalign = 1
          ∧ (blockAlign selected channels nBlockAlign).byteblockalign
              = wrapInt32 (channels * 2))
      ∧ ((blockAlign selected channels nBlockAlign).sample_format = FormatType.Float →
        (blockAlign selected channels nBlockAlign).splblockalign = 1
          ∧ (blockAlign selected channels nBlockAlign).byteblockalign
              = wrapInt32 (channels * 4)) := by
  unfold blockAlign
  generalize adpcmBlockAlign selected channels nBlockAlign = x
  by_cases h1 : x.sample_format = FormatType.Int16
  · simp [h1]
  · by_cases h2 : x.sample_format = FormatType.Float
    · simp [h1, h2]
    · simp [h1, h2]

theorem tempBufferLength_pcm (selected : FormatType) (nBlockAlign : Option Int) (frames n : Int)
    (hfmt : (blockAlign selected 2 nBlockAlign).sample_format = FormatType.Int16
      ∨ (blockAlign selected 2 nBlockAlign).sample_format = FormatType.Float)
    (hlen : tempBufferLength frames (blockAlign selected 2 nBlockAlign) = some n) :
    n = 2 * frames := by
  have hshape := blockAlign_pcm_shape selected 2 nBlockAlign
  generalize blockAlign selected 2 nBlockAlign = b at hfmt hlen hshape
  unfold tempBufferLength decodedBytes at hlen
  rcases hfmt with hf | hf
  · obtain ⟨h1, h2⟩ := hshape.1 hf
    have h3 : wrapInt32 (2 * 2) = 4 := by decide
    rw [h1, h2, hf, h3] at hlen
    simp only [FormatType.sizeofT, Int.tdiv_one] at hlen
    split_ifs at hlen
    · simp at hlen
    · simp at hlen
    · simp only [Option.map_some', Option.some.injEq] at hlen
      rw [← hlen]
      have : frames * 4 = (2 * frames) * 2 := by ring
      rw [this, Int.mul_tdiv_cancel _ (by decide)]
  · obtain ⟨h1, h2⟩ := hshape.2 hf
    have h3 : wrapInt32 (2 * 4) = 8 := by decide
    rw [h1, h2, hf, h3] at hlen
    simp only [FormatType.sizeofT, Int.tdiv_one] at hlen
    split_ifs at hlen
    · simp at hlen
    · simp at hlen
    · simp only [Option.map_some', Option.some.injEq] at hlen
      rw [← hlen]
      have : frames * 8 = (2 * frames) * 4 := by ring
      rw [this, Int.mul_tdiv_cancel _ (by decide)]

/-! ## Rounding lemmas -/

theorem roundTiesToEven_of_near (z : ℚ) (m : ℤ) (h : |z - m| < 1 / 2) :
    roundTiesToEven z = m := by
  have h1 := abs_lt.1 h
  unfold roundTiesToEven
  by_cases hz : (m : ℚ) ≤ z
  · have hf : ⌊z⌋ = m := by
      rw [Int.floor_eq_iff]
      constructor
      · exact hz
      · linarith [h1.2]
    rw [hf]
    rw [if_pos h1.2]
  · push_neg at hz
    have hf : ⌊z⌋ = m - 1 := by
      rw [Int.floor_eq_iff]
      push_cast
      constructor
      · linarith [h1.1]
      · linarith
    rw [hf]
    push_cast
    have h2 : ¬ (z - (m - 1) < 1 / 2) := by linarith [h1.1]
    have h3 : (1 : ℚ) / 2 < z - (m - 1) := by linarith [h1.1]
    rw [if_neg h2, if_pos h3]
    ring

theorem quantum_eq (p : ℕ) (qmin : ℤ) (x : ℚ) (e : ℤ) (h1 : (2 : ℚ) ^ e ≤ |x|)
    (h2 : |x| < (2 : ℚ) ^ (e + 1)) : quantum p qmin x = max (e - (p - 1)) qmin := by
  have hpos : 0 < |x| := lt_of_lt_of_le (by positivity) h1
  have hl : Int.log 2 |x| = e := by
    apply le_antisymm
    · have := (Int.lt_zpow_iff_log_lt (b := 2) (by norm_num) hpos (x := e + 1)).1
        (by exact_mod_cast h2)
      omega
    · exact (Int.zpow_le_iff_le_log (b := 2) (by norm_num) hpos).1 (by exact_mod_cast h1)
  rw [quantum, hl]

theorem roundToFormat_eq (p : ℕ) (qmin : ℤ) (x : ℚ) (e q m : ℤ) (h1 : (2 : ℚ) ^ e ≤ |x|)
    (h2 : |x| < (2 : ℚ) ^ (e + 1)) (hq : max (e - (p - 1)) qmin = q)
    (hm : |x / 2 ^ q - m| < 1 / 2) : roundToFormat p qmin x = m * 2 ^ q := by
  unfold roundToFormat
  rw [quantum_eq p qmin x e h1 h2, hq, roundTiesToEven_of_near _ m hm]

theorem roundTiesToEven_intCast (n : ℤ) : roundTiesToEven (n : ℚ) = n :=
  roundTiesToEven_of_near _ n (by simp)

theorem floor_le_roundTiesToEven (z : ℚ) : ⌊z⌋ ≤ roundTiesToEven z := by
  unfold roundTiesToEven
  split_ifs <;> omega

theorem roundTiesToEven_le_floor_add_one (z : ℚ) : roundTiesToEven z ≤ ⌊z⌋ + 1 := by
  unfold roundTiesToEven
  split_ifs <;> omega

theorem le_roundTiesToEven (z : ℚ) (N : ℤ) (h : (N : ℚ) ≤ z) : N ≤ roundTiesToEven z :=
  le_trans (Int.le_floor.2 h) (floor_le_roundTiesToEven z)

theorem roundTiesToEven_le (z : ℚ) (N : ℤ) (h : z ≤ (N : ℚ)) : roundTiesToEven z ≤ N := by
  have hf : ⌊z⌋ ≤ N := Int.floor_le_floor h |>.trans (by simp)
  rcases lt_or_eq_of_le hf with hlt | heq
  · have := roundTiesToEven_le_floor_add_one z
    omega
  · have hz : z = (N : ℚ) := le_antisymm h (by rw [← heq]; exact Int.floor_le z)
    rw [hz, roundTiesToEven_intCast]

theorem abs_roundTiesToEven_sub_le (z : ℚ) : |(roundTiesToEven z : ℚ) - z| ≤ 1 / 2 := by
  have h1 := Int.floor_le z
  have h2 := Int.lt_floor_add_one z
  unfold roundTiesToEven
  rw [abs_le]
  split_ifs with ha hb hc
  · constructor <;> linarith
  · push_cast; constructor <;> linarith
  · have : z - ⌊z⌋ = 1 / 2 := le_antisymm (not_lt.1 hb) (not_lt.1 ha)
    constructor <;> linarith
  · have : z - ⌊z⌋ = 1 / 2 := le_antisymm (not_lt.1 hb) (not_lt.1 ha)
    push_cast; constructor <;> linarith

theorem two_zpow_pos (q : ℤ) : (0 : ℚ) < 2 ^ q := zpow_pos (by norm_num) q

theorem roundToFormat_sub_le (p : ℕ) (qmin : ℤ) (x : ℚ) :
    |roundToFormat p qmin x - x| ≤ 2 ^ quantum p qmin x / 2 := by
  have hq := two_zpow_pos (quantum p qmin x)
  have h := abs_roundTiesToEven_sub_le (x / 2 ^ quantum p qmin x)
  have heq : roundToFormat p qmin x - x
      = ((roundTiesToEven (x / 2 ^ quantum p qmin x) : ℚ) - x / 2 ^ quantum p qmin x)
        * 2 ^ quantum p qmin x := by
    unfold roundToFormat
    field_simp
  rw [heq, abs_mul, abs_of_pos hq]
  calc |((roundTiesToEven (x / 2 ^ quantum p qmin x) : ℚ) - x / 2 ^ quantum p qmin x)|
        * 2 ^ quantum p qmin x
      ≤ 1 / 2 * 2 ^ quantum p qmin x := mul_le_mul_of_nonneg_right h hq.le
    _ = 2 ^ quantum p qmin x / 2 := by ring

theorem roundToFormat_zero (p : ℕ) (qmin : ℤ) : roundToFormat p qmin 0 = 0 := by
  unfold roundToFormat
  rw [zero_div]
  have : roundTiesToEven 0 = 0 := by
    have := roundTiesToEven_intCast 0
    simpa using this
  rw [this]
  simp

theorem log_abs_le (x : ℚ) (E : ℤ) (hx : x ≠ 0) (h : |x| ≤ 2 ^ E) : Int.log 2 |x| ≤ E := by
  have hpos : 0 < |x| := abs_pos.2 hx
  have := Int.log_mono_right (b := 2) hpos h
  rwa [show ((2 : ℚ) ^ E) = (((2 : ℕ) : ℚ) ^ E) by norm_num, Int.log_zpow (by norm_num)] at this

theorem quantum_le (p : ℕ) (qmin : ℤ) (x : ℚ) (E : ℤ) (hx : x ≠ 0) (h : |x| ≤ 2 ^ E) :
    quantum p qmin x ≤ max (E - (p - 1)) qmin := by
  have := log_abs_le x E hx h
  unfold quantum
  omega

theorem roundToFormat_error_le (p : ℕ) (qmin : ℤ) (x : ℚ) (E : ℤ) (h : |x| ≤ 2 ^ E) :
    |roundToFormat p qmin x - x| ≤ 2 ^ max (E - (p - 1)) qmin / 2 := by
  by_cases hx : x = 0
  · subst hx
    rw [roundToFormat_zero, sub_zero, abs_zero]
    exact div_nonneg (two_zpow_pos _).le (by norm_num)
  · refine le_trans (roundToFormat_sub_le p qmin x) ?_
    have hq := quantum_le p qmin x E hx h
    have : (2 : ℚ) ^ quantum p qmin x ≤ 2 ^ max (E - (p - 1)) qmin :=
      zpow_le_zpow_right₀ (by norm_num) hq
    linarith

theorem abs_roundToFormat_le (p : ℕ) (qmin : ℤ) (x : ℚ) (E : ℤ) (hp : 1 ≤ p) (hE : qmin ≤ E)
    (h : |x| ≤ 2 ^ E) : |roundToFormat p qmin x| ≤ 2 ^ E := by
  by_cases hx : x = 0
  · subst hx
    rw [roundToFormat_zero, abs_zero]
    exact (two_zpow_pos E).le
  · have hq : quantum p qmin x ≤ E := by
      have := quantum_le p qmin x E hx h
      have hp' : (1 : ℤ) ≤ p := by exact_mod_cast hp
      omega
    set q := quantum p qmin x with hqdef
    have hqpos := two_zpow_pos q
    obtain ⟨k, hk⟩ : ∃ k : ℕ, E = q + k := ⟨(E - q).toNat, by omega⟩
    have hE2 : (2 : ℚ) ^ E = ((2 ^ k : ℤ) : ℚ) * 2 ^ q := by
      rw [hk, zpow_add₀ (by norm_num), zpow_natCast]
      push_cast
      ring
    have hz : |x / 2 ^ q| ≤ ((2 ^ k : ℤ) : ℚ) := by
      rw [abs_div, abs_of_pos hqpos, div_le_iff₀ hqpos, ← hE2]
      exact h
    have hz' := abs_le.1 hz
    have h1 : roundTiesToEven (x / 2 ^ q) ≤ (2 ^ k : ℤ) := roundTiesToEven_le _ _ hz'.2
    have h2 : -(2 ^ k : ℤ) ≤ roundTiesToEven (x / 2 ^ q) :=
      le_roundTiesToEven _ _ (by push_cast; push_cast at hz'; exact hz'.1)
    have h3 : |(roundTiesToEven (x / 2 ^ q) : ℚ)| ≤ ((2 ^ k : ℤ) : ℚ) := by
      rw [abs_le]
      constructor
      · exact_mod_cast h2
      · exact_mod_cast h1
    unfold roundToFormat
    rw [← hqdef, abs_mul, abs_of_pos hqpos, hE2]
    exact mul_le_mul_of_nonneg_right h3 hqpos.le

theorem quantum_mono (p : ℕ) (qmin : ℤ) (y T : ℚ) (hy : 0 < y) (h : y ≤ T) :
    quantum p qmin y ≤ quantum p qmin T := by
  have h1 : |y| ≤ |T| := by rw [abs_of_pos hy, abs_of_pos (lt_of_lt_of_le hy h)]; exact h
  have := Int.log_mono_right (b := 2) (abs_pos.2 hy.ne') h1
  unfold quantum
  omega

theorem roundToFormat_le_of_le (p : ℕ) (qmin : ℤ) (y T : ℚ) (M qT : ℤ) (hT : T = M * 2 ^ qT)
    (hTpos : 0 < T) (hq : quantum p qmin T ≤ qT) (hy : y ≤ T) : roundToFormat p qmin y ≤ T := by
  set q := quantum p qmin y with hqdef
  have hqpos := two_zpow_pos q
  rcases le_or_lt y 0 with hy0 | hy0
  · have hz : y / 2 ^ q ≤ ((0 : ℤ) : ℚ) := by
      rw [Int.cast_zero]
      exact div_nonpos_of_nonpos_of_nonneg hy0 hqpos.le
    have h1 := roundTiesToEven_le _ 0 hz
    have h2 : ((roundTiesToEven (y / 2 ^ q) : ℤ) : ℚ) ≤ 0 := by exact_mod_cast h1
    unfold roundToFormat
    rw [← hqdef]
    have := mul_nonpos_of_nonpos_of_nonneg h2 hqpos.le
    linarith
  · have hle : q ≤ qT := le_trans (quantum_mono p qmin y T hy0 hy) hq
    obtain ⟨k, hk⟩ : ∃ k : ℕ, qT = q + k := ⟨(qT - q).toNat, by omega⟩
    have hT2 : T = ((M * 2 ^ k : ℤ) : ℚ) * 2 ^ q := by
      rw [hT, hk, zpow_add₀ (by norm_num), zpow_natCast]
      push_cast
      ring
    have hz : y / 2 ^ q ≤ ((M * 2 ^ k : ℤ) : ℚ) := by
      rw [div_le_iff₀ hqpos, ← hT2]
      exact hy
    have h1 := roundTiesToEven_le _ _ hz
    have h2 : ((roundTiesToEven (y / 2 ^ q) : ℤ) : ℚ) ≤ ((M * 2 ^ k : ℤ) : ℚ) := by
      exact_mod_cast h1
    unfold roundToFormat
    rw [← hqdef, hT2]
    exact mul_le_mul_of_nonneg_right h2 hqpos.le

theorem roundToFormat_of_grid (p : ℕ) (qmin : ℤ) (x : ℚ) (n q : ℤ) (hx : x = n * 2 ^ q)
    (hq : quantum p qmin x ≤ q) : roundToFormat p qmin x = x := by
  set q0 := quantum p qmin x with hq0
  have hqpos := two_zpow_pos q0
  obtain ⟨k, hk⟩ : ∃ k : ℕ, q = q0 + k := ⟨(q - q0).toNat, by omega⟩
  have hx2 : x = ((n * 2 ^ k : ℤ) : ℚ) * 2 ^ q0 := by
    rw [hx, hk, zpow_add₀ (by norm_num), zpow_natCast]
    push_cast
    ring
  have hz : x / 2 ^ q0 = ((n * 2 ^ k : ℤ) : ℚ) := by
    rw [div_eq_iff hqpos.ne']
    exact hx2
  unfold roundToFormat
  rw [← hq0, hz, roundTiesToEven_intCast]
  exact hx2.symm

theorem toFloat_intCast (n : ℤ) (h : |n| < 2 ^ 24) : toFloat (n : ℚ) = n := by
  by_cases hn : n = 0
  · subst hn
    simp [toFloat, roundToFormat_zero]
  · apply roundToFormat_of_grid 24 (-149) _ n 0 (by simp)
    have hpos : 0 < |(n : ℚ)| := abs_pos.2 (by exact_mod_cast hn)
    have habs : |(n : ℚ)| < ((2 : ℕ) : ℚ) ^ (24 : ℤ) := by
      have h2 : ((|n| : ℤ) : ℚ) < ((2 ^ 24 : ℤ) : ℚ) := by exact_mod_cast h
      rw [Int.cast_abs] at h2
      rw [zpow_ofNat]
      exact_mod_cast h2
    have hlog := (Int.lt_zpow_iff_log_lt (b := 2) (by norm_num) hpos).1 habs
    unfold quantum
    omega

theorem roundToFormat_rel_error (p : ℕ) (qmin : ℤ) (x : ℚ)
    (h : (2 : ℚ) ^ (qmin + (p - 1)) ≤ |x|) :
    |roundToFormat p qmin x - x| ≤ |x| * 2 ^ (-(p : ℤ)) := by
  have hpos : 0 < |x| := lt_of_lt_of_le (two_zpow_pos _) h
  have hlog : qmin + (p - 1) ≤ Int.log 2 |x| :=
    (Int.zpow_le_iff_le_log (b := 2) (by norm_num) hpos).1 (by exact_mod_cast h)
  have hq : quantum p qmin x = Int.log 2 |x| - (p - 1) := by
    unfold quantum
    omega
  have hself : ((2 : ℕ) : ℚ) ^ Int.log 2 |x| ≤ |x| := Int.zpow_log_le_self (by norm_num) hpos
  refine le_trans (roundToFormat_sub_le p qmin x) ?_
  rw [hq]
  have : (2 : ℚ) ^ (Int.log 2 |x| - (p - 1)) / 2 = 2 ^ Int.log 2 |x| * 2 ^ (-(p : ℤ)) := by
    rw [show Int.log 2 |x| - ((p : ℤ) - 1) = Int.log 2 |x| + (-(p : ℤ)) + 1 by ring,
      zpow_add₀ (by norm_num), zpow_add₀ (by norm_num)]
    norm_num
  rw [this]
  exact mul_le_mul_of_nonneg_right (by exact_mod_cast hself) (two_zpow_pos _).le

theorem quantum_le_of_lt (p : ℕ) (qmin : ℤ) (x : ℚ) (E : ℤ) (hx : x ≠ 0)
    (h : |x| < 2 ^ (E + 1)) : quantum p qmin x ≤ max (E - (p - 1)) qmin := by
  have hpos : 0 < |x| := abs_pos.2 hx
  have h2 : |x| < ((2 : ℕ) : ℚ) ^ (E + 1) := by
    rw [Nat.cast_ofNat]
    exact h
  have := (Int.lt_zpow_iff_log_lt (b := 2) (by norm_num) hpos).1 h2
  unfold quantum
  omega

theorem roundToFormat_error_lt (p : ℕ) (qmin : ℤ) (x : ℚ) (E : ℤ) (h : |x| < 2 ^ (E + 1)) :
    |roundToFormat p qmin x - x| ≤ 2 ^ max (E - (p - 1)) qmin / 2 := by
  by_cases hx : x = 0
  · subst hx
    rw [roundToFormat_zero, sub_zero, abs_zero]
    exact div_nonneg (two_zpow_pos _).le (by norm_num)
  · refine le_trans (roundToFormat_sub_le p qmin x) ?_
    have hq := quantum_le_of_lt p qmin x E hx h
    have : (2 : ℚ) ^ quantum p qmin x ≤ 2 ^ max (E - (p - 1)) qmin :=
      zpow_le_zpow_right₀ (by norm_num) hq
    linarith

theorem le_roundToFormat_of_le (p : ℕ) (qmin : ℤ) (y T : ℚ) (M qT : ℤ) (hT : T = M * 2 ^ qT)
    (hTpos : 0 < T) (hq : quantum p qmin T ≤ qT) (hy : -T ≤ y) : -T ≤ roundToFormat p qmin y := by
  set q := quantum p qmin y with hqdef
  have hqpos := two_zpow_pos q
  rcases le_or_lt 0 y with hy0 | hy0
  · have hz : ((0 : ℤ) : ℚ) ≤ y / 2 ^ q := by
      rw [Int.cast_zero]
      exact div_nonneg hy0 hqpos.le
    have h1 := le_roundTiesToEven _ 0 hz
    have h2 : (0 : ℚ) ≤ ((roundTiesToEven (y / 2 ^ q) : ℤ) : ℚ) := by exact_mod_cast h1
    unfold roundToFormat
    rw [← hqdef]
    have := mul_nonneg h2 hqpos.le
    linarith
  · have habs : |y| ≤ |T| := by
      rw [abs_of_neg hy0, abs_of_pos hTpos]
      linarith
    have hlog := Int.log_mono_right (b := 2) (abs_pos.2 hy0.ne) habs
    have hle : q ≤ qT := by
      have : quantum p qmin y ≤ quantum p qmin T := by
        unfold quantum
        omega
      exact le_trans this hq
    obtain ⟨k, hk⟩ : ∃ k : ℕ, qT = q + k := ⟨(qT - q).toNat, by omega⟩
    have hT2 : T = ((M * 2 ^ k : ℤ) : ℚ) * 2 ^ q := by
      rw [hT, hk, zpow_add₀ (by norm_num), zpow_natCast]
      push_cast
      ring
    have hz : ((-(M * 2 ^ k) : ℤ) : ℚ) ≤ y / 2 ^ q := by
      rw [le_div_iff₀ hqpos, Int.cast_neg, neg_mul, ← hT2]
      exact hy
    have h1 := le_roundTiesToEven _ _ hz
    have h2 : ((-(M * 2 ^ k) : ℤ) : ℚ) ≤ ((roundTiesToEven (y / 2 ^ q) : ℤ) : ℚ) := by
      exact_mod_cast h1
    unfold roundToFormat
    rw [← hqdef]
    have h3 := mul_le_mul_of_nonneg_right h2 hqpos.le
    rw [Int.cast_neg, neg_mul, ← hT2] at h3
    exact h3

theorem abs_roundToFormat_le_of_le (p : ℕ) (qmin : ℤ) (y T : ℚ) (M qT : ℤ)
    (hT : T = M * 2 ^ qT) (hTpos : 0 < T) (hq : quantum p qmin T ≤ qT) (hy : |y| ≤ T) :
    |roundToFormat p qmin y| ≤ T := by
  have h := abs_le.1 hy
  rw [abs_le]
  exact ⟨le_roundToFormat_of_le p qmin y T M qT hT hTpos hq h.1,
    roundToFormat_le_of_le p qmin y T M qT hT hTpos hq h.2⟩

/-! ## Values of the float arithmetic -/

theorem twoPi_eq : toDouble (M_PI * 2) = 884279719003555 / 2 ^ 47 := by
  have := roundToFormat_eq 53 (-1074) (M_PI * 2) 2 (-50) 7074237752028440
    (by norm_num [M_PI, abs_of_pos]) (by norm_num [M_PI, abs_of_pos]) (by norm_num)
    (by norm_num [M_PI, abs_of_pos])
  rw [toDouble, this]
  norm_num

theorem addTwoPi_zero : addTwoPi 0 = 13176795 / 2 ^ 21 := by
  have h1 : toDouble (0 + 884279719003555 / 2 ^ 47) = 884279719003555 / 2 ^ 47 := by
    have := roundToFormat_eq 53 (-1074) (0 + 884279719003555 / 2 ^ 47) 2 (-50) 7074237752028440
      (by norm_num [abs_of_pos]) (by norm_num [abs_of_pos]) (by norm_num)
      (by norm_num [abs_of_pos])
    rw [toDouble, this]
    norm_num
  have h2 : toFloat (884279719003555 / 2 ^ 47) = 13176795 / 2 ^ 21 := by
    have := roundToFormat_eq 24 (-149) (884279719003555 / 2 ^ 47) 2 (-21) 13176795
      (by norm_num [abs_of_pos]) (by norm_num [abs_of_pos]) (by norm_num)
      (by norm_num [abs_lt])
    rw [toFloat, this]
    norm_num
  rw [addTwoPi, twoPi_eq, h1, h2]

theorem subtractTwoPi_billion : subtractTwoPi 1000000000 = 1000000000 := by
  have h1 : toDouble (1000000000 - 884279719003555 / 2 ^ 47) = 8388607947292821 / 2 ^ 23 := by
    have := roundToFormat_eq 53 (-1074) (1000000000 - 884279719003555 / 2 ^ 47) 29 (-23)
      8388607947292821
      (by norm_num [abs_of_pos]) (by norm_num [abs_of_pos]) (by norm_num)
      (by norm_num [abs_lt])
    rw [toDouble, this]
    norm_num
  have h2 : toFloat (8388607947292821 / 2 ^ 23) = 1000000000 := by
    have := roundToFormat_eq 24 (-149) (8388607947292821 / 2 ^ 23) 29 6 15625000
      (by norm_num [abs_of_pos]) (by norm_num [abs_of_pos]) (by norm_num)
      (by norm_num [abs_lt])
    rw [toFloat, this]
    norm_num
  rw [subtractTwoPi, twoPi_eq, h1, h2]

theorem addTwoPi_below_pi : addTwoPi (13176794 / 2 ^ 22) = 2470649 / 2 ^ 18 := by
  have h1 : toDouble (13176794 / 2 ^ 22 + 884279719003555 / 2 ^ 47)
      = 1326419557254563 / 2 ^ 47 := by
    have := roundToFormat_eq 53 (-1074) (13176794 / 2 ^ 22 + 884279719003555 / 2 ^ 47) 3 (-49)
      5305678229018252
      (by norm_num [abs_of_pos]) (by norm_num [abs_of_pos]) (by norm_num)
      (by norm_num [abs_lt])
    rw [toDouble, this]
    norm_num
  have h2 : toFloat (1326419557254563 / 2 ^ 47) = 2470649 / 2 ^ 18 := by
    have := roundToFormat_eq 24 (-149) (1326419557254563 / 2 ^ 47) 3 (-20) 9882596
      (by norm_num [abs_of_pos]) (by norm_num [abs_of_pos]) (by norm_num)
      (by norm_num [abs_lt])
    rw [toFloat, this]
    norm_num
  rw [addTwoPi, twoPi_eq, h1, h2]

theorem whileAbove_billion (fuel : Nat) : whileAbove fuel 1000000000 = none := by
  have h : (1000000000 : ALfloat) > M_PI := by norm_num [M_PI]
  induction fuel with
  | zero => simp [whileAbove, h]
  | succ fuel ih => rw [whileAbove, if_pos h, subtractTwoPi_billion, ih]

theorem normalisedAngle_zero : normalisedAngle 1 0 = some (13176795 / 2 ^ 21) := by
  have h1 : ¬ ((0 : ALfloat) > M_PI) := by norm_num [M_PI]
  have h2 : (0 : ALfloat) < M_PI := by norm_num [M_PI]
  have h3 : ¬ ((13176795 / 2 ^ 21 : ALfloat) < M_PI) := by norm_num [M_PI]
  simp only [normalisedAngle, whileAbove, if_neg h1, Option.some_bind, whileBelow, if_pos h2,
    addTwoPi_zero, if_neg h3]

theorem normalisedAngle_below_pi :
    normalisedAngle 1 (13176794 / 2 ^ 22) = some (2470649 / 2 ^ 18) := by
  have h1 : ¬ ((13176794 / 2 ^ 22 : ALfloat) > M_PI) := by norm_num [M_PI]
  have h2 : (13176794 / 2 ^ 22 : ALfloat) < M_PI := by norm_num [M_PI]
  have h3 : ¬ ((2470649 / 2 ^ 18 : ALfloat) < M_PI) := by norm_num [M_PI]
  simp only [normalisedAngle, whileAbove, if_neg h1, Option.some_bind, whileBelow, if_pos h2,
    addTwoPi_below_pi, if_neg h3]

theorem subtractTwoPi_above_limit : subtractTwoPi 134217744 = 134217744 := by
  have h1 : toDouble (134217744 - 884279719003555 / 2 ^ 47) = 2251799976706347 / 2 ^ 24 := by
    have := roundToFormat_eq 53 (-1074) (134217744 - 884279719003555 / 2 ^ 47) 27 (-25)
      4503599953412694
      (by norm_num [abs_of_pos]) (by norm_num [abs_of_pos]) (by norm_num)
      (by norm_num [abs_lt])
    rw [toDouble, this]
    norm_num
  have h2 : toFloat (2251799976706347 / 2 ^ 24) = 134217744 := by
    have := roundToFormat_eq 24 (-149) (2251799976706347 / 2 ^ 24) 27 4 8388609
      (by norm_num [abs_of_pos]) (by norm_num [abs_of_pos]) (by norm_num)
      (by norm_num [abs_lt])
    rw [toFloat, this]
    norm_num
  rw [subtractTwoPi, twoPi_eq, h1, h2]

theorem addTwoPi_minus_billion : addTwoPi (-1000000000) = -1000000000 := by
  have h1 : toDouble (-1000000000 + 884279719003555 / 2 ^ 47) = -8388607947292821 / 2 ^ 23 := by
    have := roundToFormat_eq 53 (-1074) (-1000000000 + 884279719003555 / 2 ^ 47) 29 (-23)
      (-8388607947292821)
      (by norm_num [abs_of_neg]) (by norm_num [abs_of_neg]) (by norm_num)
      (by norm_num [abs_lt])
    rw [toDouble, this]
    norm_num
  have h2 : toFloat (-8388607947292821 / 2 ^ 23) = -1000000000 := by
    have := roundToFormat_eq 24 (-149) (-8388607947292821 / 2 ^ 23) 29 6 (-15625000)
      (by norm_num [abs_of_neg]) (by norm_num [abs_of_neg]) (by norm_num)
      (by norm_num [abs_lt])
    rw [toFloat, this]
    norm_num
  rw [addTwoPi, twoPi_eq, h1, h2]

theorem whileBelow_minus_billion (fuel : Nat) : whileBelow fuel (-1000000000) = none := by
  have h : (-1000000000 : ALfloat) < M_PI := by norm_num [M_PI]
  induction fuel with
  | zero => simp [whileBelow, h]
  | succ fuel ih => rw [whileBelow, if_pos h, addTwoPi_minus_billion, ih]

theorem whileAbove_above_limit (fuel : Nat) : whileAbove fuel 134217744 = none := by
  have h : (134217744 : ALfloat) > M_PI := by norm_num [M_PI]
  induction fuel with
  | zero => simp [whileAbove, h]
  | succ fuel ih => rw [whileAbove, if_pos h, subtractTwoPi_above_limit, ih]

theorem getDurationSeconds_eval (sizeInBytes channels bits frequency n : Int)
    (h1 : wrapInt32 (channels * bits) ≠ 0)
    (h2 : wrapInt32 (Int.tdiv (wrapInt32 (sizeInBytes * 8)) (wrapInt32 (channels * bits))) = n)
    (h3 : frequency ≠ 0) :
    getDurationSeconds sizeInBytes channels bits frequency
      = some (toFloat (toFloat (n : ℚ) / toFloat (frequency : ℚ))) := by
  simp only [getDurationSeconds, if_neg h1, if_neg h3, h2]

theorem toFloat_44100 : toFloat ((44100 : Int) : ℚ) = 44100 := by
  rw [toFloat_intCast _ (by norm_num)]
  norm_num

theorem getDurationSeconds_one_frame :
    getDurationSeconds 2 1 16 44100 = some (6233059 / 2 ^ 38) := by
  rw [getDurationSeconds_eval 2 1 16 44100 1 (by decide) (by decide) (by decide),
    toFloat_44100, toFloat_intCast _ (by norm_num)]
  have := roundToFormat_eq 24 (-149) (((1 : Int) : ℚ) / 44100) (-16) (-39) 12466118
    (by norm_num [abs_of_pos]) (by norm_num [abs_of_pos]) (by norm_num)
    (by norm_num [abs_lt])
  rw [toFloat, this]
  norm_num

theorem getDurationSeconds_overflow :
    getDurationSeconds 268435456 1 32 44100 = some (-6233059 / 4096) := by
  have h1 : toFloat ((-67108864 : Int) : ℚ) = -67108864 := by
    have := roundToFormat_eq 24 (-149) (((-67108864 : Int) : ℚ)) 26 3 (-8388608)
      (by norm_num [abs_of_neg]) (by norm_num [abs_of_neg]) (by norm_num)
      (by norm_num [abs_lt])
    rw [toFloat, this]
    norm_num
  rw [getDurationSeconds_eval 268435456 1 32 44100 (-67108864) (by decide) (by decide)
    (by decide), toFloat_44100, h1]
  have := roundToFormat_eq 24 (-149) ((-67108864 : ℚ) / 44100) 10 (-13) (-12466118)
    (by norm_num [abs_of_neg]) (by norm_num [abs_of_neg]) (by norm_num)
    (by norm_num [abs_lt])
  rw [toFloat, this]
  norm_num

theorem toFloat_below_pi : toFloat (13176794 / 2 ^ 22) = 13176794 / 2 ^ 22 := by
  have := roundToFormat_eq 24 (-149) (13176794 / 2 ^ 22) 1 (-22) 13176794
    (by norm_num [abs_of_pos]) (by norm_num [abs_of_pos]) (by norm_num)
    (by norm_num [abs_lt])
  rw [toFloat, this]
  norm_num

/-! ## Loop lemmas -/

theorem whileAbove_succ (n : Nat) : ∀ (x r : ALfloat),
    whileAbove n x = some r → whileAbove (n + 1) x = some r := by
  induction n with
  | zero =>
    intro x r h
    by_cases hx : x > M_PI
    · simp [whileAbove, hx] at h
    · simp only [whileAbove, if_neg hx] at h ⊢
      exact h
  | succ n ih =>
    intro x r h
    by_cases hx : x > M_PI
    · rw [whileAbove, if_pos hx] at h
      rw [whileAbove, if_pos hx]
      exact ih _ _ h
    · rw [whileAbove, if_neg hx] at h
      rw [whileAbove, if_neg hx]
      exact h

theorem whileAbove_mono (n m : Nat) (x r : ALfloat) (hnm : n ≤ m)
    (h : whileAbove n x = some r) : whileAbove m x = some r := by
  induction hnm with
  | refl => exact h
  | step _ ih => exact whileAbove_succ _ _ _ ih

theorem whileBelow_succ (n : Nat) : ∀ (x r : ALfloat),
    whileBelow n x = some r → whileBelow (n + 1) x = some r := by
  induction n with
  | zero =>
    intro x r h
    by_cases hx : x < M_PI
    · simp [whileBelow, hx] at h
    · simp only [whileBelow, if_neg hx] at h ⊢
      exact h
  | succ n ih =>
    intro x r h
    by_cases hx : x < M_PI
    · rw [whileBelow, if_pos hx] at h
      rw [whileBelow, if_pos hx]
      exact ih _ _ h
    · rw [whileBelow, if_neg hx] at h
      rw [whileBelow, if_neg hx]
      exact h

theorem whileBelow_mono (n m : Nat) (x r : ALfloat) (hnm : n ≤ m)
    (h : whileBelow n x = some r) : whileBelow m x = some r := by
  induction hnm with
  | refl => exact h
  | step _ ih => exact whileBelow_succ _ _ _ ih

theorem whileAbove_le (n : Nat) : ∀ (x r : ALfloat), whileAbove n x = some r → r ≤ M_PI := by
  induction n with
  | zero =>
    intro x r h
    by_cases hx : x > M_PI
    · simp [whileAbove, hx] at h
    · simp only [whileAbove, if_neg hx, Option.some.injEq] at h
      rw [← h]
      exact not_lt.1 hx
  | succ n ih =>
    intro x r h
    by_cases hx : x > M_PI
    · rw [whileAbove, if_pos hx] at h
      exact ih _ _ h
    · simp only [whileAbove, if_neg hx, Option.some.injEq] at h
      rw [← h]
      exact not_lt.1 hx

theorem whileAbove_of_step (B ε δ : ℚ)
    (hstep : ∀ x, M_PI < x → x ≤ B → |subtractTwoPi x - (x - toDouble (M_PI * 2))| ≤ ε)
    (hprog : ε + δ ≤ toDouble (M_PI * 2)) (hδ : 0 ≤ δ) :
    ∀ (n : Nat) (x : ALfloat), x ≤ B → x ≤ M_PI + n * δ →
      ∃ (r : ALfloat) (j : Nat), j ≤ n ∧ whileAbove n x = some r
        ∧ |r - (x - j * toDouble (M_PI * 2))| ≤ j * ε
        ∧ (r = x ∨ M_PI - toDouble (M_PI * 2) - ε ≤ r) := by
  intro n
  induction n with
  | zero =>
    intro x _ hx
    have hx1 : ¬ (x > M_PI) := by
      simp only [Nat.cast_zero, zero_mul, add_zero] at hx
      exact not_lt.2 hx
    exact ⟨x, 0, le_refl _, by simp [whileAbove, hx1], by simp, Or.inl rfl⟩
  | succ n ih =>
    intro x hB hx
    by_cases hx1 : x > M_PI
    · have hs := hstep x hx1 hB
      have hs2 := abs_le.1 hs
      have hy : subtractTwoPi x ≤ x - δ := by linarith [hs2.2]
      have hyB : subtractTwoPi x ≤ B := by linarith
      have hyn : subtractTwoPi x ≤ M_PI + n * δ := by
        push_cast at hx
        linarith
      obtain ⟨r, j, hj, hr, herr, hlow⟩ := ih (subtractTwoPi x) hyB hyn
      refine ⟨r, j + 1, Nat.succ_le_succ hj, ?_, ?_, Or.inr ?_⟩
      · rw [whileAbove, if_pos hx1]
        exact hr
      · have h1 := abs_le.1 herr
        push_cast
        rw [abs_le]
        constructor <;> linarith [h1.1, h1.2, hs2.1, hs2.2]
      · rcases hlow with h | h
        · rw [h]
          linarith [hs2.1]
        · exact h
    · refine ⟨x, 0, Nat.zero_le _, ?_, by simp, Or.inl rfl⟩
      rw [whileAbove, if_neg hx1]

theorem whileBelow_of_step (B ε δ : ℚ)
    (hstep : ∀ x, -B ≤ x → x < M_PI → |addTwoPi x - (x + toDouble (M_PI * 2))| ≤ ε)
    (hprog : ε + δ ≤ toDouble (M_PI * 2)) (hδ : 0 ≤ δ) :
    ∀ (n : Nat) (x : ALfloat), -B ≤ x → M_PI - n * δ ≤ x →
      ∃ (r : ALfloat) (j : Nat), j ≤ n ∧ whileBelow n x = some r
        ∧ |r - (x + j * toDouble (M_PI * 2))| ≤ j * ε := by
  intro n
  induction n with
  | zero =>
    intro x _ hx
    have hx1 : ¬ (x < M_PI) := by
      simp only [Nat.cast_zero, zero_mul, sub_zero] at hx
      exact not_lt.2 hx
    exact ⟨x, 0, le_refl _, by simp [whileBelow, hx1], by simp⟩
  | succ n ih =>
    intro x hB hx
    by_cases hx1 : x < M_PI
    · have hs := hstep x hB hx1
      have hs2 := abs_le.1 hs
      have hy : x + δ ≤ addTwoPi x := by linarith [hs2.1]
      have hyB : -B ≤ addTwoPi x := by linarith
      have hyn : M_PI - n * δ ≤ addTwoPi x := by
        push_cast at hx
        linarith
      obtain ⟨r, j, hj, hr, herr⟩ := ih (addTwoPi x) hyB hyn
      refine ⟨r, j + 1, Nat.succ_le_succ hj, ?_, ?_⟩
      · rw [whileBelow, if_pos hx1]
        exact hr
      · have h1 := abs_le.1 herr
        push_cast
        rw [abs_le]
        constructor <;> linarith [h1.1, h1.2, hs2.1, hs2.2]
    · refine ⟨x, 0, Nat.zero_le _, ?_, by simp⟩
      rw [whileBelow, if_neg hx1]

theorem sixteen_le_two_pow (E : ℕ) (hE : 4 ≤ E) : (16 : ℚ) ≤ 2 ^ E := by
  have : (2 : ℚ) ^ 4 ≤ 2 ^ E := pow_le_pow_right₀ (by norm_num) hE
  norm_num at this
  exact this

theorem toFloat_toDouble_error (E : ℕ) (hE : 4 ≤ E) (h27 : E ≤ 27) (y : ℚ)
    (h : |y| ≤ 2 ^ E - 6) :
    |toFloat (toDouble y) - y| ≤ 2 ^ E / 2 ^ 25 + 2 ^ E / 2 ^ 54 := by
  have h16 := sixteen_le_two_pow E hE
  obtain ⟨F, hF⟩ : ∃ F : ℕ, E = F + 1 := ⟨E - 1, by omega⟩
  have hpow : (2 : ℚ) ^ E = 2 ^ (((F : ℕ) : ℤ) + 1) := by
    rw [hF, zpow_add_one₀ (by norm_num), zpow_natCast, pow_succ]
  have hTpos : (0 : ℚ) < 2 ^ E - 6 := by linarith
  have hT : (2 : ℚ) ^ E - 6 = ((2 ^ E - 6 : ℤ) : ℚ) * 2 ^ (0 : ℤ) := by
    push_cast
    simp
  have hlt : |(2 : ℚ) ^ E - 6| < 2 ^ (((F : ℕ) : ℤ) + 1) := by
    rw [abs_of_pos hTpos, ← hpow]
    linarith
  have hq53 : quantum 53 (-1074) (2 ^ E - 6) ≤ 0 := by
    have := quantum_le_of_lt 53 (-1074) (2 ^ E - 6) F hTpos.ne' hlt
    refine le_trans this ?_
    push_cast
    omega
  have h1 : |y| < (2 : ℚ) ^ (((F : ℕ) : ℤ) + 1) := by
    rw [← hpow]
    linarith
  have hd := roundToFormat_error_lt 53 (-1074) y F h1
  have hb := abs_roundToFormat_le_of_le 53 (-1074) y (2 ^ E - 6) (2 ^ E - 6) 0 hT hTpos hq53 h
  have h2 : |roundToFormat 53 (-1074) y| < (2 : ℚ) ^ (((F : ℕ) : ℤ) + 1) := by
    rw [← hpow]
    linarith
  have hf := roundToFormat_error_lt 24 (-149) (roundToFormat 53 (-1074) y) F h2
  have m1 : max ((F : ℤ) - ((53 : ℕ) - 1)) (-1074) = (F : ℤ) - 52 := by
    rw [max_eq_left (by push_cast; omega)]
    push_cast
    ring
  have m2 : max ((F : ℤ) - ((24 : ℕ) - 1)) (-149) = (F : ℤ) - 23 := by
    rw [max_eq_left (by push_cast; omega)]
    push_cast
    ring
  rw [m1, zpow_sub₀ (by norm_num), zpow_natCast] at hd
  rw [m2, zpow_sub₀ (by norm_num), zpow_natCast] at hf
  have e1 : ((2 : ℚ) ^ F / 2 ^ (52 : ℤ)) / 2 = 2 ^ E / 2 ^ 54 := by
    rw [hF, pow_succ]
    norm_num
    ring
  have e2 : ((2 : ℚ) ^ F / 2 ^ (23 : ℤ)) / 2 = 2 ^ E / 2 ^ 25 := by
    rw [hF, pow_succ]
    norm_num
    ring
  rw [e1] at hd
  rw [e2] at hf
  have : toFloat (toDouble y) - y
      = (roundToFormat 24 (-149) (roundToFormat 53 (-1074) y) - roundToFormat 53 (-1074) y)
        + (roundToFormat 53 (-1074) y - y) := by
    simp only [toFloat, toDouble]
    ring
  rw [this]
  exact le_trans (abs_add _ _) (add_le_add hf hd)

theorem subtractTwoPi_error (E : ℕ) (hE : 4 ≤ E) (h27 : E ≤ 27) (x : ℚ) (h1 : M_PI < x)
    (h2 : x ≤ 2 ^ E) :
    |subtractTwoPi x - (x - toDouble (M_PI * 2))| ≤ 2 ^ E / 2 ^ 25 + 2 ^ E / 2 ^ 54 := by
  have h16 := sixteen_le_two_pow E hE
  apply toFloat_toDouble_error E hE h27
  rw [twoPi_eq, abs_le]
  norm_num [M_PI] at h1
  constructor
  · norm_num
    linarith
  · norm_num
    linarith

theorem addTwoPi_error (E : ℕ) (hE : 4 ≤ E) (h27 : E ≤ 27) (x : ℚ) (h1 : -2 ^ E ≤ x)
    (h2 : x < M_PI) :
    |addTwoPi x - (x + toDouble (M_PI * 2))| ≤ 2 ^ E / 2 ^ 25 + 2 ^ E / 2 ^ 54 := by
  have h16 := sixteen_le_two_pow E hE
  apply toFloat_toDouble_error E hE h27
  rw [twoPi_eq, abs_le]
  norm_num [M_PI] at h2
  constructor
  · norm_num
    linarith
  · norm_num
    linarith

theorem normalisedAngle_of_le (E : ℕ) (h4 : 4 ≤ E) (h27 : E ≤ 27) (a : ALfloat)
    (ha : |a| ≤ 2 ^ E) :
    ∃ (r : ALfloat) (k : ℤ),
      (∀ fuel : Nat, 2 ^ E ≤ fuel → normalisedAngle fuel a = some r)
        ∧ |(k : ℚ)| ≤ 2 ^ (E + 1)
        ∧ |r - (a + k * toDouble (M_PI * 2))| ≤ 2 ^ (2 * E) / 2 ^ 24 + 2 ^ (2 * E) / 2 ^ 53 := by
  have h16 := sixteen_le_two_pow E h4
  have hP : (2 : ℚ) ^ E ≤ 2 ^ 27 := pow_le_pow_right₀ (by norm_num) h27
  have ha2 := abs_le.1 ha
  have hε : (2 : ℚ) ^ E / 2 ^ 25 + 2 ^ E / 2 ^ 54 + 2 ≤ toDouble (M_PI * 2) := by
    rw [twoPi_eq]
    have : (2 : ℚ) ^ E / 2 ^ 25 + 2 ^ E / 2 ^ 54 ≤ 2 ^ 27 / 2 ^ 25 + 2 ^ 27 / 2 ^ 54 := by
      gcongr
    norm_num at this ⊢
    linarith
  have hM1 : (3 : ℚ) < M_PI := by norm_num [M_PI]
  have hM2 : M_PI < 4 := by norm_num [M_PI]
  obtain ⟨r1, j1, hj1, hr1, herr1, hlow1⟩ :=
    whileAbove_of_step (2 ^ E) (2 ^ E / 2 ^ 25 + 2 ^ E / 2 ^ 54) 2
      (fun x hx1 hx2 => subtractTwoPi_error E h4 h27 x hx1 hx2) hε (by norm_num) (2 ^ E) a ha2.2
      (by push_cast; linarith)
  have hr1le := whileAbove_le _ _ _ hr1
  have hc := twoPi_eq
  have hr1B : -2 ^ E ≤ r1 := by
    rcases hlow1 with h | h
    · rw [h]; exact ha2.1
    · rw [twoPi_eq] at hε h
      norm_num at hε h
      linarith
  obtain ⟨r, j2, hj2, hr, herr2⟩ :=
    whileBelow_of_step (2 ^ E) (2 ^ E / 2 ^ 25 + 2 ^ E / 2 ^ 54) 2
      (fun x hx1 hx2 => addTwoPi_error E h4 h27 x hx1 hx2) hε (by norm_num) (2 ^ E) r1 hr1B
      (by push_cast; linarith)
  refine ⟨r, (j2 : ℤ) - (j1 : ℤ), ?_, ?_, ?_⟩
  · intro fuel hfuel
    rw [normalisedAngle, whileAbove_mono _ _ _ _ hfuel hr1, Option.some_bind,
      whileBelow_mono _ _ _ _ hfuel hr]
  · have q1 : (j1 : ℚ) ≤ 2 ^ E := by exact_mod_cast hj1
    have q2 : (j2 : ℚ) ≤ 2 ^ E := by exact_mod_cast hj2
    have p1 : (0 : ℚ) ≤ j1 := Nat.cast_nonneg _
    have p2 : (0 : ℚ) ≤ j2 := Nat.cast_nonneg _
    push_cast
    rw [abs_le, pow_succ]
    constructor <;> linarith
  · have q1 : (j1 : ℚ) ≤ 2 ^ E := by exact_mod_cast hj1
    have q2 : (j2 : ℚ) ≤ 2 ^ E := by exact_mod_cast hj2
    have p1 : (0 : ℚ) ≤ j1 := Nat.cast_nonneg _
    have p2 : (0 : ℚ) ≤ j2 := Nat.cast_nonneg _
    have e1 := abs_le.1 herr1
    have e2 := abs_le.1 herr2
    have hεpos : (0 : ℚ) ≤ 2 ^ E / 2 ^ 25 + 2 ^ E / 2 ^ 54 := by positivity
    have b1 : (j1 : ℚ) * (2 ^ E / 2 ^ 25 + 2 ^ E / 2 ^ 54)
        ≤ 2 ^ E * (2 ^ E / 2 ^ 25 + 2 ^ E / 2 ^ 54) :=
      mul_le_mul_of_nonneg_right q1 hεpos
    have b2 : (j2 : ℚ) * (2 ^ E / 2 ^ 25 + 2 ^ E / 2 ^ 54)
        ≤ 2 ^ E * (2 ^ E / 2 ^ 25 + 2 ^ E / 2 ^ 54) :=
      mul_le_mul_of_nonneg_right q2 hεpos
    have b3 : 2 * ((2 : ℚ) ^ E * (2 ^ E / 2 ^ 25 + 2 ^ E / 2 ^ 54))
        ≤ 2 ^ (2 * E) / 2 ^ 24 + 2 ^ (2 * E) / 2 ^ 53 := by
      have hsq : (0 : ℚ) ≤ 2 ^ E * 2 ^ E := by positivity
      have h2E : (2 : ℚ) ^ (2 * E) = 2 ^ E * 2 ^ E := by rw [two_mul, pow_add]
      rw [h2E]
      generalize (2 : ℚ) ^ E = P at hsq
      norm_num
      linarith
    push_cast
    rw [abs_le]
    constructor <;> linarith

theorem addTwoPi_le (x : ALfloat) (h : x < M_PI) : addTwoPi x ≤ 2470649 / 2 ^ 18 := by
  have q53 : quantum 53 (-1074) (2470649 / 2 ^ 18) ≤ -49 := by
    rw [quantum_eq 53 (-1074) _ 3 (by norm_num [abs_of_pos]) (by norm_num [abs_of_pos])]
    norm_num
  have q24 : quantum 24 (-149) (2470649 / 2 ^ 18) ≤ -20 := by
    rw [quantum_eq 24 (-149) _ 3 (by norm_num [abs_of_pos]) (by norm_num [abs_of_pos])]
    norm_num
  have h1 : toDouble (x + toDouble (M_PI * 2)) ≤ 2470649 / 2 ^ 18 := by
    apply roundToFormat_le_of_le 53 (-1074) _ _ 5305678327447552 (-49) (by norm_num)
      (by norm_num) q53
    rw [twoPi_eq]
    norm_num [M_PI] at h ⊢
    linarith
  exact roundToFormat_le_of_le 24 (-149) _ _ 9882596 (-20) (by norm_num) (by norm_num) q24 h1

theorem whileBelow_range (n : Nat) : ∀ (x r : ALfloat), whileBelow n x = some r →
    M_PI ≤ r ∧ (r = x ∨ r ≤ 2470649 / 2 ^ 18) := by
  induction n with
  | zero =>
    intro x r h
    by_cases hx : x < M_PI
    · simp [whileBelow, hx] at h
    · simp only [whileBelow, if_neg hx, Option.some.injEq] at h
      rw [← h]
      exact ⟨not_lt.1 hx, Or.inl rfl⟩
  | succ n ih =>
    intro x r h
    by_cases hx : x < M_PI
    · rw [whileBelow, if_pos hx] at h
      obtain ⟨h1, h2⟩ := ih _ _ h
      refine ⟨h1, Or.inr ?_⟩
      rcases h2 with h2 | h2
      · rw [h2]
        exact addTwoPi_le x hx
      · exact h2
    · simp only [whileBelow, if_neg hx, Option.some.injEq] at h
      rw [← h]
      exact ⟨not_lt.1 hx, Or.inl rfl⟩

theorem normalisedAngle_bounds (fuel : Nat) (a r : ALfloat) (h : normalisedAngle fuel a = some r) :
    M_PI ≤ r ∧ r ≤ 2470649 / 2 ^ 18 := by
  rw [normalisedAngle] at h
  cases h1 : whileAbove fuel a with
  | none => simp [h1] at h
  | some x =>
    rw [h1, Option.some_bind] at h
    obtain ⟨h2, h3⟩ := whileBelow_range _ _ _ h
    refine ⟨h2, ?_⟩
    rcases h3 with h3 | h3
    · rw [h3]
      have := whileAbove_le _ _ _ h1
      norm_num [M_PI] at this ⊢
      linarith
    · exact h3

theorem normalisedAngle_unique (a r1 r2 : ALfloat) (f1 f2 : Nat)
    (h1 : normalisedAngle f1 a = some r1) (h2 : normalisedAngle f2 a = some r2) : r1 = r2 := by
  rw [normalisedAngle] at h1 h2
  cases hx1 : whileAbove f1 a with
  | none => simp [hx1] at h1
  | some x1 =>
    cases hx2 : whileAbove f2 a with
    | none => simp [hx2] at h2
    | some x2 =>
      rw [hx1, Option.some_bind] at h1
      rw [hx2, Option.some_bind] at h2
      have e1 := whileAbove_mono _ _ _ _ (le_max_left f1 f2) hx1
      have e2 := whileAbove_mono _ _ _ _ (le_max_right f1 f2) hx2
      rw [e1] at e2
      have hx : x1 = x2 := Option.some.inj e2
      subst hx
      have g1 := whileBelow_mono _ _ _ _ (le_max_left f1 f2) h1
      have g2 := whileBelow_mono _ _ _ _ (le_max_right f1 f2) h2
      rw [g1] at g2
      exact Option.some.inj g2

theorem M_PI_lt_pi : ((M_PI : ℚ) : ℝ) < Real.pi := by
  have := Real.pi_gt_d20
  rw [M_PI]
  push_cast
  norm_num at this ⊢
  linarith

theorem three_pi_lt : 3 * Real.pi < ((2470649 / 2 ^ 18 : ℚ) : ℝ) := by
  have := Real.pi_lt_d20
  push_cast
  norm_num at this ⊢
  linarith

theorem twoPi_close : |((toDouble (M_PI * 2) : ℚ) : ℝ) - 2 * Real.pi| ≤ 1 / 2 ^ 51 := by
  have h1 := Real.pi_gt_d20
  have h2 := Real.pi_lt_d20
  rw [twoPi_eq, abs_le]
  push_cast
  norm_num at h1 h2 ⊢
  constructor <;> linarith

theorem normalisedAngle_of_le_real (E : ℕ) (a : ALfloat) (h4 : 4 ≤ E) (h27 : E ≤ 27)
    (ha : |a| ≤ 2 ^ E) :
    ∃ (r : ALfloat) (k : ℤ),
      (∀ fuel : Nat, 2 ^ E ≤ fuel → normalisedAngle fuel a = some r)
        ∧ (∀ (fuel : Nat) (r1 : ALfloat), normalisedAngle fuel a = some r1 → r1 = r)
        ∧ M_PI ≤ r ∧ r ≤ 2470649 / 2 ^ 18
        ∧ Real.pi - 1 / 2 ^ 52 < (r : ℝ) ∧ (r : ℝ) < 3 * Real.pi + 3 / 10 ^ 8
        ∧ |(r : ℝ) - ((a : ℝ) + k * (2 * Real.pi))| ≤ 2 ^ (2 * E) / 2 ^ 23 := by
  have h16 := sixteen_le_two_pow E h4
  obtain ⟨r, k, hr, hk, herr⟩ := normalisedAngle_of_le E h4 h27 a ha
  have hb := normalisedAngle_bounds _ a r (hr _ (le_refl _))
  have hlo : ((M_PI : ℚ) : ℝ) ≤ (r : ℝ) := by exact_mod_cast hb.1
  have hhi : (r : ℝ) ≤ ((2470649 / 2 ^ 18 : ℚ) : ℝ) := by exact_mod_cast hb.2
  have h1 := Real.pi_gt_d20
  have h2 := Real.pi_lt_d20
  refine ⟨r, k, hr, ?_, hb.1, hb.2, ?_, ?_, ?_⟩
  · intro fuel r1 h
    exact normalisedAngle_unique a r1 r fuel _ h (hr _ (le_refl _))
  · rw [M_PI] at hlo
    push_cast at hlo
    norm_num at h1 h2 hlo ⊢
    linarith
  · push_cast at hhi
    norm_num at h1 h2 hhi ⊢
    linarith
  · have herrR : |(r : ℝ) - ((a : ℝ) + k * ((toDouble (M_PI * 2) : ℚ) : ℝ))|
        ≤ 2 ^ (2 * E) / 2 ^ 24 + 2 ^ (2 * E) / 2 ^ 53 := by
      have h : ((|r - (a + k * toDouble (M_PI * 2))| : ℚ) : ℝ)
          ≤ ((2 ^ (2 * E) / 2 ^ 24 + 2 ^ (2 * E) / 2 ^ 53 : ℚ) : ℝ) := Rat.cast_le.2 herr
      push_cast at h
      exact h
    have hkR : |(k : ℝ)| ≤ 2 ^ (E + 1) := by exact_mod_cast hk
    have hc := twoPi_close
    have h16R : (16 : ℝ) ≤ 2 ^ E := by exact_mod_cast h16
    have hprod : |(k : ℝ) * (((toDouble (M_PI * 2) : ℚ) : ℝ) - 2 * Real.pi)|
        ≤ 2 ^ (E + 1) * (1 / 2 ^ 51) := by
      rw [abs_mul]
      exact mul_le_mul hkR hc (abs_nonneg _) (by positivity)
    have h2E : (2 : ℝ) ^ (2 * E) = 2 ^ E * 2 ^ E := by rw [two_mul, pow_add]
    have hsplit : (r : ℝ) - ((a : ℝ) + k * (2 * Real.pi))
        = ((r : ℝ) - ((a : ℝ) + k * ((toDouble (M_PI * 2) : ℚ) : ℝ)))
          + (k : ℝ) * (((toDouble (M_PI * 2) : ℚ) : ℝ) - 2 * Real.pi) := by ring
    rw [hsplit]
    refine le_trans (abs_add _ _) (le_trans (add_le_add herrR hprod) ?_)
    rw [h2E, pow_succ (2 : ℝ) E]
    generalize (2 : ℝ) ^ E = P at h16R
    norm_num
    nlinarith

/-! ## Rounding of the duration -/

theorem getDurationSeconds_of_frames (frames sizeInBytes channels bits frequency : Int)
    (hframes : 0 ≤ frames) (hch : 0 < channels) (hbits : 0 < bits) (hfreq : 0 < frequency)
    (hsize : sizeInBytes * 8 = frames * (channels * bits))
    (hnum : sizeInBytes * 8 ≤ INT_MAX) (hden : channels * bits ≤ INT_MAX) :
    getDurationSeconds sizeInBytes channels bits frequency
      = some (toFloat (toFloat (frames : ℚ) / toFloat (frequency : ℚ))) := by
  simp only [INT_MAX] at hnum hden
  have hd0 : 0 < channels * bits := Int.mul_pos hch hbits
  have hd1 : channels * bits ≠ 0 := by omega
  have hn0 : 0 ≤ sizeInBytes * 8 := by
    rw [hsize]
    exact Int.mul_nonneg hframes hd0.le
  have hfr : frames ≤ sizeInBytes * 8 := by
    rw [hsize]
    exact le_mul_of_one_le_right hframes (by omega)
  apply getDurationSeconds_eval
  · rw [wrapInt32_of_range (channels * bits) (by omega) hden]
    exact hd1
  · rw [wrapInt32_of_range (channels * bits) (by omega) hden,
      wrapInt32_of_range (sizeInBytes * 8) (by omega) hnum, hsize,
      Int.mul_tdiv_cancel _ hd1, wrapInt32_of_range _ (by omega) (by omega)]
  · omega

theorem toFloat_rel_error (x : ℚ) (h : 1 / 2 ^ 126 ≤ |x|) : |toFloat x - x| ≤ |x| / 2 ^ 24 := by
  have := roundToFormat_rel_error 24 (-149) x (by
    have e : (2 : ℚ) ^ ((-149 : ℤ) + (((24 : ℕ) : ℤ) - 1)) = 1 / 2 ^ 126 := by
      norm_num [zpow_neg]
    rw [e]
    exact h)
  have e2 : (2 : ℚ) ^ (-((24 : ℕ) : ℤ)) = 1 / 2 ^ 24 := by norm_num [zpow_neg]
  rw [e2] at this
  rw [toFloat]
  calc |roundToFormat 24 (-149) x - x| ≤ |x| * (1 / 2 ^ 24) := this
    _ = |x| / 2 ^ 24 := by ring

theorem toFloat_rel_error_pos (x : ℚ) (h : 1 / 2 ^ 126 ≤ x) :
    x * (1 - 1 / 2 ^ 24) ≤ toFloat x ∧ toFloat x ≤ x * (1 + 1 / 2 ^ 24) := by
  have hx : 0 < x := lt_of_lt_of_le (by norm_num) h
  have := toFloat_rel_error x (by rwa [abs_of_pos hx])
  rw [abs_of_pos hx, abs_le] at this
  constructor <;> linarith [this.1, this.2]

theorem toFloat_div_rel_error (n f : ℚ) (hn : 1 ≤ n) (hf1 : 1 ≤ f) (hf2 : f ≤ 2 ^ 31) :
    |toFloat (toFloat n / toFloat f) - n / f| ≤ n / f / 2 ^ 22 := by
  have hn0 : 0 < n := lt_of_lt_of_le one_pos hn
  have hf0 : 0 < f := lt_of_lt_of_le one_pos hf1
  obtain ⟨F1, F2⟩ := toFloat_rel_error_pos n (le_trans (by norm_num) hn)
  obtain ⟨R1, R2⟩ := toFloat_rel_error_pos f (le_trans (by norm_num) hf1)
  have hR : 0 < toFloat f := lt_of_lt_of_le (mul_pos hf0 (by norm_num)) R1
  have hF : 0 ≤ toFloat n := le_trans (mul_nonneg hn0.le (by norm_num)) F1
  have hq : 0 < n / f := div_pos hn0 hf0
  have lo : n / f * ((1 - 1 / 2 ^ 24) / (1 + 1 / 2 ^ 24)) ≤ toFloat n / toFloat f := by
    rw [← mul_div_mul_comm]
    exact div_le_div₀ hF F1 hR R2
  have hi : toFloat n / toFloat f ≤ n / f * ((1 + 1 / 2 ^ 24) / (1 - 1 / 2 ^ 24)) := by
    rw [← mul_div_mul_comm]
    exact div_le_div₀ (mul_nonneg hn0.le (by norm_num)) F2 (mul_pos hf0 (by norm_num)) R1
  have hqlow : 1 / 2 ^ 31 ≤ n / f := by
    rw [div_le_div_iff₀ (by norm_num) hf0]
    nlinarith
  have hq126 : 1 / 2 ^ 126 ≤ toFloat n / toFloat f := by
    refine le_trans ?_ lo
    have : (1 / 2 ^ 31 : ℚ) * ((1 - 1 / 2 ^ 24) / (1 + 1 / 2 ^ 24))
        ≤ n / f * ((1 - 1 / 2 ^ 24) / (1 + 1 / 2 ^ 24)) :=
      mul_le_mul_of_nonneg_right hqlow (by norm_num)
    refine le_trans ?_ this
    norm_num
  obtain ⟨D1, D2⟩ := toFloat_rel_error_pos _ hq126
  have lo2 : n / f * ((1 - 1 / 2 ^ 24) / (1 + 1 / 2 ^ 24)) * (1 - 1 / 2 ^ 24)
      ≤ toFloat (toFloat n / toFloat f) :=
    le_trans (mul_le_mul_of_nonneg_right lo (by norm_num)) D1
  have hi2 : toFloat (toFloat n / toFloat f)
      ≤ n / f * ((1 + 1 / 2 ^ 24) / (1 - 1 / 2 ^ 24)) * (1 + 1 / 2 ^ 24) :=
    le_trans D2 (mul_le_mul_of_nonneg_right hi (by norm_num))
  generalize n / f = q at hq lo2 hi2
  generalize toFloat (toFloat n / toFloat f) = d at lo2 hi2
  rw [abs_le]
  norm_num at lo2 hi2 ⊢
  constructor <;> nlinarith

/-! ## Rounding of the stereo angles -/

theorem toFloat_abs_error (x : ℚ) : |toFloat x - x| ≤ |x| / 2 ^ 24 + 1 / 2 ^ 150 := by
  by_cases h : 1 / 2 ^ 126 ≤ |x|
  · have h1 := roundToFormat_rel_error 24 (-149) x (by
      have e : (2 : ℚ) ^ ((-149 : ℤ) + (((24 : ℕ) : ℤ) - 1)) = 1 / 2 ^ 126 := by
        norm_num [zpow_neg]
      rw [e]
      exact h)
    have e2 : (2 : ℚ) ^ (-((24 : ℕ) : ℤ)) = 1 / 2 ^ 24 := by norm_num [zpow_neg]
    rw [e2] at h1
    rw [toFloat]
    have : |x| * (1 / 2 ^ 24) = |x| / 2 ^ 24 := by ring
    rw [this] at h1
    have hp : (0 : ℚ) ≤ 1 / 2 ^ 150 := by positivity
    linarith
  · have h1 : |x| ≤ (2 : ℚ) ^ (-126 : ℤ) := by
      have e : (2 : ℚ) ^ (-126 : ℤ) = 1 / 2 ^ 126 := by norm_num [zpow_neg]
      rw [e]
      exact (not_le.1 h).le
    have h2 := roundToFormat_error_le 24 (-149) x (-126) h1
    have e3 : (2 : ℚ) ^ max ((-126 : ℤ) - (((24 : ℕ) : ℤ) - 1)) (-149) / 2 = 1 / 2 ^ 150 := by
      norm_num [zpow_neg]
    rw [e3] at h2
    rw [toFloat]
    have hp : (0 : ℚ) ≤ |x| / 2 ^ 24 := by positivity
    linarith

theorem stereo_angle_error (a sep : ℚ) :
    |toFloat (a - toFloat (sep / 2)) - (a - sep / 2)| ≤ (|a| + |sep|) / 2 ^ 23 + 1 / 2 ^ 148
      ∧ |toFloat (a + toFloat (sep / 2)) - (a + sep / 2)| ≤ (|a| + |sep|) / 2 ^ 23 + 1 / 2 ^ 148
      ∧ |a - toFloat (sep / 2)| ≤ |a| + |sep| * (3 / 4) + 1 / 2 ^ 150
      ∧ |a + toFloat (sep / 2)| ≤ |a| + |sep| * (3 / 4) + 1 / 2 ^ 150 := by
  have e1 := toFloat_abs_error (sep / 2)
  have e2 := toFloat_abs_error (a - toFloat (sep / 2))
  have e3 := toFloat_abs_error (a + toFloat (sep / 2))
  have hs : |sep / 2| = |sep| / 2 := by rw [abs_div]; norm_num
  rw [hs] at e1
  have hA := abs_nonneg a
  have hS := abs_nonneg sep
  have hh : |toFloat (sep / 2)| ≤ |sep| / 2 + (|sep| / 2 / 2 ^ 24 + 1 / 2 ^ 150) := by
    have := abs_sub_abs_le_abs_sub (toFloat (sep / 2)) (sep / 2)
    rw [hs] at this
    linarith
  have b1 : |a - toFloat (sep / 2)| ≤ |a| + |toFloat (sep / 2)| := abs_sub _ _
  have b2 : |a + toFloat (sep / 2)| ≤ |a| + |toFloat (sep / 2)| := abs_add _ _
  have t1 : toFloat (a - toFloat (sep / 2)) - (a - sep / 2)
      = (toFloat (a - toFloat (sep / 2)) - (a - toFloat (sep / 2)))
        - (toFloat (sep / 2) - sep / 2) := by ring
  have t2 : toFloat (a + toFloat (sep / 2)) - (a + sep / 2)
      = (toFloat (a + toFloat (sep / 2)) - (a + toFloat (sep / 2)))
        + (toFloat (sep / 2) - sep / 2) := by ring
  have c1 := abs_sub (toFloat (a - toFloat (sep / 2)) - (a - toFloat (sep / 2)))
    (toFloat (sep / 2) - sep / 2)
  have c2 := abs_add (toFloat (a + toFloat (sep / 2)) - (a + toFloat (sep / 2)))
    (toFloat (sep / 2) - sep / 2)
  rw [← t1] at c1
  rw [← t2] at c2
  have hsmall : |sep| / 2 / 2 ^ 24 + 1 / 2 ^ 150 ≤ |sep| / 2 + 1 / 2 ^ 150 := by
    have : |sep| / 2 / 2 ^ 24 ≤ |sep| / 2 := by
      apply div_le_self (by positivity)
      norm_num
    linarith
  have hhS : |toFloat (sep / 2)| ≤ |sep| + 1 / 2 ^ 150 := by linarith
  refine ⟨?_, ?_, ?_, ?_⟩
  · norm_num at e1 e2 hh b1 c1 ⊢
    linarith
  · norm_num at e1 e3 hh b2 c2 ⊢
    linarith
  · norm_num at hh b1 ⊢
    linarith
  · norm_num at hh b2 ⊢
    linarith

theorem stereo_angle_abs_le (E : ℕ) (h4 : 4 ≤ E) (a sep : ℚ) (ha : 2 * |a| ≤ 2 ^ E)
    (hs : 2 * |sep| ≤ 2 ^ E) :
    |toFloat (a - toFloat (sep / 2))| ≤ 2 ^ E ∧ |toFloat (a + toFloat (sep / 2))| ≤ 2 ^ E := by
  obtain ⟨_, _, b1, b2⟩ := stereo_angle_error a sep
  have h16 := sixteen_le_two_pow E h4
  have hz : (2 : ℚ) ^ ((E : ℕ) : ℤ) = 2 ^ E := zpow_natCast 2 E
  constructor
  · have := abs_roundToFormat_le 24 (-149) (a - toFloat (sep / 2)) E (by norm_num) (by omega)
      (by rw [hz]; norm_num at b1 ⊢; linarith)
    rw [hz] at this
    exact this
  · have := abs_roundToFormat_le 24 (-149) (a + toFloat (sep / 2)) E (by norm_num) (by omega)
      (by rw [hz]; norm_num at b2 ⊢; linarith)
    rw [hz] at this
    exact this

theorem updatePositionCalls_stereo (s : SoundInstance) (lib : Libm) (fuel : Nat)
    (a r h sep θ1 θ2 : ALfloat) (hstereo : s.hasStereo = true)
    (h1 : normalisedAngle fuel (toFloat (a - toFloat (sep / 2))) = some θ1)
    (h2 : normalisedAngle fuel (toFloat (a + toFloat (sep / 2))) = some θ2) :
    s.updatePositionCalls lib fuel a r h sep
      = some [Call.alSource3f s.m_sources.1 Param.AL_POSITION (lib.mulCos r θ1) h
                (lib.mulSin r θ1),
              Call.alSource3f s.m_sources.2 Param.AL_POSITION (lib.mulCos r θ2) h
                (lib.mulSin r θ2)] := by
  simp only [SoundInstance.updatePositionCalls, SoundInstance.updatePosition, hstereo,
    Bool.not_true, Bool.false_eq_true, if_false, List.mapM_cons, List.mapM_nil,
    Call.runSetPosition, setPosition, h1, h2]
  rfl

theorem updatePositionCalls_mono (s : SoundInstance) (lib : Libm) (fuel : Nat)
    (a r h sep θ : ALfloat) (hmono : s.hasStereo = false)
    (h1 : normalisedAngle fuel a = some θ) :
    s.updatePositionCalls lib fuel a r h sep
      = some [Call.alSource3f s.m_sources.1 Param.AL_POSITION (lib.mulCos r θ) h
                (lib.mulSin r θ)] := by
  simp only [SoundInstance.updatePositionCalls, SoundInstance.updatePosition, hmono,
    Bool.not_false, if_true, List.mapM_cons, List.mapM_nil,
    Call.runSetPosition, setPosition, h1]
  rfl

theorem no_turns (x y : ℝ) (hne : x ≠ y) (hlt : |x - y| < 6) :
    ¬ ∃ k : ℤ, x = y + k * (2 * Real.pi) := by
  rintro ⟨k, hk⟩
  have hpi := Real.pi_gt_three
  have hd : x - y = k * (2 * Real.pi) := by linarith
  rcases lt_trichotomy k 0 with h | h | h
  · have : (k : ℝ) ≤ -1 := by exact_mod_cast Int.le_sub_one_of_lt h
    have h2 := (abs_lt.1 hlt).1
    nlinarith
  · subst h
    apply hne
    simp at hk
    exact hk
  · have : (1 : ℝ) ≤ k := by exact_mod_cast h
    have h2 := (abs_lt.1 hlt).2
    nlinarith

theorem toFloat_stereo_values :
    toFloat (4392265 / 2 ^ 23 / 2) = 4392265 / 2 ^ 24
      ∧ toFloat (100000 - 4392265 / 2 ^ 24) = 6399983 / 64
      ∧ toFloat (100000 + 4392265 / 2 ^ 24) = 6400017 / 64 := by
  refine ⟨?_, ?_, ?_⟩
  · have := roundToFormat_eq 24 (-149) (4392265 / 2 ^ 23 / 2) (-2) (-25) 8784530
      (by norm_num [abs_of_pos]) (by norm_num [abs_of_pos]) (by norm_num)
      (by norm_num [abs_lt])
    rw [toFloat, this]
    norm_num
  · have := roundToFormat_eq 24 (-149) (100000 - 4392265 / 2 ^ 24) 16 (-7) 12799966
      (by norm_num [abs_of_pos]) (by norm_num [abs_of_pos]) (by norm_num)
      (by norm_num [abs_lt])
    rw [toFloat, this]
    norm_num
  · have := roundToFormat_eq 24 (-149) (100000 + 4392265 / 2 ^ 24) 16 (-7) 12800034
      (by norm_num [abs_of_pos]) (by norm_num [abs_of_pos]) (by norm_num)
      (by norm_num [abs_lt])
    rw [toFloat, this]
    norm_num

theorem toFloat_small_values :
    toFloat (1 / 2) = 1 / 2 ∧ toFloat 1 = 1 ∧ toFloat 2 = 2 := by
  refine ⟨?_, ?_, ?_⟩
  · have := roundToFormat_eq 24 (-149) (1 / 2) (-1) (-24) 8388608
      (by norm_num [abs_of_pos]) (by norm_num [abs_of_pos]) (by norm_num)
      (by norm_num [abs_lt])
    rw [toFloat, this]
    norm_num
  · have := roundToFormat_eq 24 (-149) 1 0 (-23) 8388608
      (by norm_num [abs_of_pos]) (by norm_num [abs_of_pos]) (by norm_num)
      (by norm_num [abs_lt])
    rw [toFloat, this]
    norm_num
  · have := roundToFormat_eq 24 (-149) 2 1 (-22) 8388608
      (by norm_num [abs_of_pos]) (by norm_num [abs_of_pos]) (by norm_num)
      (by norm_num [abs_lt])
    rw [toFloat, this]
    norm_num

theorem addTwoPi_one : addTwoPi 1 = 15273947 / 2 ^ 21 := by
  have h1 : toDouble (1 + 884279719003555 / 2 ^ 47) = 1025017207358883 / 2 ^ 47 := by
    have := roundToFormat_eq 53 (-1074) (1 + 884279719003555 / 2 ^ 47) 2 (-50)
      8200137658871064
      (by norm_num [abs_of_pos]) (by norm_num [abs_of_pos]) (by norm_num)
      (by norm_num [abs_lt])
    rw [toDouble, this]
    norm_num
  have h2 : toFloat (1025017207358883 / 2 ^ 47) = 15273947 / 2 ^ 21 := by
    have := roundToFormat_eq 24 (-149) (1025017207358883 / 2 ^ 47) 2 (-21) 15273947
      (by norm_num [abs_of_pos]) (by norm_num [abs_of_pos]) (by norm_num)
      (by norm_num [abs_lt])
    rw [toFloat, this]
    norm_num
  rw [addTwoPi, twoPi_eq, h1, h2]

theorem addTwoPi_two : addTwoPi 2 = 8685549 / 2 ^ 20 := by
  have h1 : toDouble (2 + 884279719003555 / 2 ^ 47) = 1165754695714211 / 2 ^ 47 := by
    have := roundToFormat_eq 53 (-1074) (2 + 884279719003555 / 2 ^ 47) 3 (-49)
      4663018782856844
      (by norm_num [abs_of_pos]) (by norm_num [abs_of_pos]) (by norm_num)
      (by norm_num [abs_lt])
    rw [toDouble, this]
    norm_num
  have h2 : toFloat (1165754695714211 / 2 ^ 47) = 8685549 / 2 ^ 20 := by
    have := roundToFormat_eq 24 (-149) (1165754695714211 / 2 ^ 47) 3 (-20) 8685549
      (by norm_num [abs_of_pos]) (by norm_num [abs_of_pos]) (by norm_num)
      (by norm_num [abs_lt])
    rw [toFloat, this]
    norm_num
  rw [addTwoPi, twoPi_eq, h1, h2]

theorem normalisedAngle_one : normalisedAngle 1 1 = some (15273947 / 2 ^ 21) := by
  have h1 : ¬ ((1 : ALfloat) > M_PI) := by norm_num [M_PI]
  have h2 : (1 : ALfloat) < M_PI := by norm_num [M_PI]
  have h3 : ¬ ((15273947 / 2 ^ 21 : ALfloat) < M_PI) := by norm_num [M_PI]
  simp only [normalisedAngle, whileAbove, if_neg h1, Option.some_bind, whileBelow, if_pos h2,
    addTwoPi_one, if_neg h3]

theorem normalisedAngle_two : normalisedAngle 1 2 = some (8685549 / 2 ^ 20) := by
  have h1 : ¬ ((2 : ALfloat) > M_PI) := by norm_num [M_PI]
  have h2 : (2 : ALfloat) < M_PI := by norm_num [M_PI]
  have h3 : ¬ ((8685549 / 2 ^ 20 : ALfloat) < M_PI) := by norm_num [M_PI]
  simp only [normalisedAngle, whileAbove, if_neg h1, Option.some_bind, whileBelow, if_pos h2,
    addTwoPi_two, if_neg h3]

theorem stereo_angle_close (E : ℕ) (h4 : 4 ≤ E) (h27 : E ≤ 27) (t x : ALfloat) (c : ℚ)
    (hc : 2 * c ≤ 2 ^ E) (ht : |t| ≤ 2 ^ E) (htx : |t - x| ≤ c / 2 ^ 22 + 1 / 2 ^ 148) :
    ∃ (θ : ALfloat) (k : ℤ),
      (∀ fuel : Nat, 2 ^ E ≤ fuel → normalisedAngle fuel t = some θ)
        ∧ |(θ : ℝ) - ((x : ℝ) + k * (2 * Real.pi))| ≤ 2 ^ (2 * E) / 2 ^ 22 := by
  obtain ⟨θ, k, hθ, _, _, _, _, _, hclose⟩ := normalisedAngle_of_le_real E t h4 h27 ht
  refine ⟨θ, k, hθ, ?_⟩
  have h16 : (16 : ℝ) ≤ 2 ^ E := by exact_mod_cast sixteen_le_two_pow E h4
  have hcR : 2 * (c : ℝ) ≤ 2 ^ E := by exact_mod_cast hc
  have htxR : |(t : ℝ) - (x : ℝ)| ≤ (c : ℝ) / 2 ^ 22 + 1 / 2 ^ 148 := by
    have h : ((|t - x| : ℚ) : ℝ) ≤ ((c / 2 ^ 22 + 1 / 2 ^ 148 : ℚ) : ℝ) := Rat.cast_le.2 htx
    push_cast at h
    exact h
  have hsplit : (θ : ℝ) - ((x : ℝ) + k * (2 * Real.pi))
      = ((θ : ℝ) - ((t : ℝ) + k * (2 * Real.pi))) + ((t : ℝ) - (x : ℝ)) := by ring
  rw [hsplit]
  refine le_trans (abs_add _ _) (le_trans (add_le_add hclose htxR) ?_)
  have h2E : (2 : ℝ) ^ (2 * E) = 2 ^ E * 2 ^ E := by rw [two_mul, pow_add]
  rw [h2E]
  generalize (2 : ℝ) ^ E = P at h16 hcR
  norm_num
  nlinarith

theorem sin_after_one_turn : (17 / 10 ^ 8 : ℝ) < Real.sin ((13176795 / 2 ^ 21 : ALfloat) : ℝ) := by
  have h1 := Real.pi_gt_d20
  have h2 := Real.pi_lt_d20
  have hx : (((13176795 / 2 ^ 21 : ALfloat) : ℝ))
      = (13176795 / 2 ^ 21 - 2 * Real.pi) + 2 * Real.pi := by
    push_cast
    ring
  rw [hx, Real.sin_add_two_pi]
  have y1 : (1748 / 10 ^ 10 : ℝ) < 13176795 / 2 ^ 21 - 2 * Real.pi := by
    norm_num at h1 h2 ⊢
    linarith
  have y2 : (13176795 / 2 ^ 21 - 2 * Real.pi : ℝ) < 1749 / 10 ^ 10 := by
    norm_num at h1 h2 ⊢
    linarith
  have ypos : (0 : ℝ) < 13176795 / 2 ^ 21 - 2 * Real.pi := lt_trans (by norm_num) y1
  have yle : (13176795 / 2 ^ 21 - 2 * Real.pi : ℝ) ≤ 1 := le_trans y2.le (by norm_num)
  have hs := Real.sin_gt_sub_cube ypos yle
  generalize (13176795 / 2 ^ 21 - 2 * Real.pi : ℝ) = y at y1 y2 ypos yle hs
  have hy2 : y ^ 2 ≤ 1 := by nlinarith
  have hy3 : y ^ 3 ≤ y * (1749 / 10 ^ 10) := by
    have : y ^ 3 = y * y ^ 2 := by ring
    rw [this]
    apply mul_le_mul_of_nonneg_left _ ypos.le
    nlinarith
  norm_num at y1 y2 hy3 hs ⊢
  nlinarith

/-! ## Claims -/

/-- C1: when `load()` fails, that is when the decoder returns no primary buffer,
`createSound` returns the empty identifier and the registry after the call equals the
registry before it. -/
theorem createSound_load_failure (e : AudioEngine) (filePath : String) (env : LoadEnv)
    (h : env.decoded.1 = AL_NONE) :
    (∀ s : SoundInstance, (s.load env).1 = false)
      ∧ (e.createSound filePath env).1 = ""
      ∧ (e.createSound filePath env).2.1.m_activeSounds = e.m_activeSounds := by
  have hl : ∀ s : SoundInstance, (s.load env).1 = false := by
    intro s
    simp only [AL_NONE] at h
    simp [SoundInstance.load, h]
  refine ⟨hl, ?_, ?_⟩ <;> simp [AudioEngine.createSound, hl]

/-- Witness for C1: a path the decoder cannot open, on a fresh engine. -/
theorem createSound_load_failure_witness :
    (AudioEngine.createSound (AudioEngine.new 0) "missing.wav" ⟨(0, 0), 0, 0, 0⟩).1 = ""
      ∧ (AudioEngine.createSound (AudioEngine.new 0) "missing.wav"
          ⟨(0, 0), 0, 0, 0⟩).2.1.m_activeSounds = [] :=
  (createSound_load_failure (AudioEngine.new 0) "missing.wav" ⟨(0, 0), 0, 0, 0⟩ rfl).2

/-- C2, counterexample: the counter is a 32-bit `int`, so the call that comes after 2^32
earlier calls gets the identifier of the very first call when both name `a.wav`. -/
theorem generateSoundID_reused_after_wrap :
    nthSoundID 0 "a.wav" = "1_a.wav" ∧ nthSoundID (2 ^ 32) "a.wav" = "1_a.wav" := by
  constructor
  · rw [nthSoundID_eq]; decide
  · rw [nthSoundID_eq]; decide

/-- C2, amended: two calls of `generateSoundID` with fewer than 2^32 calls from the first
to the second, on the same path or on different paths, yield distinct identifiers, whatever
the file names are (also names that start with digits and an underscore).  For the
engine: in a run with at most 2^32 `createSound` calls, from any engine state, the
identifiers generated for these calls are pairwise distinct. -/
theorem generateSoundID_distinct_within_wrap (n d : Nat) (p q : String)
    (hpos : 0 < d) (hlt : d < 2 ^ 32) :
    nthSoundID n p ≠ nthSoundID (n + d) q
      ∧ (∀ (e : AudioEngine) (ops : List Op),
          createCalls ops ≤ 2 ^ 32 → (generatedIds e ops).Nodup) := by
  refine ⟨?_, fun e ops h => generatedIds_nodup ops e h⟩
  apply generateSoundID_ne
  rw [wrapInt32_zero_add, wrapInt32_zero_add]
  unfold wrapInt32
  push_cast
  omega

/-- Witness for C2: the first call on `dir/a.wav` and the second call on `1_a.wav`. -/
theorem generateSoundID_distinct_within_wrap_witness :
    nthSoundID 0 "dir/a.wav" ≠ nthSoundID (0 + 1) "1_a.wav" :=
  (generateSoundID_distinct_within_wrap 0 1 "dir/a.wav" "1_a.wav" (by decide) (by decide)).1

/-- C3: for an identifier that is not a key of the registry, `playSound`, `stopSound`,
`pauseSound`, `resumeSound`, `setSoundPosition` and `setPlaybackTime` return the engine
unchanged and issue no call, `getPlaybackTime` returns -1 and `getSoundDuration`
returns 0; each of them returns. -/
theorem unknown_id_is_noop (e : AudioEngine) (soundId : SoundId)
    (angle radius height seconds : ALfloat) (written : Option ALfloat) (error : ALenum)
    (h : soundId ∉ e.keys) :
    e.playSound soundId = (e, [])
      ∧ e.stopSound soundId = (e, [])
      ∧ e.pauseSound soundId = (e, [])
      ∧ e.resumeSound soundId = (e, [])
      ∧ e.setSoundPosition soundId angle radius height = (e, [])
      ∧ e.setPlaybackTime soundId seconds = (e, [])
      ∧ e.getPlaybackTime soundId written error = (-1, [])
      ∧ e.getSoundDuration soundId = 0 := by
  have hf : Registry.find e.m_activeSounds soundId = none :=
    (Registry.find_eq_none_iff _ _).2 h
  simp [AudioEngine.playSound, AudioEngine.stopSound, AudioEngine.pauseSound,
    AudioEngine.resumeSound, AudioEngine.setSoundPosition, AudioEngine.setPlaybackTime,
    AudioEngine.getPlaybackTime, AudioEngine.getSoundDuration, hf]

/-- Witness for C3: the identifier `9_x.wav` on an engine whose registry holds `1_a.wav`. -/
theorem unknown_id_is_noop_witness :
    AudioEngine.stopSound
        (AudioEngine.createSound (AudioEngine.new 0) "a.wav" ⟨(7, 0), 3, 0, 5⟩).2.1 "9_x.wav"
      = ((AudioEngine.createSound (AudioEngine.new 0) "a.wav" ⟨(7, 0), 3, 0, 5⟩).2.1, []) :=
  (unknown_id_is_noop
    (AudioEngine.createSound (AudioEngine.new 0) "a.wav" ⟨(7, 0), 3, 0, 5⟩).2.1 "9_x.wav"
    0 1 0 0 none 0 (by decide)).2.1

/-- C4, the code at the failing input: the JVM is known, no host callback is registered,
`1_a.wav` is registered and playing.  `onSoundFinished` returns at its guard: the engine
is unchanged, the identifier is still a key, `getSoundDuration` still returns the
duration 5 and `getPlaybackTime` the backend offset 2. -/
theorem onSoundFinished_without_callback_keeps_entry :
    (run (AudioEngine.new 0)
        [Op.setJavaVM 1, Op.createSound "a.wav" ⟨(7, 0), 3, 0, 5⟩, Op.playSound "1_a.wav",
         Op.onSoundFinished "1_a.wav" true]).keys = ["1_a.wav"]
      ∧ (run (AudioEngine.new 0)
        [Op.setJavaVM 1, Op.createSound "a.wav" ⟨(7, 0), 3, 0, 5⟩, Op.playSound "1_a.wav",
         Op.onSoundFinished "1_a.wav" true]).getSoundDuration "1_a.wav" = 5
      ∧ ((run (AudioEngine.new 0)
        [Op.setJavaVM 1, Op.createSound "a.wav" ⟨(7, 0), 3, 0, 5⟩, Op.playSound "1_a.wav",
         Op.onSoundFinished "1_a.wav" true]).getPlaybackTime "1_a.wav" (some 2) AL_NO_ERROR).1
          = 2 := by
  decide

/-- C5, the code at the failing input: a playing instance is paused, which leaves
`m_isPlaying` set; the next poll finds no error, the state `AL_PAUSED` and the flag set.
The loop ends at that poll and `onFinished` is called once. -/
theorem monitor_fires_on_paused_voice :
    ((SoundInstance.pause
        { m_filePath := "a.wav", m_soundId := "1_a.wav", m_sources := (3, 0),
          m_buffers := (7, 0), m_duration := 5, m_isPlaying := true }).1.m_isPlaying = true)
      ∧ monitorThread [⟨AL_NO_ERROR, AL_PAUSED, true, true⟩] = MonitorRun.exited 0 1 := by
  decide

/-- C6: on an instance whose `m_isPlaying` is set, `play(onFinished)` returns the instance
unchanged and issues no call (no backend play, no monitor thread); no sequence of member
calls without a `stop()` starts a monitor on such an instance, and from any instance
state such a sequence starts at most one monitor. -/
theorem play_is_noop_when_playing (s : SoundInstance) (onFinished : SoundId)
    (h : s.m_isPlaying = true) :
    s.play onFinished = (s, [])
      ∧ (∀ ops : List InstanceOp, monitorsSpawned (s.applyAll ops).2 = 0)
      ∧ (∀ (s0 : SoundInstance) (ops : List InstanceOp),
          monitorsSpawned (s0.applyAll ops).2 ≤ 1) := by
  refine ⟨?_, ?_, ?_⟩
  · simp [SoundInstance.play, h]
  · intro ops
    exact SoundInstance.applyAll_of_playing ops s h
  · intro s0 ops
    exact SoundInstance.applyAll_spawns_le_one ops s0

/-- Witness for C6: a second `play` on an instance that is already playing. -/
theorem play_is_noop_when_playing_witness :
    SoundInstance.play
        { m_filePath := "a.wav", m_soundId := "1_a.wav", m_sources := (3, 0),
          m_buffers := (7, 0), m_duration := 5, m_isPlaying := true } "1_a.wav"
      = ({ m_filePath := "a.wav", m_soundId := "1_a.wav", m_sources := (3, 0),
           m_buffers := (7, 0), m_duration := 5, m_isPlaying := true }, []) :=
  (play_is_noop_when_playing
    { m_filePath := "a.wav", m_soundId := "1_a.wav", m_sources := (3, 0),
      m_buffers := (7, 0), m_duration := 5, m_isPlaying := true } "1_a.wav" rfl).1

/-- C7: let the polls in `before` all see no error, the state `AL_PLAYING` and the flag
set, and let the next poll `p` see an error, another state or a clear flag.  Then the
monitor is still polling after `before`, its loop ends at `p`, and it calls `onFinished`
once if `if (m_isPlaying)` then reads the flag as set and not at all if it reads it as
clear; when that read sees what the loop condition saw, this is the flag of the poll
`p`.  No run of the monitor calls `onFinished` more than once. -/
theorem monitorThread_stops_at_first_exit (before after : List Poll) (p : Poll)
    (hbefore : ∀ q ∈ before,
      q.error = AL_NO_ERROR ∧ q.state = AL_PLAYING ∧ q.isPlaying = true)
    (hp : p.error ≠ AL_NO_ERROR ∨ p.state ≠ AL_PLAYING ∨ p.isPlaying = false) :
    monitorThread before = MonitorRun.polling
      ∧ monitorThread (before ++ p :: after)
          = MonitorRun.exited before.length (if p.isPlayingAfter then 1 else 0)
      ∧ (p.isPlayingAfter = p.isPlaying →
          monitorThread (before ++ p :: after)
            = MonitorRun.exited before.length (if p.isPlaying then 1 else 0))
      ∧ (∀ (polls : List Poll) (k c : Nat),
          monitorThread polls = MonitorRun.exited k c → c ≤ 1) := by
  have hb : ∀ q ∈ before, q.continues = true :=
    fun q hq => (Poll.continues_iff q).2 (hbefore q hq)
  have hstop : p.continues = false := by
    cases hc : p.continues with
    | false => rfl
    | true =>
      obtain ⟨h1, h2, h3⟩ := (Poll.continues_iff p).1 hc
      rcases hp with hp | hp | hp
      · exact absurd h1 hp
      · exact absurd h2 hp
      · rw [h3] at hp; exact absurd hp (by decide)
  have hexit : monitorThread (before ++ p :: after)
      = MonitorRun.exited before.length (if p.isPlayingAfter then 1 else 0) := by
    unfold monitorThread
    rw [monitorLoop_append before 0 (p :: after) hb]
    simp [monitorLoop, hstop]
  refine ⟨?_, hexit, ?_, ?_⟩
  · have := monitorLoop_append before 0 [] hb
    simpa [monitorThread, monitorLoop] using this
  · intro hsame
    rw [hexit, hsame]
  · intro polls k c h
    exact monitorLoop_calls_le_one polls 0 k c h

/-- Witness for C7: two polls of a playing voice, then a poll that finds it stopped with
the flag still set. -/
theorem monitorThread_stops_at_first_exit_witness :
    monitorThread ([⟨AL_NO_ERROR, AL_PLAYING, true, true⟩,
        ⟨AL_NO_ERROR, AL_PLAYING, true, true⟩]
        ++ ⟨AL_NO_ERROR, AL_STOPPED, true, true⟩ :: [])
      = MonitorRun.exited 2 1 :=
  (monitorThread_stops_at_first_exit
    [⟨AL_NO_ERROR, AL_PLAYING, true, true⟩, ⟨AL_NO_ERROR, AL_PLAYING, true, true⟩] []
    ⟨AL_NO_ERROR, AL_STOPPED, true, true⟩ (by decide) (by decide)).2.1

/-- C8: `stopSound(id)` followed by `stopSound(id)` leaves the engine that a single
`stopSound(id)` leaves: after the first call the identifier is no key of the registry,
and the second call changes nothing and issues no call. -/
theorem stopSound_twice (e : AudioEngine) (soundId : SoundId) :
    soundId ∉ (e.stopSound soundId).1.keys
      ∧ (e.stopSound soundId).1.stopSound soundId = ((e.stopSound soundId).1, [])
      ∧ (∀ s, Registry.find e.m_activeSounds soundId = some s →
          e.stopSound soundId
            = ({ e with m_activeSounds := Registry.erase e.m_activeSounds soundId },
                s.stop.2)) := by
  have hkey : soundId ∉ (e.stopSound soundId).1.keys := by
    unfold AudioEngine.stopSound AudioEngine.keys
    cases hf : Registry.find e.m_activeSounds soundId with
    | none => exact (Registry.find_eq_none_iff _ _).1 hf
    | some s =>
      simp only [Registry.mem_keys_erase]
      exact fun h => h.2 rfl
  refine ⟨hkey, ?_, ?_⟩
  · have hf : Registry.find (e.stopSound soundId).1.m_activeSounds soundId = none :=
      (Registry.find_eq_none_iff _ _).2 hkey
    generalize e.stopSound soundId = r at hf
    simp [AudioEngine.stopSound, hf]
  · intro s hs
    simp [AudioEngine.stopSound, hs, SoundInstance.destroy_stop]

/-- C9: after `stop()` the flag `m_isPlaying` is clear and both source handles and both
buffer handles are `AL_NONE`; a second `stop()` on the result, as the destructor runs it,
issues no call and leaves the instance unchanged. -/
theorem stop_is_idempotent (s : SoundInstance) :
    s.stop.1.m_isPlaying = false
      ∧ s.stop.1.m_sources = (AL_NONE, AL_NONE)
      ∧ s.stop.1.m_buffers = (AL_NONE, AL_NONE)
      ∧ s.stop.1.stop = (s.stop.1, [])
      ∧ s.stop.1.destroy = [] := by
  refine ⟨?_, ?_, ?_, SoundInstance.stop_stop s, SoundInstance.destroy_stop s⟩ <;>
    rw [SoundInstance.stop_fields]

/-- C10: after any finite sequence of engine operations from an engine whose registry is
empty, the keys of the registry are exactly the identifiers returned by successful
`createSound` calls and not removed since by `stopSound`, `stopAllSounds` or the erase in
`onSoundFinished`.  In particular `playSound`, `pauseSound`, `resumeSound`,
`setSoundPosition`, `setPlaybackTime`, `getPlaybackTime`, `getSoundDuration` and
`setStereoAngle` leave the key list as it is, and so does a failed `createSound`. -/
theorem registry_keys_are_created_minus_removed (e : AudioEngine) (ops : List Op)
    (h : e.m_activeSounds = []) :
    (∀ k, k ∈ (run e ops).keys ↔ k ∈ createdMinusRemoved [] e ops)
      ∧ (∀ (e1 : AudioEngine) (op : Op), op.isTransportOrQuery = true →
          (step e1 op).1.keys = e1.keys)
      ∧ (∀ (e1 : AudioEngine) (p : String) (env : LoadEnv),
          (e1.createSound p env).1 = "" → (e1.createSound p env).2.1.keys = e1.keys) := by
  refine ⟨?_, step_keys_of_transport, AudioEngine.createSound_failed⟩
  apply run_keys
  intro k
  simp [AudioEngine.keys, Registry.keys, h]

/-- Witness for C10: two sounds are created, a third fails to load, the first is played
and stopped; `2_b.wav` is a key and is in the bookkeeping. -/
theorem registry_keys_are_created_minus_removed_witness :
    "2_b.wav" ∈ (run (AudioEngine.new 0)
        [Op.createSound "a.wav" ⟨(7, 0), 3, 0, 5⟩, Op.createSound "b.wav" ⟨(8, 9), 4, 6, 2⟩,
         Op.createSound "missing.wav" ⟨(0, 0), 0, 0, 0⟩, Op.playSound "1_a.wav",
         Op.stopSound "1_a.wav"]).keys
      ↔ "2_b.wav" ∈ createdMinusRemoved [] (AudioEngine.new 0)
        [Op.createSound "a.wav" ⟨(7, 0), 3, 0, 5⟩, Op.createSound "b.wav" ⟨(8, 9), 4, 6, 2⟩,
         Op.createSound "missing.wav" ⟨(0, 0), 0, 0, 0⟩, Op.playSound "1_a.wav",
         Op.stopSound "1_a.wav"] :=
  (registry_keys_are_created_minus_removed (AudioEngine.new 0)
    [Op.createSound "a.wav" ⟨(7, 0), 3, 0, 5⟩, Op.createSound "b.wav" ⟨(8, 9), 4, 6, 2⟩,
     Op.createSound "missing.wav" ⟨(0, 0), 0, 0, 0⟩, Op.playSound "1_a.wav",
     Op.stopSound "1_a.wav"] rfl).1 "2_b.wav"

/-- C11, the code at the failing input: on a mono instance `updatePosition(0, 1, 0, s)`
leaves the first loop of `setPosition` at once and adds `M_PI*2.0` in the second, so the
one `alSource3f` call takes `radius * cos` and `radius * sin` at the `float` 6.2831855
(13176795 · 2^-21) and not at 0; the sine there is above 1.7 · 10^-7, not 0.  At the angle
1000000000 no call is issued, whatever number of turns is allowed. -/
theorem updatePosition_mono_at_zero :
    (∀ (s : SoundInstance) (lib : Libm) (stereoAngle : ALfloat), s.hasStereo = false →
        s.updatePositionCalls lib 1 0 1 0 stereoAngle
          = some [Call.alSource3f s.m_sources.1 Param.AL_POSITION
                    (lib.mulCos 1 (13176795 / 2 ^ 21)) 0 (lib.mulSin 1 (13176795 / 2 ^ 21))])
      ∧ (17 / 10 ^ 8 : ℝ) < Real.sin ((13176795 / 2 ^ 21 : ALfloat) : ℝ)
      ∧ (∀ (s : SoundInstance) (lib : Libm) (fuel : Nat) (radius height stereoAngle : ALfloat),
          s.hasStereo = false →
          s.updatePositionCalls lib fuel 1000000000 radius height stereoAngle = none) := by
  refine ⟨?_, sin_after_one_turn, ?_⟩
  · intro s lib stereoAngle hmono
    exact updatePositionCalls_mono s lib 1 0 1 0 stereoAngle _ hmono normalisedAngle_zero
  · intro s lib fuel radius height stereoAngle hmono
    simp only [SoundInstance.updatePositionCalls, SoundInstance.updatePosition, hmono,
      Bool.not_false, if_true, List.mapM_cons, List.mapM_nil, Call.runSetPosition, setPosition,
      normalisedAngle, whileAbove_billion]
    rfl

/-- C12, counterexample: a stereo instance with sources 4 and 6.  At centre 100000 with
separation 0.5235988 (4392265 · 2^-23) the two angles handed to `setPosition` are the
`float`s 99999.734375 and 100000.265625: they differ by 0.53125, which is not the
separation, also not up to whole turns.  At centre 1.5 with separation 1 the angles are 1
and 2; `cos` and `sin` are called, whatever the library, at 15273947 · 2^-21 and
8685549 · 2^-20, which differ by 1 - 2^-21 and not by the separation 1, also not up to
whole turns. -/
theorem updatePosition_stereo_separation :
    SoundInstance.updatePosition
        { m_filePath := "b.wav", m_soundId := "2_b.wav", m_sources := (4, 6),
          m_buffers := (8, 9), m_duration := 2, m_isPlaying := true }
        100000 1 0 (4392265 / 2 ^ 23)
      = [Call.setPosition 4 (6399983 / 64) 1 0, Call.setPosition 6 (6400017 / 64) 1 0]
      ∧ (6400017 / 64 - 6399983 / 64 : ALfloat) = 17 / 32
      ∧ (¬ ∃ k : ℤ, ((6400017 / 64 - 6399983 / 64 : ALfloat) : ℝ)
            = ((4392265 / 2 ^ 23 : ALfloat) : ℝ) + k * (2 * Real.pi))
      ∧ (∀ lib : Libm, SoundInstance.updatePositionCalls
            { m_filePath := "b.wav", m_soundId := "2_b.wav", m_sources := (4, 6),
              m_buffers := (8, 9), m_duration := 2, m_isPlaying := true }
            lib 1 (3 / 2) 1 0 1
          = some [Call.alSource3f 4 Param.AL_POSITION (lib.mulCos 1 (15273947 / 2 ^ 21)) 0
                    (lib.mulSin 1 (15273947 / 2 ^ 21)),
                  Call.alSource3f 6 Param.AL_POSITION (lib.mulCos 1 (8685549 / 2 ^ 20)) 0
                    (lib.mulSin 1 (8685549 / 2 ^ 20))])
      ∧ (8685549 / 2 ^ 20 - 15273947 / 2 ^ 21 : ALfloat) = 1 - 1 / 2 ^ 21
      ∧ (¬ ∃ k : ℤ, ((8685549 / 2 ^ 20 - 15273947 / 2 ^ 21 : ALfloat) : ℝ)
            = ((1 : ALfloat) : ℝ) + k * (2 * Real.pi)) := by
  obtain ⟨v1, v2, v3⟩ := toFloat_stereo_values
  obtain ⟨w1, w2, w3⟩ := toFloat_small_values
  refine ⟨?_, by norm_num, ?_, ?_, by norm_num, ?_⟩
  · have hst : SoundInstance.hasStereo
        { m_filePath := "b.wav", m_soundId := "2_b.wav", m_sources := (4, 6),
          m_buffers := (8, 9), m_duration := 2, m_isPlaying := true } = true := by decide
    simp only [SoundInstance.updatePosition, hst, Bool.not_true, Bool.false_eq_true, if_false,
      v1, v2, v3]
  · apply no_turns
    · push_cast
      norm_num
    · push_cast
      norm_num [abs_lt]
  · intro lib
    apply updatePositionCalls_stereo _ _ _ _ _ _ _ _ _ (by decide)
    · have e : ((3 : ALfloat) / 2 - 1 / 2) = 1 := by norm_num
      rw [w1, e, w2]
      exact normalisedAngle_one
    · have e : ((3 : ALfloat) / 2 + 1 / 2) = 2 := by norm_num
      rw [w1, e, w3]
      exact normalisedAngle_two
  · apply no_turns
    · push_cast
      norm_num
    · push_cast
      norm_num [abs_lt]

/-- C12, amended: on a stereo instance, for finite `float`s with |a| + |s| ≤ 2^126,
`updatePosition(a, r, h, s)` calls `setPosition` twice, for the first and for the second
source, with the same radius `r` and height `h` and with the `float` angles nearest to
`a - fl(s/2)` and `a + fl(s/2)`, `fl(s/2)` being the `float` nearest to `s/2`; neither
overflows.  Each angle is within (|a| + |s|) / 2^23 + 2^-148 of `a - s/2` or `a + s/2`,
and the two are `a - s/2` and `a + s/2` themselves when these and `s/2` are `float`s.
When |a| and |s| are at most 2^E / 2, 4 ≤ E ≤ 27, both calls of `setPosition` return, each
loop within 2^E turns, and issue `alSource3f` with the height `h` and with `radius * cos`
and `radius * sin` taken at angles within 2^(2E) / 2^22 of `a - s/2` and of `a + s/2` up
to whole turns. -/
theorem updatePosition_stereo_rounded (s : SoundInstance) (a r h sep : ALfloat)
    (hstereo : s.hasStereo = true) (hrange : |a| + |sep| ≤ 2 ^ 126) :
    s.updatePosition a r h sep
        = [Call.setPosition s.m_sources.1 (toFloat (a - toFloat (sep / 2))) r h,
           Call.setPosition s.m_sources.2 (toFloat (a + toFloat (sep / 2))) r h]
      ∧ |toFloat (a - toFloat (sep / 2))| ≤ 2 ^ 127
      ∧ |toFloat (a + toFloat (sep / 2))| ≤ 2 ^ 127
      ∧ |toFloat (a - toFloat (sep / 2)) - (a - sep / 2)| ≤ (|a| + |sep|) / 2 ^ 23 + 1 / 2 ^ 148
      ∧ |toFloat (a + toFloat (sep / 2)) - (a + sep / 2)| ≤ (|a| + |sep|) / 2 ^ 23 + 1 / 2 ^ 148
      ∧ (toFloat (sep / 2) = sep / 2 → toFloat (a - sep / 2) = a - sep / 2 →
          toFloat (a + sep / 2) = a + sep / 2 →
          s.updatePosition a r h sep
            = [Call.setPosition s.m_sources.1 (a - sep / 2) r h,
               Call.setPosition s.m_sources.2 (a + sep / 2) r h])
      ∧ (∀ E : ℕ, 4 ≤ E → E ≤ 27 → 2 * |a| ≤ 2 ^ E → 2 * |sep| ≤ 2 ^ E →
          ∃ (θ1 θ2 : ALfloat) (k1 k2 : ℤ),
            (∀ (lib : Libm) (fuel : Nat), 2 ^ E ≤ fuel →
              s.updatePositionCalls lib fuel a r h sep
                = some [Call.alSource3f s.m_sources.1 Param.AL_POSITION (lib.mulCos r θ1) h
                          (lib.mulSin r θ1),
                        Call.alSource3f s.m_sources.2 Param.AL_POSITION (lib.mulCos r θ2) h
                          (lib.mulSin r θ2)])
              ∧ |(θ1 : ℝ) - (((a - sep / 2 : ALfloat) : ℝ) + k1 * (2 * Real.pi))|
                  ≤ 2 ^ (2 * E) / 2 ^ 22
              ∧ |(θ2 : ℝ) - (((a + sep / 2 : ALfloat) : ℝ) + k2 * (2 * Real.pi))|
                  ≤ 2 ^ (2 * E) / 2 ^ 22) := by
  obtain ⟨e1, e2, b1, b2⟩ := stereo_angle_error a sep
  have hupd : s.updatePosition a r h sep
      = [Call.setPosition s.m_sources.1 (toFloat (a - toFloat (sep / 2))) r h,
         Call.setPosition s.m_sources.2 (toFloat (a + toFloat (sep / 2))) r h] := by
    simp only [SoundInstance.updatePosition, hstereo, Bool.not_true, Bool.false_eq_true,
      if_false]
  have hS := abs_nonneg sep
  have hz : (2 : ℚ) ^ (127 : ℤ) = 2 ^ 127 := by norm_num
  have f1 : |toFloat (a - toFloat (sep / 2))| ≤ 2 ^ 127 := by
    have := abs_roundToFormat_le 24 (-149) (a - toFloat (sep / 2)) 127 (by norm_num)
      (by norm_num) (by rw [hz]; norm_num at b1 hrange ⊢; linarith)
    rw [hz] at this
    exact this
  have f2 : |toFloat (a + toFloat (sep / 2))| ≤ 2 ^ 127 := by
    have := abs_roundToFormat_le 24 (-149) (a + toFloat (sep / 2)) 127 (by norm_num)
      (by norm_num) (by rw [hz]; norm_num at b2 hrange ⊢; linarith)
    rw [hz] at this
    exact this
  refine ⟨hupd, f1, f2, e1, e2, ?_, ?_⟩
  · intro g1 g2 g3
    rw [hupd, g1, g2, g3]
  · intro E h4 h27 ha hs
    obtain ⟨t1, t2⟩ := stereo_angle_abs_le E h4 a sep ha hs
    have hc : 2 * ((|a| + |sep|) / 2) ≤ 2 ^ E := by linarith
    have x1 : |toFloat (a - toFloat (sep / 2)) - (a - sep / 2)|
        ≤ (|a| + |sep|) / 2 / 2 ^ 22 + 1 / 2 ^ 148 := by
      refine le_trans e1 (le_of_eq ?_)
      ring
    have x2 : |toFloat (a + toFloat (sep / 2)) - (a + sep / 2)|
        ≤ (|a| + |sep|) / 2 / 2 ^ 22 + 1 / 2 ^ 148 := by
      refine le_trans e2 (le_of_eq ?_)
      ring
    obtain ⟨θ1, k1, hθ1, c1⟩ := stereo_angle_close E h4 h27 _ _ _ hc t1 x1
    obtain ⟨θ2, k2, hθ2, c2⟩ := stereo_angle_close E h4 h27 _ _ _ hc t2 x2
    refine ⟨θ1, θ2, k1, k2, ?_, c1, c2⟩
    intro lib fuel hfuel
    exact updatePositionCalls_stereo s lib fuel a r h sep θ1 θ2 hstereo (hθ1 fuel hfuel)
      (hθ2 fuel hfuel)

/-- Witness for C12: a stereo instance with sources 4 and 6, centre angle 0, radius 1,
height 0, separation 1. -/
theorem updatePosition_stereo_rounded_witness :
    SoundInstance.updatePosition
        { m_filePath := "b.wav", m_soundId := "2_b.wav", m_sources := (4, 6),
          m_buffers := (8, 9), m_duration := 2, m_isPlaying := true } 0 1 0 1
      = [Call.setPosition 4 (toFloat (0 - toFloat (1 / 2))) 1 0,
         Call.setPosition 6 (toFloat (0 + toFloat (1 / 2))) 1 0] :=
  (updatePosition_stereo_rounded
    { m_filePath := "b.wav", m_soundId := "2_b.wav", m_sources := (4, 6),
      m_buffers := (8, 9), m_duration := 2, m_isPlaying := true } 0 1 0 1 rfl
    (by norm_num)).1

/-- C13, the code at the failing input: for the angle 0 the first loop does nothing and
the second adds `M_PI*2.0` once, since 0 < `M_PI`; the angle passed to `cos` and `sin` is
the `float` 6.2831855 (13176795 · 2^-21), which is not in (-π, π]. -/
theorem normalisedAngle_zero_leaves_range :
    normalisedAngle 1 0 = some (13176795 / 2 ^ 21)
      ∧ ¬ (-Real.pi < ((13176795 / 2 ^ 21 : ALfloat) : ℝ)
            ∧ ((13176795 / 2 ^ 21 : ALfloat) : ℝ) ≤ Real.pi)
      ∧ ¬ (-M_PI < (13176795 / 2 ^ 21 : ALfloat) ∧ (13176795 / 2 ^ 21 : ALfloat) ≤ M_PI) := by
  refine ⟨normalisedAngle_zero, ?_, ?_⟩
  · intro h
    have h4 := Real.pi_le_four
    have := h.2
    push_cast at this
    norm_num at this
    linarith
  · intro h
    have := h.2
    norm_num [M_PI] at this

/-- C14, counterexample: one frame of 16-bit mono audio at 44100 Hz, a buffer of 2 bytes as
`LoadSound` creates it.  The duration is the `float` quotient of the `float`s 1 and 44100,
6233059 · 2^-38, and not the rational (2·8)/(1·16)/44100 = 1/44100, which no `float`
equals.  A buffer of 2^28 bytes, which `LoadSound` also creates, gives a negative duration
where the rational is positive. -/
theorem getDurationSeconds_is_rounded :
    decodedBytes 1 (blockAlign FormatType.Int16 1 none) = some 2
      ∧ getDurationSeconds 2 1 16 44100 = some (6233059 / 2 ^ 38)
      ∧ (6233059 / 2 ^ 38 : ALfloat)
          ≠ (((2 : Int) : ALfloat) * 8) / (((1 : Int) : ALfloat) * ((16 : Int) : ALfloat))
              / ((44100 : Int) : ALfloat)
      ∧ getDurationSeconds 268435456 1 32 44100 = some (-6233059 / 4096)
      ∧ (-6233059 / 4096 : ALfloat)
          ≠ (((268435456 : Int) : ALfloat) * 8)
              / (((1 : Int) : ALfloat) * ((32 : Int) : ALfloat)) / ((44100 : Int) : ALfloat) := by
  refine ⟨by decide, getDurationSeconds_one_frame, by norm_num, getDurationSeconds_overflow,
    by norm_num⟩

/-- C14, amended: take a primary buffer that holds a whole number `frames ≥ 0` of sample
frames, `sizeInBytes * 8 = frames * channels * bits`, as every buffer that `LoadSound`
creates does, with positive channel count, bit depth and sample rate, all `int`s, and with
`sizeInBytes * 8` and `channels * bits` within the range of `int`.  Then
`getDurationSeconds` returns the `float` quotient of the `float`s nearest to `frames` and to
the sample rate.  This is the `float` nearest to the rational
`(sizeInBytes * 8) / (channels * bits) / sampleRate` when `frames` and the sample rate are
below 2^24, and in every case it differs from that rational by at most the fraction 2^-22
of it.  `load()` stores the value returned. -/
theorem getDurationSeconds_is_rounded_quotient
    (frames sizeInBytes channels bits frequency : Int)
    (hframes : 0 ≤ frames) (hch : 0 < channels) (hbits : 0 < bits) (hfreq : 0 < frequency)
    (hfreqmax : frequency ≤ INT_MAX)
    (hsize : sizeInBytes * 8 = frames * (channels * bits))
    (hnum : sizeInBytes * 8 ≤ INT_MAX) (hden : channels * bits ≤ INT_MAX) :
    getDurationSeconds sizeInBytes channels bits frequency
        = some (toFloat (toFloat (frames : ℚ) / toFloat (frequency : ℚ)))
      ∧ (frames < 2 ^ 24 → frequency < 2 ^ 24 →
          getDurationSeconds sizeInBytes channels bits frequency
            = some (toFloat ((sizeInBytes : ALfloat) * 8
                / ((channels : ALfloat) * (bits : ALfloat)) / (frequency : ALfloat))))
      ∧ (∃ d : ALfloat, getDurationSeconds sizeInBytes channels bits frequency = some d
          ∧ |d - (sizeInBytes : ALfloat) * 8 / ((channels : ALfloat) * (bits : ALfloat))
                / (frequency : ALfloat)|
              ≤ (sizeInBytes : ALfloat) * 8 / ((channels : ALfloat) * (bits : ALfloat))
                / (frequency : ALfloat) / 2 ^ 22)
      ∧ (∀ (s : SoundInstance) (env : LoadEnv), env.decoded.1 ≠ AL_NONE →
          getDurationSeconds sizeInBytes channels bits frequency = some env.duration →
          (s.load env).1 = true ∧ (s.load env).2.1.m_duration
            = toFloat (toFloat (frames : ℚ) / toFloat (frequency : ℚ))) := by
  have hmain := getDurationSeconds_of_frames frames sizeInBytes channels bits frequency hframes
    hch hbits hfreq hsize hnum hden
  have hd0 : ((channels : ALfloat) * (bits : ALfloat)) ≠ 0 := by
    have h1 : (0 : ALfloat) < channels := by exact_mod_cast hch
    have h2 : (0 : ALfloat) < bits := by exact_mod_cast hbits
    exact (mul_pos h1 h2).ne'
  have hexact : (sizeInBytes : ALfloat) * 8 / ((channels : ALfloat) * (bits : ALfloat))
      = (frames : ALfloat) := by
    have : ((sizeInBytes * 8 : Int) : ALfloat) = ((frames * (channels * bits) : Int) : ALfloat) := by
      rw [hsize]
    push_cast at this
    rw [this, mul_div_assoc, div_self hd0, mul_one]
  refine ⟨hmain, ?_, ?_, ?_⟩
  · intro h1 h2
    rw [hmain, hexact, toFloat_intCast frames (by rw [abs_of_nonneg hframes]; exact h1),
      toFloat_intCast frequency (by rw [abs_of_pos hfreq]; exact h2)]
  · refine ⟨_, hmain, ?_⟩
    rw [hexact]
    rcases eq_or_lt_of_le hframes with h0 | hpos
    · rw [← h0]
      have z : toFloat ((0 : Int) : ℚ) = 0 := by
        rw [Int.cast_zero, toFloat, roundToFormat_zero]
      rw [z, zero_div, toFloat, roundToFormat_zero]
      simp
    · apply toFloat_div_rel_error
      · exact_mod_cast hpos
      · exact_mod_cast hfreq
      · have : (frequency : ℚ) ≤ ((INT_MAX : Int) : ℚ) := by exact_mod_cast hfreqmax
        refine le_trans this ?_
        norm_num [INT_MAX]
  · intro s env hdec hdur
    rw [hmain] at hdur
    have hd := Option.some.inj hdur
    simp only [AL_NONE] at hdec
    constructor
    · simp [SoundInstance.load, hdec]
    · rw [hd]
      simp only [SoundInstance.load, hdec, if_false]

/-- Witness for C14: one second of 16-bit mono audio at 44100 Hz, 44100 frames in 88200
bytes. -/
theorem getDurationSeconds_is_rounded_quotient_witness :
    getDurationSeconds 88200 1 16 44100
      = some (toFloat (toFloat ((44100 : Int) : ℚ) / toFloat ((44100 : Int) : ℚ))) :=
  (getDurationSeconds_is_rounded_quotient 44100 88200 1 16 44100 (by decide) (by decide)
    (by decide) (by decide) (by decide) (by decide) (by decide) (by decide)).1

/-- C15: after `cleanup()`, from any engine state, the registry is empty and the context,
the device and the host-callback reference are null; a second `cleanup()` issues no call
and returns the engine unchanged.  This holds in particular for the state that
`initialize` leaves, on failure as on success. -/
theorem cleanup_is_idempotent (e : AudioEngine) :
    e.cleanup.1.m_activeSounds = []
      ∧ e.cleanup.1.m_context = nullptr
      ∧ e.cleanup.1.m_device = nullptr
      ∧ e.cleanup.1.m_globalCallback = nullptr
      ∧ e.cleanup.1.cleanup = (e.cleanup.1, [])
      ∧ (∀ (selectedHrtf : String) (device context : Ptr) (madeCurrent : Bool)
          (r : Bool × AudioEngine × List Call),
          r = AudioEngine.initialize e selectedHrtf device context madeCurrent →
          r.2.1.cleanup.1.cleanup = (r.2.1.cleanup.1, [])
            ∧ r.2.1.cleanup.1.m_activeSounds = []
            ∧ r.2.1.cleanup.1.m_context = nullptr
            ∧ r.2.1.cleanup.1.m_device = nullptr
            ∧ r.2.1.cleanup.1.m_globalCallback = nullptr) := by
  refine ⟨?_, ?_, ?_, ?_, AudioEngine.cleanup_cleanup e, ?_⟩
  · rw [AudioEngine.cleanup_fields]
  · rw [AudioEngine.cleanup_fields]
  · rw [AudioEngine.cleanup_fields]
  · rw [AudioEngine.cleanup_fields]
  · intro _ _ _ _ r _
    refine ⟨AudioEngine.cleanup_cleanup r.2.1, ?_, ?_, ?_, ?_⟩ <;>
      rw [AudioEngine.cleanup_fields]

/-- C16, the code at the failing input: the angle 1000000000 is a `float` above `M_PI`;
the statement `angle -= M_PI*2.0` rounds the difference back to 1000000000, so the first
loop never ends, whatever number of turns is allowed, and `setPosition` issues no call.
The same holds for 134217744, the first `float` above 2^27; for -1000000000 the second
loop never ends. -/
theorem setPosition_never_returns :
    toFloat 1000000000 = 1000000000
      ∧ (1000000000 : ALfloat) > M_PI
      ∧ subtractTwoPi 1000000000 = 1000000000
      ∧ (∀ fuel : Nat, whileAbove fuel 1000000000 = none)
      ∧ (∀ (lib : Libm) (fuel : Nat) (source : ALuint) (radius height : ALfloat),
          setPosition lib fuel source 1000000000 radius height = none)
      ∧ subtractTwoPi 134217744 = 134217744
      ∧ (∀ (lib : Libm) (fuel : Nat) (source : ALuint) (radius height : ALfloat),
          setPosition lib fuel source 134217744 radius height = none)
      ∧ addTwoPi (-1000000000) = -1000000000
      ∧ (∀ (lib : Libm) (fuel : Nat) (source : ALuint) (radius height : ALfloat),
          setPosition lib fuel source (-1000000000) radius height = none) := by
  refine ⟨?_, by norm_num [M_PI], subtractTwoPi_billion, whileAbove_billion, ?_,
    subtractTwoPi_above_limit, ?_, addTwoPi_minus_billion, ?_⟩
  · have := roundToFormat_eq 24 (-149) 1000000000 29 6 15625000
      (by norm_num [abs_of_pos]) (by norm_num [abs_of_pos]) (by norm_num)
      (by norm_num [abs_lt])
    rw [toFloat, this]
    norm_num
  · intro lib fuel source radius height
    simp [setPosition, normalisedAngle, whileAbove_billion]
  · intro lib fuel source radius height
    simp [setPosition, normalisedAngle, whileAbove_above_limit]
  · intro lib fuel source radius height
    have h : ¬ ((-1000000000 : ALfloat) > M_PI) := by norm_num [M_PI]
    have hA : whileAbove fuel (-1000000000) = some (-1000000000) := by
      cases fuel with
      | zero => rw [whileAbove, if_neg h]
      | succ n => rw [whileAbove, if_neg h]
    simp [setPosition, normalisedAngle, hA, whileBelow_minus_billion]

/-- C17, counterexample: the `float` 3.1415925 (13176794 · 2^-22, the `float` next below
π) is below `M_PI`, so the second loop adds `M_PI*2.0` once and the sum is rounded to the
`float` 9.424778 (2470649 · 2^-18), which is above 3π and is no integer multiple of 2π
away from the input. -/
theorem normalisedAngle_exceeds_three_pi :
    toFloat (13176794 / 2 ^ 22) = 13176794 / 2 ^ 22
      ∧ normalisedAngle 1 (13176794 / 2 ^ 22) = some (2470649 / 2 ^ 18)
      ∧ 3 * Real.pi < ((2470649 / 2 ^ 18 : ALfloat) : ℝ)
      ∧ ¬ ∃ k : ℤ, ((2470649 / 2 ^ 18 : ALfloat) : ℝ)
            = ((13176794 / 2 ^ 22 : ALfloat) : ℝ) + k * (2 * Real.pi) := by
  refine ⟨toFloat_below_pi, normalisedAngle_below_pi, three_pi_lt, ?_⟩
  rintro ⟨k, hk⟩
  have h1 := Real.pi_gt_d20
  have h2 := Real.pi_lt_d20
  push_cast at hk
  norm_num at h1 h2 hk
  have hk1 : 0 < k := by
    by_contra hneg
    have : (k : ℝ) ≤ 0 := by exact_mod_cast not_lt.1 hneg
    nlinarith
  have hk2 : k < 2 := by
    by_contra hneg
    have : (2 : ℝ) ≤ k := by exact_mod_cast not_lt.1 hneg
    nlinarith
  have hk3 : k = 1 := by omega
  subst hk3
  norm_num at hk
  linarith

/-- C17, amended: for every finite angle `a` with |a| ≤ 2^E, 4 ≤ E ≤ 27, the two loops
of `setPosition` end, each within 2^E turns, with one angle `r`.  It lies between `M_PI`
(the `double` nearest π, less than 2^-52 below π) and the `float` 9.424778
(2470649 · 2^-18, less than 3 · 10^-8 above 3π), and it is within 2^(2E) / 2^23 of
`a + k · 2π` for an integer `k`: every turn rounds the angle to a `float`.  Whenever the
loops end for a finite angle, of any size, the result lies between `M_PI` and 9.424778. -/
theorem normalisedAngle_float_range (E : ℕ) (a : ALfloat) (h4 : 4 ≤ E) (h27 : E ≤ 27)
    (ha : |a| ≤ 2 ^ E) :
    (∃ (r : ALfloat) (k : ℤ),
      (∀ fuel : Nat, 2 ^ E ≤ fuel → normalisedAngle fuel a = some r)
        ∧ (∀ (fuel : Nat) (r1 : ALfloat), normalisedAngle fuel a = some r1 → r1 = r)
        ∧ M_PI ≤ r ∧ r ≤ 2470649 / 2 ^ 18
        ∧ Real.pi - 1 / 2 ^ 52 < (r : ℝ) ∧ (r : ℝ) < 3 * Real.pi + 3 / 10 ^ 8
        ∧ |(r : ℝ) - ((a : ℝ) + k * (2 * Real.pi))| ≤ 2 ^ (2 * E) / 2 ^ 23)
      ∧ (∀ (b r : ALfloat) (fuel : Nat), normalisedAngle fuel b = some r →
          M_PI ≤ r ∧ r ≤ 2470649 / 2 ^ 18) :=
  ⟨normalisedAngle_of_le_real E a h4 h27 ha,
    fun b r fuel h => normalisedAngle_bounds fuel b r h⟩

/-- Witness for C17: the angle 0, with |0| ≤ 2^4. -/
theorem normalisedAngle_float_range_witness :
    ∃ (r : ALfloat) (k : ℤ),
      (∀ fuel : Nat, 2 ^ 4 ≤ fuel → normalisedAngle fuel 0 = some r)
        ∧ (∀ (fuel : Nat) (r1 : ALfloat), normalisedAngle fuel 0 = some r1 → r1 = r)
        ∧ M_PI ≤ r ∧ r ≤ 2470649 / 2 ^ 18
        ∧ Real.pi - 1 / 2 ^ 52 < (r : ℝ) ∧ (r : ℝ) < 3 * Real.pi + 3 / 10 ^ 8
        ∧ |(r : ℝ) - (((0 : ALfloat) : ℝ) + k * (2 * Real.pi))| ≤ 2 ^ (2 * 4) / 2 ^ 23 :=
  (normalisedAngle_float_range 4 0 (by norm_num) (by norm_num) (by norm_num)).1

/-- C18, the code at the failing input: 67108864 frames of mono float audio (about 25
minutes at 44100 Hz) pass the guard of `LoadSound` and give a buffer of 268435456 bytes.
The `int` product `sizeInBytes * 8` is 2^31 and wraps to -2^31, so the sample count is
-67108864 and the duration that `getDurationSeconds` returns is the negative `float`
-6233059/4096 (about -1521.74 s). -/
theorem getDurationSeconds_wraps :
    decodedBytes 67108864 (blockAlign FormatType.Float 1 none) = some 268435456
      ∧ (268435456 : Int) ≤ INT_MAX
      ∧ wrapInt32 (268435456 * 8) = -2147483648
      ∧ getDurationSeconds 268435456 1 32 44100 = some (-6233059 / 4096)
      ∧ (-6233059 / 4096 : ALfloat) < 0 := by
  refine ⟨by decide, by decide, by decide, getDurationSeconds_overflow, by norm_num⟩

/-- C19, the code at the failing input: a two-channel IMA4 file with block alignment
2048 bytes and 2041 frames (one block).  `LoadSound` keeps the format IMA4, allocates
2048 bytes and calls `processStereoSound` with `T = char`, so `tempBuffer` has 2048
elements; the copy loop runs 2041 turns and reads `tempBuffer[2 * i]` outside the buffer
from `i = 1024` on.  The same happens for MSADPCM with 2036 frames.  For the formats
Int16 and Float the buffer has `2 * frames` elements, every read is inside it, and the
outputs are its even-indexed and odd-indexed elements. -/
theorem processStereoSound_reads_past_adpcm_buffer :
    blockAlign FormatType.IMA4 2 (some 2048)
        = { sample_format := FormatType.IMA4, splblockalign := 2041, byteblockalign := 2048 }
      ∧ tempBufferLength 2041 (blockAlign FormatType.IMA4 2 (some 2048)) = some 2048
      ∧ (∀ (T : Type) (tempBuffer : List T), tempBuffer.length = 2048 →
          tempBuffer[2 * 1024]? = none ∧ processStereoSound tempBuffer 2041 = none)
      ∧ blockAlign FormatType.MSADPCM 2 (some 2048)
        = { sample_format := FormatType.MSADPCM, splblockalign := 2036,
            byteblockalign := 2048 }
      ∧ tempBufferLength 2036 (blockAlign FormatType.MSADPCM 2 (some 2048)) = some 2048
      ∧ (∀ (T : Type) (tempBuffer : List T), tempBuffer.length = 2048 →
          processStereoSound tempBuffer 2036 = none)
      ∧ (∀ (selected : FormatType) (nBlockAlign : Option Int) (frames n : Int),
          ((blockAlign selected 2 nBlockAlign).sample_format = FormatType.Int16
            ∨ (blockAlign selected 2 nBlockAlign).sample_format = FormatType.Float) →
          tempBufferLength frames (blockAlign selected 2 nBlockAlign) = some n →
          n = 2 * frames)
      ∧ (∀ (T : Type) (tempBuffer : List T) (frames : Nat),
          tempBuffer.length = 2 * frames →
          ∃ leftChannel rightChannel : List T,
            processStereoSound tempBuffer frames = some (leftChannel, rightChannel)
              ∧ leftChannel.length = frames ∧ rightChannel.length = frames
              ∧ ∀ i, i < frames → leftChannel[i]? = tempBuffer[2 * i]?
                  ∧ rightChannel[i]? = tempBuffer[2 * i + 1]?) := by
  refine ⟨by decide, by decide, ?_, by decide, by decide, ?_, ?_, ?_⟩
  · intro T tempBuffer hlen
    exact ⟨List.getElem?_eq_none (by omega),
      processStereoLoop_out_of_bounds tempBuffer 2041 (by omega)⟩
  · intro T tempBuffer hlen
    exact processStereoLoop_out_of_bounds tempBuffer 2036 (by omega)
  · intro selected nBlockAlign frames n hfmt hlen
    exact tempBufferLength_pcm selected nBlockAlign frames n hfmt hlen
  · intro T tempBuffer frames hlen
    exact processStereoLoop_in_bounds tempBuffer frames (by omega)

end Symphony
